import Mathlib

/-!
# Verification of the Light-Editor isolation / backup-restore engine

Shallow embedding of the core logic of `LightEditor.py` (Blender add-on):
the shader-graph data model, the emissive-node classifier
(`is_emissive_node_active`), the cached emissive discovery
(`find_emissive_objects` with its inner DFS `find_emission_nodes`), the
unified on/off manager (`UnifiedOnOffManager.force_all_off`), the isolation
session (`UnifiedIsolateManager.activate` / `deactivate` / `is_active`) and
the single-entity toggle (`LE_OT_ToggleEmission.execute`).

Modelling conventions:
* Scalar socket values are rationals (`ℚ`); the code only stores, zeroes and
  compares them, never does float arithmetic, so exact rationals are faithful.
* A socket's incoming links are kept on the destination socket as a list of
  `(from_node, from_socket)` pairs; Blender's `socket.is_linked` is
  list-nonemptiness, `links[0]` is the head, `nt.links.remove(links[0])`
  drops the head and `nt.links.new(from, to)` appends (every call site either
  guards on `not to.is_linked` or provably reaches an unlinked socket, where
  append coincides with Blender's replace-on-single-input behaviour).
* `bpy.data.objects` and `context.view_layer.objects` are both modelled by
  the single object list of the scene (one view layer containing everything).
* Assigning the custom property `obj.light_enabled` runs its registered
  `update_light_enabled` callback, which force-sets
  `hide_viewport = hide_render = not light_enabled`; the model's
  `Obj.setLightEnabled` performs exactly that compound write.
  Application handlers (depsgraph callbacks) run between operator calls and
  are outside the modelled operations.
* Python dicts are association lists whose insert overwrites in place
  (`upsert`), preserving insertion order as dict iteration does.
-/

/-- `(from_node, from_socket)` endpoint of a graph link, as stored by every
backup record in the source. -/
abbrev LinkRef := String × String

/-- A socket's `default_value`: Blender float sockets hold a scalar, color
sockets hold an RGBA quadruple. -/
inductive SockVal where
  | scalar (v : ℚ)
  | color (r g b a : ℚ)
deriving DecidableEq, Repr

/-- Python `default_value > 0` on a (scalar) strength socket.  Strength
sockets are scalar in the host; a color value here would be a host type
error, classified as not-greater-than-zero. -/
def SockVal.gtZero : SockVal → Bool
  | .scalar v => 0 < v
  | .color _ _ _ _ => false

/-- Python `any(c > 0 for c in default_value[:3])` on a color socket. -/
def SockVal.anyRGBPos : SockVal → Bool
  | .scalar _ => false
  | .color r g b _ => 0 < r || 0 < g || 0 < b

/-- A shader-node input socket: name, `default_value`, incoming links. -/
structure Socket where
  name : String
  value : SockVal
  links : List LinkRef
deriving DecidableEq, Repr

/-- Blender `socket.is_linked`. -/
def Socket.is_linked (s : Socket) : Bool := !s.links.isEmpty

/-- The node `type` strings the source dispatches on. -/
inductive NType where
  | EMISSION
  | BSDF_PRINCIPLED
  | OUTPUT_MATERIAL
  | OUTPUT_WORLD
  | BACKGROUND
  | OTHER
deriving DecidableEq, Repr

/-- A shader node: `name`, `type`, input sockets, output socket names and the
`is_active_output` flag of output nodes. -/
structure Node where
  name : String
  ntype : NType
  inputs : List Socket
  outputs : List String
  is_active_output : Bool := false
deriving DecidableEq, Repr

/-- Blender `node.inputs.get(name)`: first input socket with that name. -/
def Node.getInput (n : Node) (s : String) : Option Socket :=
  n.inputs.find? (fun i => i.name == s)

/-- `from_node.outputs.get(from_socket)` succeeds iff the node exposes an
output socket of that name. -/
def Node.hasOutput (n : Node) (s : String) : Bool := n.outputs.contains s

/-- A node tree (`material.node_tree` / `world.node_tree`). -/
structure NodeTree where
  nodes : List Node
deriving DecidableEq, Repr

/-- Blender `nt.nodes.get(name)`: first node with that name. -/
def NodeTree.getNode (nt : NodeTree) (s : String) : Option Node :=
  nt.nodes.find? (fun n => n.name == s)

/-- `is_emissive_node_active(node)` (LightEditor.py:415-435): an Emission /
Principled node is currently contributing iff both its strength and color
sockets exist and either one is linked, or the strength value is positive
and some RGB channel of the color is positive. -/
def is_emissive_node_active (node : Node) : Bool :=
  let sockets : Option (Socket × Socket) :=
    match node.ntype with
    | .EMISSION =>
      match node.getInput "Strength", node.getInput "Color" with
      | some s, some c => some (s, c)
      | _, _ => none
    | .BSDF_PRINCIPLED =>
      match node.getInput "Emission Strength", node.getInput "Emission Color" with
      | some s, some c => some (s, c)
      | _, _ => none
    | _ => none
  match sockets with
  | none => false
  | some (s, c) =>
    if s.is_linked || c.is_linked then true
    else s.value.gtZero && c.value.anyRGBPos

/-- Object `type` strings relevant to the source. -/
inductive OType where
  | LIGHT
  | MESH
  | OTHER
deriving DecidableEq, Repr

/-- A scene object.  `light_enabled` is the add-on's custom property (it
exists on every object, defaulting to `true`); `material_slots` holds the
optional material name of each slot. -/
structure Obj where
  name : String
  otype : OType
  hide_viewport : Bool
  hide_render : Bool
  light_enabled : Bool
  material_slots : List (Option String)
deriving DecidableEq, Repr

/-- Assignment `obj.light_enabled = b`: sets the property and runs its
`update_light_enabled` callback (LightEditor.py:348-351), which force-sets
`hide_viewport = hide_render = not b`. -/
def Obj.setLightEnabled (o : Obj) (b : Bool) : Obj :=
  { o with light_enabled := b, hide_viewport := !b, hide_render := !b }

/-- The scene world: `use_nodes` flag and node tree. -/
structure World where
  use_nodes : Bool
  node_tree : NodeTree
deriving DecidableEq, Repr

/-- The scene: all objects (`bpy.data.objects`, equally the single view
layer's objects), all materials, the optional world, and the view layer
name used in the discovery cache key. -/
structure Scene where
  objects : List Obj
  materials : List (String × Bool × NodeTree)
  world : Option World
  view_layer_name : String
deriving DecidableEq, Repr

/-- `bpy.data.materials.get(name)`: first material with that name, as
`(use_nodes, node_tree)`. -/
def Scene.getMaterial (s : Scene) (m : String) : Option (Bool × NodeTree) :=
  (s.materials.find? (fun x => x.1 == m)).map (·.2)

/-- Association-list insert with Python-dict semantics: overwrite in place
if the key is present, else append (preserving insertion order). -/
def upsert {α β : Type} [DecidableEq α] (l : List (α × β)) (k : α) (v : β) :
    List (α × β) :=
  match l with
  | [] => [(k, v)]
  | (k', v') :: t => if k' = k then (k, v) :: t else (k', v') :: upsert t k v

/-- Association-list lookup (Python `d.get(k)` / `d[k]`). -/
def alookup {α β : Type} [DecidableEq α] (l : List (α × β)) (k : α) :
    Option β :=
  (l.find? (fun x => x.1 = k)).map (·.2)

/-- Association-list delete (Python `del d[k]` / `d.pop(k, None)`). -/
def adelete {α β : Type} [DecidableEq α] (l : List (α × β)) (k : α) :
    List (α × β) :=
  match l with
  | [] => []
  | (k', v') :: t => if k' = k then adelete t k else (k', v') :: adelete t k

/-- Update the first node of a tree with the given name. -/
def NodeTree.updateNode (nt : NodeTree) (name : String) (f : Node → Node) :
    NodeTree :=
  ⟨go nt.nodes⟩
where
  go : List Node → List Node
    | [] => []
    | n :: t => if n.name = name then f n :: t else n :: go t

/-- Update the first node of a tree satisfying a predicate (Blender's
`next(n for n in nt.nodes if ...)` followed by mutation of that node). -/
def NodeTree.updateFirstWhere (nt : NodeTree) (p : Node → Bool)
    (f : Node → Node) : NodeTree :=
  ⟨go nt.nodes⟩
where
  go : List Node → List Node
    | [] => []
    | n :: t => if p n then f n :: t else n :: go t

/-- Update the first input socket of a node with the given name. -/
def Node.updateInput (n : Node) (sname : String) (f : Socket → Socket) :
    Node :=
  { n with inputs := go n.inputs }
where
  go : List Socket → List Socket
    | [] => []
    | s :: t => if s.name = sname then f s :: t else s :: go t

/-- First node of a tree with the given type (Blender
`next((n for n in nt.nodes if n.type == t), None)`). -/
def NodeTree.firstOfType (nt : NodeTree) (t : NType) : Option Node :=
  nt.nodes.find? (fun n => n.ntype == t)

/-- The inner depth-first search `find_emission_nodes` of
`find_emissive_objects` (LightEditor.py:464-479), made explicit in the
recursion depth `fuel`: starting from the node named `name`, follow inbound
links, keep a `visited` list of node names, and append to `found` every
Emission node and every Principled BSDF node owning an "Emission Strength"
input.  The Python recursion has no fuel; `find_emission_nodes_depth_stable`
below shows that any `fuel ≥ nt.nodes.length + 1` gives the fixed point the
Python recursion computes, so the canonical instantiation
`find_emission_nodes` uses that bound. -/
def find_emission_nodes_fuel (nt : NodeTree) :
    Nat → String → List String × List String → List String × List String
  | 0, _, st => st
  | Nat.succ fuel, name, (visited, found) =>
    match nt.getNode name with
    | none => (visited, found)
    | some node =>
      if name ∈ visited then (visited, found)
      else
        let visited := visited ++ [name]
        let found :=
          if node.ntype = .EMISSION then found ++ [name]
          else if node.ntype = .BSDF_PRINCIPLED ∧
              (node.getInput "Emission Strength").isSome then found ++ [name]
          else found
        node.inputs.foldl
          (fun st sock =>
            sock.links.foldl
              (fun st l => find_emission_nodes_fuel nt fuel l.1 st) st)
          (visited, found)

/-- `find_emission_nodes` at the sufficient recursion depth. -/
def find_emission_nodes (nt : NodeTree) (name : String)
    (st : List String × List String) : List String × List String :=
  find_emission_nodes_fuel nt (nt.nodes.length + 1) name st

/-- One `(object, material, node)` discovery entry, by names. -/
abbrev Triple := String × String × String

/-- The body of `find_emissive_objects` without the cache: iterate the given
objects, visit each mesh object's material slots, walk each not-yet-seen
material with nodes from its active output's linked Surface socket, and
collect the currently-active emission-capable nodes
(LightEditor.py:448-482). -/
def find_emissive_compute (s : Scene) (objs : List Obj) : List Triple :=
  (objs.foldl step ([], [])).2
where
  matStep (s : Scene) (oname : String)
      (st : List String × List Triple) (slot : Option String) :
      List String × List Triple :=
    let (seen, acc) := st
    match slot with
    | none => (seen, acc)
    | some mname =>
      match s.getMaterial mname with
      | none => (seen, acc)
      | some (use_nodes, nt) =>
        if ¬ use_nodes ∨ mname ∈ seen then (seen, acc)
        else
          let seen := seen ++ [mname]
          match nt.nodes.find? (fun n =>
              n.ntype == .OUTPUT_MATERIAL && n.is_active_output) with
          | none => (seen, acc)
          | some output =>
            match output.getInput "Surface" with
            | none => (seen, acc)
            | some surf =>
              if surf.links.isEmpty then (seen, acc)
              else
                let found :=
                  (surf.links.foldl
                    (fun fd l =>
                      (find_emission_nodes nt l.1 ([], fd)).2) [])
                let act := found.filter (fun nn =>
                  match nt.getNode nn with
                  | some node => is_emissive_node_active node
                  | none => false)
                (seen, acc ++ act.map (fun nn => (oname, mname, nn)))
  step (st : List String × List Triple) (o : Obj) :
      List String × List Triple :=
    if o.otype = .MESH then o.material_slots.foldl (matStep s o.name) st
    else st

/-- The global `emissive_material_cache`: cache-key → cached result list. -/
abbrev EmCache := List (String × List Triple)

/-- The cache key `f"{view_layer.name}_{len(materials)}_{len(objects)}"`. -/
def cacheKey (s : Scene) : String :=
  s.view_layer_name ++ "_" ++ toString s.materials.length ++ "_"
    ++ toString s.objects.length

/-- `find_emissive_objects(context, search_objects)`
(LightEditor.py:437-491) with the cache made explicit.  Returns the result,
whether it was served from the cache, and the updated cache: an explicit
object list bypasses the cache entirely; a whole-scene call is answered from
the cache when the key is present, and otherwise recomputes, caching a
non-empty result and deleting any entry under the key when the result is
empty. -/
def find_emissive_objects (s : Scene) (cache : EmCache)
    (search_objects : Option (List Obj)) :
    List Triple × Bool × EmCache :=
  let use_cache := search_objects.isNone
  let objs := match search_objects with
    | some l => l
    | none => s.objects
  if use_cache then
    match alookup cache (cacheKey s) with
    | some r => (r, true, cache)
    | none =>
      let r := find_emissive_compute s objs
      if r.isEmpty then (r, false, adelete cache (cacheKey s))
      else (r, false, upsert cache (cacheKey s) r)
  else (find_emissive_compute s objs, false, cache)

/-- Isolation modes (`class UnifiedIsolateMode`). -/
inductive Mode where
  | LIGHT_GROUP
  | LIGHT_ROW
  | MATERIAL
  | ENVIRONMENT
  | MATERIAL_GROUP
  | ENVIRONMENT_SURFACE
  | ENVIRONMENT_VOLUME
deriving DecidableEq, Repr

/-- The `identifier` values passed to `activate`/`is_active`: the light modes
pass a pair `(keep_lights, keep_emissive)` of name sets, the material mode
passes a `(material_name, node_name)` tuple. -/
inductive PyIdent where
  | pairSets (keepLights keepEmissive : Finset String)
  | matKey (mat node : String)
deriving DecidableEq

/-- State of the global `UnifiedOnOffManager`: the three backup dicts. -/
structure OnOffMgr where
  light_backup : List (String × (Bool × Bool × Bool))
  material_backup : List ((String × String) × SockVal)
  env_backup : List (String × LinkRef)
deriving DecidableEq

/-- `keep_lights` computed at the top of `force_all_off`
(LightEditor.py:63-65): the first set of a light-mode identifier, otherwise
empty.  (A material-shaped identifier together with a light mode never occurs
at any call site; it is mapped to the empty keep set.) -/
def keepLightsOf (exMode : Option Mode) (exIdent : Option PyIdent) :
    Finset String :=
  if exMode = some .LIGHT_ROW ∨ exMode = some .LIGHT_GROUP then
    match exIdent with
    | some (.pairSets k _) => k
    | _ => ∅
  else ∅

/-- The light pass of `force_all_off` (LightEditor.py:67-79): back up every
light's `(hide_viewport, hide_render, light_enabled)` and disable every
light whose name is not kept. -/
def force_lights (keep : Finset String) :
    List Obj → List (String × (Bool × Bool × Bool)) →
    List Obj × List (String × (Bool × Bool × Bool))
  | [], bk => ([], bk)
  | o :: t, bk =>
    if o.otype = .LIGHT then
      let bk := upsert bk o.name (o.hide_viewport, o.hide_render, o.light_enabled)
      let o' :=
        if o.name ∈ keep then o
        else ({ o with hide_viewport := true, hide_render := true
              } : Obj).setLightEnabled false
      let (t', bk') := force_lights keep t bk
      (o' :: t', bk')
    else
      let (t', bk') := force_lights keep t bk
      (o :: t', bk')

/-- `node.inputs.get("Strength") or node.inputs.get("Emission Strength")`,
returning the socket together with its name. -/
def orStrength (n : Node) : Option (String × Socket) :=
  match n.getInput "Strength" with
  | some s => some ("Strength", s)
  | none =>
    match n.getInput "Emission Strength" with
    | some s => some ("Emission Strength", s)
    | none => none

/-- The material pass of `force_all_off` over one material's nodes
(LightEditor.py:85-100): for every node owning a strength socket and not
being the excepted material target, back up the socket's value and zero
it. -/
def force_nodes (mname : String) (exMode : Option Mode)
    (exIdent : Option PyIdent) :
    List Node → List ((String × String) × SockVal) →
    List Node × List ((String × String) × SockVal)
  | [], bk => ([], bk)
  | n :: t, bk =>
    match orStrength n with
    | none =>
      let (t', bk') := force_nodes mname exMode exIdent t bk
      (n :: t', bk')
    | some (sname, sock) =>
      if exMode = some .MATERIAL ∧ exIdent = some (.matKey mname n.name) then
        let (t', bk') := force_nodes mname exMode exIdent t bk
        (n :: t', bk')
      else
        let bk := upsert bk (mname, n.name) sock.value
        let n' := n.updateInput sname (fun s => { s with value := .scalar 0 })
        let (t', bk') := force_nodes mname exMode exIdent t bk
        (n' :: t', bk')

/-- The material pass of `force_all_off` over all materials
(LightEditor.py:82-100). -/
def force_materials (exMode : Option Mode) (exIdent : Option PyIdent) :
    List (String × Bool × NodeTree) → List ((String × String) × SockVal) →
    List (String × Bool × NodeTree) × List ((String × String) × SockVal)
  | [], bk => ([], bk)
  | (mname, un, nt) :: t, bk =>
    if un then
      let (nodes', bk') := force_nodes mname exMode exIdent nt.nodes bk
      let (t', bk'') := force_materials exMode exIdent t bk'
      ((mname, un, ⟨nodes'⟩) :: t', bk'')
    else
      let (t', bk') := force_materials exMode exIdent t bk
      ((mname, un, nt) :: t', bk')

/-- One step of the world pass of `force_all_off` (LightEditor.py:108-114):
if the named input of the world output node is linked, back up the head
link's endpoints and remove that link. -/
def envOffStep (st : NodeTree × List (String × LinkRef)) (name : String) :
    NodeTree × List (String × LinkRef) :=
  let (nt, bk) := st
  match nt.firstOfType .OUTPUT_WORLD with
  | none => st
  | some output =>
    match output.getInput name with
    | none => st
    | some sock =>
      match sock.links with
      | [] => st
      | l :: _ =>
        (nt.updateFirstWhere (fun n => n.ntype == .OUTPUT_WORLD)
          (fun n => n.updateInput name (fun s => { s with links := s.links.tail })),
         upsert bk name l)

/-- The world pass of `force_all_off` (LightEditor.py:102-114): disconnect
the Surface and Volume inputs of the world output, unconditionally of the
excepted mode. -/
def force_world :
    Option World → List (String × LinkRef) →
    Option World × List (String × LinkRef)
  | none, bk => (none, bk)
  | some w, bk =>
    if w.use_nodes then
      match w.node_tree.firstOfType .OUTPUT_WORLD with
      | none => (some w, bk)
      | some _ =>
        let (nt', bk') := ["Surface", "Volume"].foldl envOffStep (w.node_tree, bk)
        (some { w with node_tree := nt' }, bk')
    else (some w, bk)

/-- `UnifiedOnOffManager.force_all_off(context, except_mode,
except_identifier)` (LightEditor.py:55-118). -/
def force_all_off (sc : Scene) (mgr : OnOffMgr) (exMode : Option Mode)
    (exIdent : Option PyIdent) : Scene × OnOffMgr :=
  let keep := keepLightsOf exMode exIdent
  let (objs, lb) := force_lights keep sc.objects mgr.light_backup
  let (mats, mb) := force_materials exMode exIdent sc.materials mgr.material_backup
  let (w, eb) := force_world sc.world mgr.env_backup
  ({ sc with objects := objs, materials := mats, world := w },
   { light_backup := lb, material_backup := mb, env_backup := eb })

/-- Keys of `UnifiedIsolateManager._backup`: Python uses plain strings for
light names and for the `env_link_Surface` / `env_link_Volume` entries, and
`(material, node)` tuples for emissive sockets; `deactivate` dispatches on
tuple-ness first and then on the `env_link_` prefix. -/
inductive BKey where
  | str (s : String)
  | pair (mat node : String)
deriving DecidableEq

/-- Values of `UnifiedIsolateManager._backup`: a light's
`(hide_viewport, hide_render)` pair, an emissive socket's value, or an
environment link's endpoints. -/
inductive BVal where
  | lightTup (hv hr : Bool)
  | sockVal (v : SockVal)
  | linkRef (l : LinkRef)
deriving DecidableEq

/-- State of the global `UnifiedIsolateManager`. -/
structure IsoMgr where
  backup : List (BKey × BVal)
  active_mode : Option Mode
  active_identifier : Option PyIdent
deriving DecidableEq

/-- `UnifiedIsolateManager.is_active(mode, identifier)`
(LightEditor.py:189-194).  Passing `identifier=None` (also the Python
default) checks the mode only. -/
def IsoMgr.is_active (m : IsoMgr) (mode : Option Mode)
    (identifier : Option PyIdent) : Bool :=
  match mode with
  | none => m.active_mode.isSome
  | some md =>
    match identifier with
    | none => m.active_mode = some md
    | some i => m.active_mode = some md ∧ m.active_identifier = some i

/-- `UnifiedIsolateManager.get_active_info()`. -/
def IsoMgr.get_active_info (m : IsoMgr) : Option Mode × Option PyIdent :=
  (m.active_mode, m.active_identifier)

/-- A record of the toggle operator's `_emissive_link_backup` store:
`('LINK', from_node, from_socket)` or `('VALUE', default_value)`. -/
inductive TogRec where
  | link (fromNode fromSocket : String)
  | value (v : SockVal)
deriving DecidableEq

/-- The whole mutable state the modelled operations touch: the scene, the
`emissive_material_cache`, both manager singletons and the
`_emissive_link_backup` dict of the toggle operator. -/
structure GState where
  scene : Scene
  cache : EmCache
  onoff : OnOffMgr
  iso : IsoMgr
  emissive_link_backup : List (String × List (String × TogRec))
deriving DecidableEq

/-- The socket-name selection used by the isolate manager and the toggle
operator: `"Strength" if node.type == 'EMISSION' else "Emission Strength"`. -/
def typeStrengthName (n : Node) : String :=
  if n.ntype = .EMISSION then "Strength" else "Emission Strength"

/-- The socket selected by `typeStrengthName`. -/
def typeStrengthSocket (n : Node) : Option Socket :=
  n.getInput (typeStrengthName n)

/-- Write a value into the type-selected strength socket of one node of a
tree (a no-op when node or socket is absent, matching the source's `if`
guards). -/
def setTypeStrengthValue (nt : NodeTree) (nname : String) (v : SockVal) :
    NodeTree :=
  nt.updateNode nname (fun n =>
    n.updateInput (typeStrengthName n) (fun s => { s with value := v }))

/-- Replace the node tree of the named material. -/
def Scene.updateMaterialTree (sc : Scene) (m : String)
    (f : NodeTree → NodeTree) : Scene :=
  { sc with materials := go sc.materials }
where
  go : List (String × Bool × NodeTree) → List (String × Bool × NodeTree)
    | [] => []
    | (nm, un, nt) :: t =>
      if nm = m then (nm, un, f nt) :: t else (nm, un, nt) :: go t

/-- Update the first object with the given name (`bpy.data.objects.get`). -/
def Scene.updateFirstObj (sc : Scene) (name : String) (f : Obj → Obj) :
    Scene :=
  { sc with objects := go sc.objects }
where
  go : List Obj → List Obj
    | [] => []
    | o :: t => if o.name = name then f o :: t else o :: go t

/-- Snapshot phase of `activate` for lights (LightEditor.py:205-207). -/
def snapLights (objs : List Obj) (bk : List (BKey × BVal)) :
    List (BKey × BVal) :=
  objs.foldl
    (fun bk o =>
      if o.otype = .LIGHT then
        upsert bk (.str o.name) (.lightTup o.hide_viewport o.hide_render)
      else bk) bk

/-- Snapshot phase of `activate` for discovered emissive nodes
(LightEditor.py:208-212); the discovery's live node references are resolved
by name in the current scene. -/
def snapEmissives (sc : Scene) (trips : List Triple)
    (bk : List (BKey × BVal)) : List (BKey × BVal) :=
  trips.foldl
    (fun bk t =>
      match sc.getMaterial t.2.1 with
      | none => bk
      | some (_, nt) =>
        match nt.getNode t.2.2 with
        | none => bk
        | some node =>
          match typeStrengthSocket node with
          | none => bk
          | some sock => upsert bk (.pair t.2.1 t.2.2) (.sockVal sock.value)) bk

/-- Snapshot phase of `activate` for the world's Surface/Volume links
(LightEditor.py:213-222). -/
def snapEnv (w : Option World) (bk : List (BKey × BVal)) :
    List (BKey × BVal) :=
  match w with
  | none => bk
  | some w =>
    if w.use_nodes then
      match w.node_tree.firstOfType .OUTPUT_WORLD with
      | none => bk
      | some output =>
        ["Surface", "Volume"].foldl
          (fun bk name =>
            match output.getInput name with
            | none => bk
            | some sock =>
              match sock.links with
              | [] => bk
              | l :: _ => upsert bk (.str ("env_link_" ++ name)) (.linkRef l))
          bk
    else bk

/-- The keep set used by the light-mode branch of `activate`
(LightEditor.py:229): the first component of a pair identifier, else
empty. -/
def keepBranchOf (ident : Option PyIdent) : Finset String :=
  match ident with
  | some (.pairSets k _) => k
  | _ => ∅

/-- Light-mode branch of `activate` (LightEditor.py:228-233): re-apply the
snapshotted visibility to the kept lights.  (Every light was snapshotted two
phases earlier, so the direct dict indexing cannot fail; a non-light record
under a light's name is unreachable and skipped.) -/
def lightBranch (objs : List Obj) (keep : Finset String)
    (bk : List (BKey × BVal)) : List Obj :=
  objs.map fun o =>
    if o.otype = .LIGHT ∧ o.name ∈ keep then
      match alookup bk (.str o.name) with
      | some (.lightTup hv hr) =>
        { o with hide_viewport := hv, hide_render := hr }
      | _ => o
    else o

/-- Material-mode branch of `activate`, one discovery entry
(LightEditor.py:236-240): restore the snapshotted value into the target's
strength socket. -/
def matBranchStep (ident : Option PyIdent) (bk : List (BKey × BVal))
    (sc : Scene) (t : Triple) : Scene :=
  if ident = some (.matKey t.2.1 t.2.2) then
    match alookup bk (.pair t.2.1 t.2.2) with
    | some (.sockVal v) =>
      sc.updateMaterialTree t.2.1 (fun nt => setTypeStrengthValue nt t.2.2 v)
    | _ => sc
  else sc

/-- Recreate one backed-up environment link (LightEditor.py:249-254 and
276-282): only when the source node and socket still exist and the
destination socket is currently unlinked. -/
def relinkEnv (nt : NodeTree) (name : String) (l : LinkRef) : NodeTree :=
  match nt.firstOfType .OUTPUT_WORLD with
  | none => nt
  | some output =>
    match nt.getNode l.1 with
    | none => nt
    | some fromNode =>
      if fromNode.hasOutput l.2 then
        match output.getInput name with
        | none => nt
        | some sock =>
          if sock.is_linked then nt
          else
            nt.updateFirstWhere (fun n => n.ntype == .OUTPUT_WORLD)
              (fun n => n.updateInput name
                (fun s => { s with links := s.links ++ [l] }))
      else nt

/-- Environment-mode branch of `activate` (LightEditor.py:241-254):
re-create both world links just removed by `force_all_off`. -/
def envBranch (sc : Scene) (bk : List (BKey × BVal)) : Scene :=
  match sc.world with
  | none => sc
  | some w =>
    if w.use_nodes then
      match w.node_tree.firstOfType .OUTPUT_WORLD with
      | none => sc
      | some _ =>
        let nt := ["Surface", "Volume"].foldl
          (fun nt name =>
            match alookup bk (.str ("env_link_" ++ name)) with
            | some (.linkRef l) => relinkEnv nt name l
            | _ => nt) w.node_tree
        { sc with world := some { w with node_tree := nt } }
    else sc

/-- `UnifiedIsolateManager.activate(context, mode, identifier)`
(LightEditor.py:199-256): clear the backup, record the new target, snapshot
lights, discovered emissive sockets and world links, call `force_all_off`,
then run the mode-specific keep branch. -/
def activate (gs : GState) (mode : Mode) (ident : Option PyIdent) : GState :=
  let s0 := gs.scene
  let b1 := snapLights s0.objects []
  let (trips, _, c1) := find_emissive_objects s0 gs.cache none
  let b2 := snapEmissives s0 trips b1
  let b3 := snapEnv s0.world b2
  let (s1, onoff1) := force_all_off s0 gs.onoff (some mode) ident
  let (s2, c2) :=
    if mode = .LIGHT_GROUP ∨ mode = .LIGHT_ROW then
      ({ s1 with objects := lightBranch s1.objects (keepBranchOf ident) b3 }, c1)
    else if mode = .MATERIAL then
      let (trips2, _, c2) := find_emissive_objects s1 c1 none
      (trips2.foldl (matBranchStep ident b3) s1, c2)
    else if mode = .ENVIRONMENT then
      (envBranch s1 b3, c1)
    else (s1, c1)
  { gs with
    scene := s2
    cache := c2
    onoff := onoff1
    iso := { backup := b3, active_mode := some mode, active_identifier := ident } }

/-- Python `str.startswith`, stated over the character lists so that it
evaluates by kernel reduction. -/
def strStartsWith (s p : String) : Bool := p.data.isPrefixOf s.data

/-- Fuel-indexed core of Python `str.replace(p, "")` over character lists;
the fuel `l.length` is enough because every step consumes at least one
character. -/
def replaceListFuel : Nat → List Char → List Char → List Char
  | 0, l, _ => l
  | Nat.succ fuel, l, p =>
    match l with
    | [] => []
    | c :: t =>
      if p.isPrefixOf (c :: t) && !p.isEmpty then
        replaceListFuel fuel ((c :: t).drop p.length) p
      else c :: replaceListFuel fuel t p

/-- Python `k.replace(p, "")`: delete every occurrence of `p`, stated so
that it evaluates by kernel reduction. -/
def strDeleteAll (k p : String) : String :=
  ⟨replaceListFuel k.data.length k.data p.data⟩

/-- One record replay of `UnifiedIsolateManager.deactivate`
(LightEditor.py:260-287): tuple keys restore emissive socket values, string
keys with the `env_link_` prefix restore world links (only onto unlinked
sockets), other string keys restore a light's visibility pair and then
assign `light_enabled = not (hide_viewport and hide_render)` (running its
update callback). -/
def deactStep (sc : Scene) (e : BKey × BVal) : Scene :=
  match e with
  | (.pair m n, v) =>
    match v with
    | .sockVal val =>
      match sc.getMaterial m with
      | some (un, _) =>
        if un then
          sc.updateMaterialTree m (fun nt => setTypeStrengthValue nt n val)
        else sc
      | none => sc
    | _ => sc
  | (.str k, v) =>
    if strStartsWith k "env_link_" then
      match v with
      | .linkRef l =>
        match sc.world with
        | some w =>
          if w.use_nodes then
            { sc with world := some { w with
                node_tree := relinkEnv w.node_tree (strDeleteAll k "env_link_") l } }
          else sc
        | none => sc
      | _ => sc
    else
      match v with
      | .lightTup hv hr =>
        sc.updateFirstObj k (fun o =>
          if o.otype = .LIGHT then
            ({ o with hide_viewport := hv, hide_render := hr
             } : Obj).setLightEnabled (!(hv && hr))
          else o)
      | _ => sc

/-- `UnifiedIsolateManager.deactivate(context)` (LightEditor.py:258-292):
replay every backup record in insertion order, then clear the store and the
active target. -/
def deactivate (gs : GState) : GState :=
  { gs with
    scene := gs.iso.backup.foldl deactStep gs.scene
    iso := { backup := [], active_mode := none, active_identifier := none } }

/-- The nodes `LE_OT_ToggleEmission.execute` toggles
(LightEditor.py:1091-1108): with a non-blank `node_name`, that single node
(CANCELLED when absent); otherwise every Emission / Principled node owning a
strength socket (CANCELLED when there is none). -/
def nodesToToggle (nt : NodeTree) (node_name : String) : Option (List Node) :=
  if node_name.data.any (fun c => !c.isWhitespace) then
    match nt.getNode node_name with
    | none => none
    | some n => some [n]
  else
    let l := nt.nodes.filter (fun n =>
      (n.ntype == .EMISSION || n.ntype == .BSDF_PRINCIPLED) &&
      (orStrength n).isSome)
    if l.isEmpty then none else some l

/-- The `is_on` predicate of `LE_OT_ToggleEmission.execute`
(LightEditor.py:1122-1126): some toggled node's
`Strength`-or-`Emission Strength` socket is linked or positive.  (A toggled
node without either socket would raise in the source before any mutation;
the operator model aborts in that case before this test is reached.) -/
def toggleIsOn (nodes : List Node) : Bool :=
  nodes.any fun n =>
    match orStrength n with
    | some (_, s) => s.is_linked || s.value.gtZero
    | none => false

/-- One node of the toggle loop (LightEditor.py:1130-1165), reading the
node's current socket from the tree: when `is_on`, store a `LINK` record and
remove the head link, or store a `VALUE` record and zero the value; when
off, replay and delete the stored record (re-creating a link only when its
source still resolves), or default the value to `1.0` when no record
exists. -/
def toggleStep (matName : String) (is_on : Bool)
    (st : NodeTree × List (String × TogRec)) (nname : String) :
    NodeTree × List (String × TogRec) :=
  let (nt, store) := st
  match nt.getNode nname with
  | none => st
  | some node =>
    match typeStrengthSocket node with
    | none => st
    | some sock =>
      let key := matName ++ ":" ++ nname ++ ":Strength"
      if is_on then
        match sock.links with
        | l :: _ =>
          (nt.updateNode nname (fun n =>
             n.updateInput (typeStrengthName n)
               (fun s => { s with links := s.links.tail })),
           upsert store key (.link l.1 l.2))
        | [] =>
          (nt.updateNode nname (fun n =>
             n.updateInput (typeStrengthName n)
               (fun s => { s with value := .scalar 0 })),
           upsert store key (.value sock.value))
      else
        match alookup store key with
        | some r =>
          let nt' := match r with
            | .link fn fs =>
              match nt.getNode fn with
              | none => nt
              | some fromNode =>
                if fromNode.hasOutput fs then
                  nt.updateNode nname (fun n =>
                    n.updateInput (typeStrengthName n)
                      (fun s => { s with links := s.links ++ [(fn, fs)] }))
                else nt
            | .value v =>
              nt.updateNode nname (fun n =>
                n.updateInput (typeStrengthName n)
                  (fun s => { s with value := v }))
          (nt', adelete store key)
        | none =>
          (nt.updateNode nname (fun n =>
             n.updateInput (typeStrengthName n)
               (fun s => { s with value := .scalar 1 })), store)

/-- `LE_OT_ToggleEmission.execute(context)` (LightEditor.py:1080-1178).
`none` models the CANCELLED early-outs (missing material / nodes) and the
pre-mutation attribute error on a toggled node whose type-selected strength
socket is absent — in every such case no state was changed yet. -/
def toggle_emission (gs : GState) (mat_name node_name : String) :
    Option GState :=
  match gs.scene.getMaterial mat_name with
  | none => none
  | some (un, nt) =>
    if un then
      match nodesToToggle nt node_name with
      | none => none
      | some nodes =>
        if nodes.any (fun n => (typeStrengthSocket n).isNone) then none
        else
          let store0 := (alookup gs.emissive_link_backup mat_name).getD []
          let is_on := toggleIsOn nodes
          let (nt', store') :=
            nodes.foldl (fun st n => toggleStep mat_name is_on st n.name)
              (nt, store0)
          let elb :=
            if store'.isEmpty then adelete gs.emissive_link_backup mat_name
            else upsert gs.emissive_link_backup mat_name store'
          some { gs with
            scene := gs.scene.updateMaterialTree mat_name (fun _ => nt')
            emissive_link_backup := elb }
    else none

/-- `bpy.data.objects.get(name)`. -/
def Scene.getObj (sc : Scene) (name : String) : Option Obj :=
  sc.objects.find? (fun o => o.name == name)

/-- Observer: the value of the type-selected strength socket of a node,
addressed by material and node name. -/
def getTypeStrengthValue (sc : Scene) (m n : String) : Option SockVal :=
  match sc.getMaterial m with
  | none => none
  | some (_, nt) =>
    match nt.getNode n with
    | none => none
    | some node => (typeStrengthSocket node).map (·.value)

/-- Observer: the incoming links of the type-selected strength socket of a
node, addressed by material and node name. -/
def getTypeStrengthLinks (sc : Scene) (m n : String) : Option (List LinkRef) :=
  match sc.getMaterial m with
  | none => none
  | some (_, nt) =>
    match nt.getNode n with
    | none => none
    | some node => (typeStrengthSocket node).map (·.links)

/-- Observer: the links of the named input of the first world output node. -/
def worldSocketLinks (sc : Scene) (name : String) : Option (List LinkRef) :=
  match sc.world with
  | none => none
  | some w =>
    match w.node_tree.firstOfType .OUTPUT_WORLD with
    | none => none
    | some output => (output.getInput name).map (·.links)

/-- Observer: the value of the Strength input of the first Background node
of the world tree. -/
def bgStrengthValue (sc : Scene) : Option SockVal :=
  match sc.world with
  | none => none
  | some w =>
    match w.node_tree.firstOfType .BACKGROUND with
    | none => none
    | some bg => (bg.getInput "Strength").map (·.value)

/-- Host invariants of one socket: at most one incoming link (single-input
sockets) whose source node and output socket exist in the tree. -/
def socketWF (nt : NodeTree) (s : Socket) : Prop :=
  s.links.length ≤ 1 ∧
  ∀ l ∈ s.links, ∃ n, nt.getNode l.1 = some n ∧ n.hasOutput l.2 = true

/-- Host invariants of one node tree: node names are unique, every socket is
well-formed, and no node exposes both a "Strength" and an
"Emission Strength" input (no Blender node type does). -/
def treeWF (nt : NodeTree) : Prop :=
  (nt.nodes.map (·.name)).Nodup ∧
  ∀ n ∈ nt.nodes,
    (∀ s ∈ n.inputs, socketWF nt s) ∧
    ¬((n.getInput "Strength").isSome ∧ (n.getInput "Emission Strength").isSome)

/-- Host invariants of a scene: unique object and material names, no object
named with the reserved `env_link_` prefix, and well-formed trees. -/
def Scene.WF (sc : Scene) : Prop :=
  (sc.objects.map (·.name)).Nodup ∧
  (sc.materials.map (·.1)).Nodup ∧
  (∀ o ∈ sc.objects, strStartsWith o.name "env_link_" = false) ∧
  (∀ m ∈ sc.materials, treeWF m.2.2) ∧
  (∀ w, sc.world = some w → treeWF w.node_tree)

instance (nt : NodeTree) (s : Socket) : Decidable (socketWF nt s) := by
  unfold socketWF; infer_instance

instance (nt : NodeTree) : Decidable (treeWF nt) := by
  unfold treeWF; infer_instance

instance (sc : Scene) : Decidable sc.WF := by
  unfold Scene.WF; infer_instance

/-- Observer: the named input socket of a node, addressed through the scene
by material name and node name. -/
def getNamedInput (sc : Scene) (m n sname : String) : Option Socket :=
  match sc.getMaterial m with
  | none => none
  | some (_, nt) =>
    match nt.getNode n with
    | none => none
    | some node => node.getInput sname

/-- The emissive test exactly as claim C7 words it (spec-side definition,
used only to refute the claim against `is_emissive_node_active`): an
Emission node is emissive iff its Strength socket is connected or positive;
a Principled node iff its emission-strength socket is connected or positive
or, absent that socket, some emission-color channel is positive. -/
def is_emissive_claimC7 (node : Node) : Bool :=
  match node.ntype with
  | .EMISSION =>
    match node.getInput "Strength" with
    | some s => s.is_linked || s.value.gtZero
    | none => false
  | .BSDF_PRINCIPLED =>
    match node.getInput "Emission Strength" with
    | some s => s.is_linked || s.value.gtZero
    | none =>
      match node.getInput "Emission Color" with
      | some c => c.value.anyRGBPos
      | none => false
  | _ => false

/-- One inbound-edge step of the DFS: from node `x` to the source node of
some incoming link of some input of `x`. -/
def stepsTo (nt : NodeTree) (x y : String) : Prop :=
  ∃ n, nt.getNode x = some n ∧ ∃ s ∈ n.inputs, ∃ l ∈ s.links, l.1 = y

/-- Reachability along inbound edges (reflexive-transitive closure of
`stepsTo`), the direction `find_emission_nodes` walks. -/
def reaches (nt : NodeTree) : String → String → Prop :=
  Relation.ReflTransGen (stepsTo nt)

/-- Whether the DFS classifies the node of this name as emission-capable:
an Emission node, or a Principled BSDF with an "Emission Strength" input. -/
def capableB (nt : NodeTree) (x : String) : Bool :=
  match nt.getNode x with
  | none => false
  | some n =>
    n.ntype == .EMISSION ||
    (n.ntype == .BSDF_PRINCIPLED && (n.getInput "Emission Strength").isSome)

/-- Remove the link `e` from the input socket `sname` of every node named
`d` (the model of deleting one edge from the graph). -/
def NodeTree.removeLink (nt : NodeTree) (d sname : String) (e : LinkRef) :
    NodeTree :=
  ⟨nt.nodes.map fun n =>
    if n.name = d then
      n.updateInput sname (fun s => { s with links := s.links.erase e })
    else n⟩

/-- The first mesh object of the searched list holding a slot for the named
material — the object the discovery pairs that material with. -/
def firstUser (objs : List Obj) (m : String) : Option String :=
  (objs.find? fun o =>
    o.otype == OType.MESH && decide (some m ∈ o.material_slots)).map (·.name)

/-- The per-light effect of `force_all_off`'s light pass. -/
def forceLightMap (keep : Finset String) (o : Obj) : Obj :=
  if o.otype = .LIGHT ∧ o.name ∉ keep then
    ({ o with hide_viewport := true, hide_render := true } : Obj).setLightEnabled false
  else o

/-- The per-node effect of `force_all_off`'s material pass. -/
def forceNodeMap (mname : String) (exMode : Option Mode)
    (exIdent : Option PyIdent) (n : Node) : Node :=
  match orStrength n with
  | none => n
  | some (sname, _) =>
    if exMode = some .MATERIAL ∧ exIdent = some (.matKey mname n.name) then n
    else n.updateInput sname (fun s => { s with value := .scalar 0 })

/-- The snapshot an `activate` call takes, as a function of scene and cache
alone: the isolate-manager state produced by activating from pristine
manager state.  Used to express that an activation's snapshot is
independent of any previous session's records. -/
def activeSnapshotOf (sc : Scene) (cache : EmCache) (mode : Mode)
    (ident : Option PyIdent) : IsoMgr :=
  (activate ⟨sc, cache, ⟨[], [], []⟩, ⟨[], none, none⟩, []⟩ mode ident).iso

/-- Pristine manager / operator state. -/
def emptyOnOff : OnOffMgr := ⟨[], [], []⟩

/-- Pristine isolate-manager state. -/
def emptyIso : IsoMgr := ⟨[], none, none⟩

/-- A fresh global state around a scene: empty cache and pristine managers. -/
def freshGState (sc : Scene) : GState := ⟨sc, [], emptyOnOff, emptyIso, []⟩

/-- C7 counterexample node: an Emission node with positive unlinked Strength
but pure-black Color. -/
def cexEmNode : Node :=
  ⟨"E", .EMISSION,
   [⟨"Strength", .scalar 5, []⟩, ⟨"Color", .color 0 0 0 1, []⟩],
   ["Emission"], false⟩

/-- C1 counterexample scene: one material with a positive Emission node but
no objects at all, so the discovery snapshot is empty while `force_all_off`
still zeroes the socket. -/
def sceneRT : Scene :=
  ⟨[],
   [("M", true,
     ⟨[⟨"E", .EMISSION,
        [⟨"Strength", .scalar 5, []⟩, ⟨"Color", .color 1 1 1 1, []⟩],
        ["Emission"], false⟩]⟩)],
   none, "VL"⟩

/-- C3 scenario scene: a world whose Background has Strength 1 and whose
output Surface is linked from node "N" output "Shader". -/
def sceneEnv : Scene :=
  ⟨[], [],
   some ⟨true,
     ⟨[⟨"Background", .BACKGROUND,
        [⟨"Color", .color 1 1 1 1, []⟩, ⟨"Strength", .scalar 1, []⟩],
        ["Background"], false⟩,
       ⟨"World Output", .OUTPUT_WORLD,
        [⟨"Surface", .scalar 0, [("N", "Shader")]⟩,
         ⟨"Volume", .scalar 0, []⟩],
        [], false⟩,
       ⟨"N", .OTHER, [], ["Shader"], false⟩]⟩⟩,
   "VL"⟩

/-- C2 counterexample scene: two enabled, visible lights. -/
def sceneLights : Scene :=
  ⟨[⟨"L1", .LIGHT, false, false, true, []⟩,
    ⟨"L2", .LIGHT, false, false, true, []⟩],
   [], none, "VL"⟩

/-- Identifier isolating light L1. -/
def identKeepL1 : PyIdent := .pairSets {"L1"} ∅

/-- Identifier isolating light L2. -/
def identKeepL2 : PyIdent := .pairSets {"L2"} ∅

/-- C6 counterexample scene: material M whose Emission node's Strength is
linked from node V while the socket's stored scalar is still 1. -/
def sceneTogLinked : Scene :=
  ⟨[],
   [("M", true,
     ⟨[⟨"E", .EMISSION,
        [⟨"Strength", .scalar 1, [("V", "Value")]⟩,
         ⟨"Color", .color 1 1 1 1, []⟩],
        ["Emission"], false⟩,
       ⟨"V", .OTHER, [], ["Value"], false⟩]⟩)],
   none, "VL"⟩

/-- C6 witness scene: material M whose Emission node's Strength is an
unlinked positive scalar. -/
def sceneTogGood : Scene :=
  ⟨[],
   [("M", true,
     ⟨[⟨"E", .EMISSION,
        [⟨"Strength", .scalar 5, []⟩, ⟨"Color", .color 1 1 1 1, []⟩],
        ["Emission"], false⟩]⟩)],
   none, "VL"⟩

/-- C5 witness scene: the toggled Emission node reads as off while another
node D keeps a live link from E's output. -/
def sceneTogOff : Scene :=
  ⟨[],
   [("M", true,
     ⟨[⟨"E", .EMISSION,
        [⟨"Strength", .scalar 0, []⟩, ⟨"Color", .color 1 1 1 1, []⟩],
        ["Emission"], false⟩,
       ⟨"D", .OTHER, [⟨"In", .scalar 0, [("E", "Emission")]⟩], [], false⟩]⟩)],
   none, "VL"⟩

/-- C9 counterexample scene: nothing emissive, so the discovery result is
empty and never cached. -/
def sceneEmpty9 : Scene := ⟨[], [], none, "VL"⟩

/-- C4 counterexample scene: a discovered emissive node whose Strength
socket has an incoming edge (and stored scalar 3). -/
def sceneLinkedEm : Scene :=
  ⟨[⟨"O", .MESH, false, false, true, [some "M"]⟩],
   [("M", true,
     ⟨[⟨"E", .EMISSION,
        [⟨"Strength", .scalar 3, [("V", "Value")]⟩,
         ⟨"Color", .color 1 1 1 1, []⟩],
        ["Emission"], false⟩,
       ⟨"V", .OTHER, [], ["Value"], false⟩,
       ⟨"OUT", .OUTPUT_MATERIAL,
        [⟨"Surface", .scalar 0, [("E", "Emission")]⟩], [], true⟩]⟩)],
   none, "VL"⟩

/-- Well-formed witness scene with one light, one emissive mesh material and
a linked world. -/
def sceneWit : Scene :=
  ⟨[⟨"L1", .LIGHT, false, false, true, []⟩,
    ⟨"O", .MESH, false, false, true, [some "M"]⟩],
   [("M", true,
     ⟨[⟨"E", .EMISSION,
        [⟨"Strength", .scalar 5, []⟩, ⟨"Color", .color 1 1 1 1, []⟩],
        ["Emission"], false⟩,
       ⟨"OUT", .OUTPUT_MATERIAL,
        [⟨"Surface", .scalar 0, [("E", "Emission")]⟩], [], true⟩]⟩)],
   some ⟨true,
     ⟨[⟨"BG", .BACKGROUND,
        [⟨"Color", .color 1 1 1 1, []⟩, ⟨"Strength", .scalar 1, []⟩],
        ["Background"], false⟩,
       ⟨"WO", .OUTPUT_WORLD,
        [⟨"Surface", .scalar 0, [("N", "Shader")]⟩,
         ⟨"Volume", .scalar 0, []⟩],
        [], false⟩,
       ⟨"N", .OTHER, [], ["Shader"], false⟩]⟩⟩,
   "VL"⟩

/-- C8 witness graph: an Emission entry node S fed through the two-node
cycle A ↔ B. -/
def ntCyc : NodeTree :=
  ⟨[⟨"S", .EMISSION,
     [⟨"Strength", .scalar 1, [("A", "Out")]⟩,
      ⟨"Color", .color 1 1 1 1, []⟩],
     ["Emission"], false⟩,
    ⟨"A", .OTHER, [⟨"In", .scalar 0, [("B", "Out")]⟩], ["Out"], false⟩,
    ⟨"B", .OTHER, [⟨"In", .scalar 0, [("A", "Out")]⟩], ["Out"], false⟩]⟩

/-- Whether a material name resolves to a material with `use_nodes` set —
the resolution test the discovery performs before claiming a material. -/
def matNodesOk (s : Scene) (m : String) : Bool :=
  match s.getMaterial m with
  | some (true, _) => true
  | _ => false

/-- Invariant of the discovery fold: every collected entry belongs to a mesh
object of `claimL`, is paired with the first user of its material, has its
material marked seen, and names an active emission-capable node; collected
`(material, node)` pairs are distinct; and an unseen resolvable material has
no user among `i4L`. -/
def discInv (s : Scene) (claimL i4L : List Obj)
    (st : List String × List Triple) : Prop :=
  (∀ t ∈ st.2,
    (∃ o ∈ claimL, o.name = t.1 ∧ o.otype = OType.MESH) ∧
    firstUser claimL t.2.1 = some t.1 ∧
    t.2.1 ∈ st.1 ∧
    (∃ un nt node, s.getMaterial t.2.1 = some (un, nt) ∧
      nt.getNode t.2.2 = some node ∧ is_emissive_node_active node = true)) ∧
  (st.2.map (fun t => (t.2.1, t.2.2))).Nodup ∧
  (∀ m, ¬ m ∈ st.1 → matNodesOk s m = true → firstUser i4L m = none)

/-- The per-node backup effect of `force_all_off`'s material pass. -/
def forceNodeBk (mname : String) (exMode : Option Mode) (exIdent : Option PyIdent)
    (bk : List ((String × String) × SockVal)) (n : Node) :
    List ((String × String) × SockVal) :=
  match orStrength n with
  | none => bk
  | some (_, sock) =>
    if exMode = some .MATERIAL ∧ exIdent = some (.matKey mname n.name) then bk
    else upsert bk (mname, n.name) sock.value

/-- The per-material effect of `force_all_off`'s material pass. -/
def forceMatMap (exMode : Option Mode) (exIdent : Option PyIdent)
    (t : String × Bool × NodeTree) : String × Bool × NodeTree :=
  if t.2.1 then (t.1, t.2.1, ⟨t.2.2.nodes.map (forceNodeMap t.1 exMode exIdent)⟩)
  else t

/-- The per-material backup effect of `force_all_off`'s material pass. -/
def forceMatBk (exMode : Option Mode) (exIdent : Option PyIdent)
    (bk : List ((String × String) × SockVal)) (t : String × Bool × NodeTree) :
    List ((String × String) × SockVal) :=
  if t.2.1 then t.2.2.nodes.foldl (forceNodeBk t.1 exMode exIdent) bk else bk

/-- Observer: the named input socket of a named node of a tree. -/
def treeInput (nt : NodeTree) (n s : String) : Option Socket :=
  match nt.getNode n with
  | none => none
  | some node => node.getInput s

/-- Observer: the named input socket of the first world-output node of a
tree. -/
def treeWorldInput (nt : NodeTree) (name : String) : Option Socket :=
  match nt.firstOfType NType.OUTPUT_WORLD with
  | none => none
  | some output => output.getInput name

/-- Structural skeleton of a material node addressed by `(m, n)`: the
`use_nodes` flag, and the node's type together with the presence of its
type-selected strength socket.  Every modelled operation preserves it. -/
def matSkel (sc : Scene) (m n : String) : Option (Bool × Option (NType × Bool)) :=
  (sc.getMaterial m).map (fun p =>
    (p.1, (p.2.getNode n).map (fun nd => (nd.ntype, (typeStrengthSocket nd).isSome))))

/-- The per-light backup effect of `force_all_off`'s light pass. -/
def forceLightBk (keep : Finset String)
    (bk : List (String × (Bool × Bool × Bool))) (o : Obj) :
    List (String × (Bool × Bool × Bool)) :=
  if o.otype = .LIGHT then
    upsert bk o.name (o.hide_viewport, o.hide_render, o.light_enabled)
  else bk


/-- The head link of the named input of a world-output node: the link that
`force_all_off` removes and `activate`'s snapshot records. -/
def headLink (output : Node) (name : String) : Option LinkRef :=
  match output.getInput name with
  | none => none
  | some sock => sock.links.head?

/-- The backup-record list that the environment snapshot contributes for one
input name: empty, or the single `env_link_` record. -/
def recListOf (name : String) (rec : Option LinkRef) : List (BKey × BVal) :=
  match rec with
  | none => []
  | some l => [(BKey.str ("env_link_" ++ name), BVal.linkRef l)]

/-- Conditional relink: replay an optional backed-up link through
`relinkEnv` (the common effect of the environment branch of `activate` and
of an `env_link_` record replay in `deactivate`). -/
def relinkOpt (nt : NodeTree) (name : String) (rec : Option LinkRef) :
    NodeTree :=
  match rec with
  | none => nt
  | some l => relinkEnv nt name l

/-- The loop body of the environment branch of `activate`
(LightEditor.py:249-254): look up the `env_link_` record for one input name
and replay it. -/
def envRelinkStep (bk : List (BKey × BVal)) (nt : NodeTree) (name : String) :
    NodeTree :=
  match alookup bk (BKey.str ("env_link_" ++ name)) with
  | some (.linkRef l) => relinkEnv nt name l
  | _ => nt

/-- Invariant of one world input during the round trip: if no link was
snapshotted the input already observes its original socket, otherwise the
original socket held exactly the snapshotted link and the input is either
already restored or cleanly unlinked with the link's source still present. -/
def envReady (nt₀ : NodeTree) (output : Node) (name : String)
    (NT : NodeTree) : Prop :=
  match headLink output name with
  | none => treeWorldInput NT name = treeWorldInput nt₀ name
  | some l => ∃ sock, treeWorldInput nt₀ name = some sock ∧
      sock.links = [l] ∧
      (treeWorldInput NT name = some sock ∨
        treeWorldInput NT name = some ⟨sock.name, sock.value, []⟩) ∧
      (∃ q, NT.getNode l.1 = some q ∧ q.hasOutput l.2 = true)

def sceneC1cex : Scene :=
  ⟨[⟨"L", .LIGHT, true, false, true, []⟩],
   [("M", true,
     ⟨[⟨"E", .EMISSION,
        [⟨"Strength", .scalar 5, []⟩, ⟨"Color", .color 1 1 1 1, []⟩],
        ["Emission"], false⟩]⟩)],
   none, "VL"⟩

/-- The emissive test as amended claim C7 words it: a node of either
emissive type is currently contributing iff both its type-selected strength
and color sockets exist, and either socket is linked or the strength value
and some RGB channel of the color are both positive. -/
def is_emissive_claimC7fix (node : Node) : Bool :=
  match node.ntype with
  | .EMISSION =>
    match node.getInput "Strength", node.getInput "Color" with
    | some s, some c =>
      s.is_linked || c.is_linked || (s.value.gtZero && c.value.anyRGBPos)
    | _, _ => false
  | .BSDF_PRINCIPLED =>
    match node.getInput "Emission Strength",
        node.getInput "Emission Color" with
    | some s, some c =>
      s.is_linked || c.is_linked || (s.value.gtZero && c.value.anyRGBPos)
    | _, _ => false
  | _ => false


theorem alookup_nil {α β : Type} [DecidableEq α] (k : α) :
    alookup ([] : List (α × β)) k = none := rfl

theorem alookup_cons {α β : Type} [DecidableEq α] (k' : α) (v' : β) (t : List (α × β)) (k : α) :
    alookup ((k', v') :: t) k = if k' = k then some v' else alookup t k := by
  by_cases h : k' = k <;> simp [alookup, List.find?, h]

theorem alookup_upsert_self {α β : Type} [DecidableEq α] (l : List (α × β)) (k : α) (v : β) :
    alookup (upsert l k v) k = some v := by
  induction l with
  | nil => simp [upsert, alookup_cons]
  | cons hd t ih =>
    obtain ⟨k', v'⟩ := hd
    by_cases hk : k' = k <;> simp [upsert, hk, alookup_cons, ih]

theorem alookup_upsert_ne {α β : Type} [DecidableEq α] (l : List (α × β)) (k k' : α) (v : β)
    (h : k' ≠ k) : alookup (upsert l k v) k' = alookup l k' := by
  have h' : ¬ k = k' := fun hh => h hh.symm
  induction l with
  | nil => simp [upsert, alookup_cons, h']
  | cons hd t ih =>
    obtain ⟨ka, va⟩ := hd
    by_cases hk : ka = k
    · subst hk
      simp [upsert, alookup_cons, h']
    · simp only [upsert, if_neg hk]
      rw [alookup_cons, alookup_cons, ih]

theorem alookup_adelete_self {α β : Type} [DecidableEq α] (l : List (α × β)) (k : α) :
    alookup (adelete l k) k = none := by
  induction l with
  | nil => rfl
  | cons hd t ih =>
    obtain ⟨k', v'⟩ := hd
    by_cases hk : k' = k <;> simp [adelete, hk, alookup_cons, ih]

theorem alookup_adelete_ne {α β : Type} [DecidableEq α] (l : List (α × β)) (k k' : α)
    (h : k' ≠ k) : alookup (adelete l k) k' = alookup l k' := by
  induction l with
  | nil => rfl
  | cons hd t ih =>
    obtain ⟨ka, va⟩ := hd
    by_cases hk : ka = k
    · have hka : ¬ ka = k' := fun hh => h (hh ▸ hk ▸ rfl)
      rw [adelete, if_pos hk, alookup_cons, if_neg hka, ih]
    · rw [adelete, if_neg hk, alookup_cons, alookup_cons, ih]

theorem Node.updateInput_name (n : Node) (x : String) (f : Socket → Socket) :
    (n.updateInput x f).name = n.name := rfl

theorem Node.updateInput_ntype (n : Node) (x : String) (f : Socket → Socket) :
    (n.updateInput x f).ntype = n.ntype := rfl

theorem Node.updateInput_outputs (n : Node) (x : String) (f : Socket → Socket) :
    (n.updateInput x f).outputs = n.outputs := rfl

theorem find_go_updateInput (x y : String) (f : Socket → Socket)
    (hf : ∀ s, (f s).name = s.name) (l : List Socket) :
    (Node.updateInput.go x f l).find? (fun i => i.name == y) =
      if x = y then (l.find? (fun i => i.name == x)).map f
      else l.find? (fun i => i.name == y) := by
  induction l with
  | nil => by_cases h : x = y <;> simp [Node.updateInput.go, h]
  | cons s t ih =>
    by_cases hs : s.name = x
    · simp only [Node.updateInput.go, if_pos hs]
      by_cases hxy : x = y
      · subst hxy
        simp [List.find?, hf s, hs]
      · have h1 : ((f s).name == y) = false := by
          rw [hf s, hs]; exact beq_eq_false_iff_ne.mpr hxy
        have h2 : (s.name == y) = false := by
          rw [hs]; exact beq_eq_false_iff_ne.mpr hxy
        have h3 : (s.name == x) = true := by rw [hs]; exact beq_self_eq_true x
        simp [List.find?, h1, h2, h3, hxy]
    · simp only [Node.updateInput.go, if_neg hs]
      have h3 : (s.name == x) = false := beq_eq_false_iff_ne.mpr hs
      by_cases hsy : s.name = y
      · have hxy : ¬ x = y := fun hh => hs (hsy ▸ hh ▸ rfl)
        have h4 : (s.name == y) = true := by rw [hsy]; exact beq_self_eq_true y
        simp [List.find?, h3, h4, hxy]
      · have h4 : (s.name == y) = false := beq_eq_false_iff_ne.mpr hsy
        by_cases hxy : x = y <;> simp [List.find?, h3, h4, hxy, ih] <;>
          simp [hxy] at ih <;> exact ih

theorem Node.getInput_updateInput (n : Node) (x y : String) (f : Socket → Socket)
    (hf : ∀ s, (f s).name = s.name) :
    (n.updateInput x f).getInput y =
      if x = y then (n.getInput x).map f else n.getInput y := by
  unfold Node.updateInput Node.getInput
  exact find_go_updateInput x y f hf n.inputs

theorem find_go_updateNode (x y : String) (f : Node → Node)
    (hf : ∀ n, (f n).name = n.name) (l : List Node) :
    (NodeTree.updateNode.go x f l).find? (fun n => n.name == y) =
      if x = y then (l.find? (fun n => n.name == x)).map f
      else l.find? (fun n => n.name == y) := by
  induction l with
  | nil => by_cases h : x = y <;> simp [NodeTree.updateNode.go, h]
  | cons s t ih =>
    by_cases hs : s.name = x
    · simp only [NodeTree.updateNode.go, if_pos hs]
      by_cases hxy : x = y
      · subst hxy
        simp [List.find?, hf s, hs]
      · have h1 : ((f s).name == y) = false := by
          rw [hf s, hs]; exact beq_eq_false_iff_ne.mpr hxy
        have h2 : (s.name == y) = false := by
          rw [hs]; exact beq_eq_false_iff_ne.mpr hxy
        have h3 : (s.name == x) = true := by rw [hs]; exact beq_self_eq_true x
        simp [List.find?, h1, h2, h3, hxy]
    · simp only [NodeTree.updateNode.go, if_neg hs]
      have h3 : (s.name == x) = false := beq_eq_false_iff_ne.mpr hs
      by_cases hsy : s.name = y
      · have hxy : ¬ x = y := fun hh => hs (hsy ▸ hh ▸ rfl)
        have h4 : (s.name == y) = true := by rw [hsy]; exact beq_self_eq_true y
        simp [List.find?, h3, h4, hxy]
      · have h4 : (s.name == y) = false := beq_eq_false_iff_ne.mpr hsy
        by_cases hxy : x = y <;> simp [List.find?, h3, h4, hxy, ih] <;>
          simp [hxy] at ih <;> exact ih

theorem NodeTree.getNode_updateNode (nt : NodeTree) (x y : String) (f : Node → Node)
    (hf : ∀ n, (f n).name = n.name) :
    (nt.updateNode x f).getNode y =
      if x = y then (nt.getNode x).map f else nt.getNode y := by
  unfold NodeTree.updateNode NodeTree.getNode
  exact find_go_updateNode x y f hf nt.nodes

theorem updateNode_go_comp (x : String) (f g : Node → Node)
    (hf : ∀ n, (f n).name = n.name) (l : List Node) :
    NodeTree.updateNode.go x g (NodeTree.updateNode.go x f l) =
      NodeTree.updateNode.go x (fun n => g (f n)) l := by
  induction l with
  | nil => simp [NodeTree.updateNode.go]
  | cons s t ih =>
    by_cases hs : s.name = x
    · simp [NodeTree.updateNode.go, hs, hf s]
    · simp [NodeTree.updateNode.go, hs, ih]

theorem NodeTree.updateNode_updateNode (nt : NodeTree) (x : String) (f g : Node → Node)
    (hf : ∀ n, (f n).name = n.name) :
    (nt.updateNode x f).updateNode x g = nt.updateNode x (fun n => g (f n)) := by
  unfold NodeTree.updateNode
  simp only
  rw [updateNode_go_comp x f g hf]

theorem updateNode_go_id (x : String) (f : Node → Node) (l : List Node)
    (hid : ∀ n, l.find? (fun m => m.name == x) = some n → f n = n) :
    NodeTree.updateNode.go x f l = l := by
  induction l with
  | nil => simp [NodeTree.updateNode.go]
  | cons s t ih =>
    by_cases hs : s.name = x
    · have : f s = s := by
        apply hid
        simp [List.find?, hs]
      simp [NodeTree.updateNode.go, hs, this]
    · have h3 : (s.name == x) = false := beq_eq_false_iff_ne.mpr hs
      simp only [NodeTree.updateNode.go, if_neg hs]
      rw [ih]
      intro n hn
      apply hid
      simp [List.find?, h3, hn]

theorem NodeTree.updateNode_eq_self (nt : NodeTree) (x : String) (f : Node → Node)
    (hid : ∀ n, nt.getNode x = some n → f n = n) : nt.updateNode x f = nt := by
  unfold NodeTree.updateNode
  have := updateNode_go_id x f nt.nodes hid
  cases nt
  simpa using this

theorem updateInput_go_comp (x : String) (f g : Socket → Socket)
    (hf : ∀ s, (f s).name = s.name) (l : List Socket) :
    Node.updateInput.go x g (Node.updateInput.go x f l) =
      Node.updateInput.go x (fun s => g (f s)) l := by
  induction l with
  | nil => simp [Node.updateInput.go]
  | cons s t ih =>
    by_cases hs : s.name = x
    · simp [Node.updateInput.go, hs, hf s]
    · simp [Node.updateInput.go, hs, ih]

theorem Node.updateInput_updateInput (n : Node) (x : String) (f g : Socket → Socket)
    (hf : ∀ s, (f s).name = s.name) :
    (n.updateInput x f).updateInput x g = n.updateInput x (fun s => g (f s)) := by
  unfold Node.updateInput
  simp only
  rw [updateInput_go_comp x f g hf]

theorem updateInput_go_id (x : String) (f : Socket → Socket) (l : List Socket)
    (hid : ∀ s, l.find? (fun i => i.name == x) = some s → f s = s) :
    Node.updateInput.go x f l = l := by
  induction l with
  | nil => simp [Node.updateInput.go]
  | cons s t ih =>
    by_cases hs : s.name = x
    · have : f s = s := by
        apply hid
        simp [List.find?, hs]
      simp [Node.updateInput.go, hs, this]
    · have h3 : (s.name == x) = false := beq_eq_false_iff_ne.mpr hs
      simp only [Node.updateInput.go, if_neg hs]
      rw [ih]
      intro s' hs'
      apply hid
      simp [List.find?, h3, hs']

theorem Node.updateInput_eq_self (n : Node) (x : String) (f : Socket → Socket)
    (hid : ∀ s, n.getInput x = some s → f s = s) : n.updateInput x f = n := by
  unfold Node.updateInput
  have := updateInput_go_id x f n.inputs hid
  cases n
  simpa [Node.getInput] using this

theorem firstOfType_updateFirstWhere (nt : NodeTree) (T : NType) (f : Node → Node)
    (hftype : ∀ n, (f n).ntype = n.ntype) :
    (nt.updateFirstWhere (fun n => n.ntype == T) f).firstOfType T =
      (nt.firstOfType T).map f := by
  unfold NodeTree.updateFirstWhere NodeTree.firstOfType
  simp only
  induction nt.nodes with
  | nil => simp [NodeTree.updateFirstWhere.go]
  | cons s t ih =>
    by_cases hs : s.ntype = T
    · have h1 : (s.ntype == T) = true := by rw [hs]; exact beq_self_eq_true T
      have h2 : ((f s).ntype == T) = true := by rw [hftype s, hs]; exact beq_self_eq_true T
      simp [NodeTree.updateFirstWhere.go, List.find?, h1, h2]
    · have h1 : (s.ntype == T) = false := beq_eq_false_iff_ne.mpr hs
      simp [NodeTree.updateFirstWhere.go, List.find?, h1, ih]

theorem getNode_updateFirstWhere_or (nt : NodeTree) (p : Node → Bool) (f : Node → Node)
    (y : String) (hf : ∀ n, (f n).name = n.name) :
    (nt.updateFirstWhere p f).getNode y = nt.getNode y ∨
      (nt.updateFirstWhere p f).getNode y = (nt.getNode y).map f := by
  unfold NodeTree.updateFirstWhere NodeTree.getNode
  simp only
  induction nt.nodes with
  | nil => left; simp [NodeTree.updateFirstWhere.go]
  | cons s t ih =>
    by_cases hp : p s
    · simp only [NodeTree.updateFirstWhere.go, if_pos hp]
      by_cases hy : s.name = y
      · right
        have h1 : ((f s).name == y) = true := by
          rw [hf s, hy]; exact beq_self_eq_true y
        have h2 : (s.name == y) = true := by rw [hy]; exact beq_self_eq_true y
        simp [List.find?, h1, h2]
      · left
        have h1 : ((f s).name == y) = false := by
          rw [hf s]; exact beq_eq_false_iff_ne.mpr hy
        have h2 : (s.name == y) = false := beq_eq_false_iff_ne.mpr hy
        simp [List.find?, h1, h2]
    · simp only [NodeTree.updateFirstWhere.go, if_neg hp]
      by_cases hy : s.name = y
      · left
        have h2 : (s.name == y) = true := by rw [hy]; exact beq_self_eq_true y
        simp [List.find?, h2]
      · have h2 : (s.name == y) = false := beq_eq_false_iff_ne.mpr hy
        simpa [List.find?, h2] using ih

theorem find_map_name (F : Obj → Obj) (hF : ∀ o, (F o).name = o.name)
    (l : List Obj) (y : String) :
    ((l.map F).find? (fun o => o.name == y)) =
      (l.find? (fun o => o.name == y)).map F := by
  induction l with
  | nil => simp
  | cons o t ih =>
    by_cases hy : o.name = y
    · have h1 : ((F o).name == y) = true := by rw [hF o, hy]; exact beq_self_eq_true y
      have h2 : (o.name == y) = true := by rw [hy]; exact beq_self_eq_true y
      simp [List.find?, h1, h2]
    · have h1 : ((F o).name == y) = false := by
        rw [hF o]; exact beq_eq_false_iff_ne.mpr hy
      have h2 : (o.name == y) = false := beq_eq_false_iff_ne.mpr hy
      simpa [List.find?, h1, h2] using ih

theorem findNode_map_name (F : Node → Node) (hF : ∀ n, (F n).name = n.name)
    (l : List Node) (y : String) :
    ((l.map F).find? (fun n => n.name == y)) =
      (l.find? (fun n => n.name == y)).map F := by
  induction l with
  | nil => simp
  | cons o t ih =>
    by_cases hy : o.name = y
    · have h1 : ((F o).name == y) = true := by rw [hF o, hy]; exact beq_self_eq_true y
      have h2 : (o.name == y) = true := by rw [hy]; exact beq_self_eq_true y
      simp [List.find?, h1, h2]
    · have h1 : ((F o).name == y) = false := by
        rw [hF o]; exact beq_eq_false_iff_ne.mpr hy
      have h2 : (o.name == y) = false := beq_eq_false_iff_ne.mpr hy
      simpa [List.find?, h1, h2] using ih

theorem findMat_map_key (F : String × Bool × NodeTree → String × Bool × NodeTree)
    (hF : ∀ x, (F x).1 = x.1) (l : List (String × Bool × NodeTree)) (m : String) :
    ((l.map F).find? (fun x => x.1 == m)) = (l.find? (fun x => x.1 == m)).map F := by
  induction l with
  | nil => simp
  | cons o t ih =>
    by_cases hy : o.1 = m
    · have h1 : ((F o).1 == m) = true := by rw [hF o, hy]; exact beq_self_eq_true m
      have h2 : (o.1 == m) = true := by rw [hy]; exact beq_self_eq_true m
      simp [List.find?, h1, h2]
    · have h1 : ((F o).1 == m) = false := by
        rw [hF o]; exact beq_eq_false_iff_ne.mpr hy
      have h2 : (o.1 == m) = false := beq_eq_false_iff_ne.mpr hy
      simpa [List.find?, h1, h2] using ih

theorem Scene.getMaterial_updateMaterialTree (sc : Scene) (m m' : String)
    (f : NodeTree → NodeTree) :
    (sc.updateMaterialTree m f).getMaterial m' =
      if m = m' then (sc.getMaterial m).map (fun p => (p.1, f p.2))
      else sc.getMaterial m' := by
  unfold Scene.updateMaterialTree Scene.getMaterial
  simp only
  induction sc.materials with
  | nil => by_cases h : m = m' <;> simp [Scene.updateMaterialTree.go, h]
  | cons x t ih =>
    obtain ⟨nm, un, nt⟩ := x
    by_cases hn : nm = m
    · subst hn
      by_cases hm' : nm = m'
      · subst hm'
        simp [Scene.updateMaterialTree.go, List.find?]
      · have h2 : (nm == m') = false := beq_eq_false_iff_ne.mpr hm'
        simp [Scene.updateMaterialTree.go, List.find?, h2, hm']
    · simp only [Scene.updateMaterialTree.go, if_neg hn]
      by_cases hm' : nm = m'
      · subst hm'
        have hmm : ¬ m = nm := fun hh => hn hh.symm
        simp [List.find?, hmm]
      · have h2 : (nm == m') = false := beq_eq_false_iff_ne.mpr hm'
        have h5 : (nm == m) = false := beq_eq_false_iff_ne.mpr hn
        simpa [List.find?, h2, h5] using ih

theorem Scene.updateMaterialTree_objects (sc : Scene) (m : String)
    (f : NodeTree → NodeTree) :
    (sc.updateMaterialTree m f).objects = sc.objects := rfl

theorem Scene.updateMaterialTree_world (sc : Scene) (m : String)
    (f : NodeTree → NodeTree) :
    (sc.updateMaterialTree m f).world = sc.world := rfl

theorem Scene.updateFirstObj_materials (sc : Scene) (k : String) (f : Obj → Obj) :
    (sc.updateFirstObj k f).materials = sc.materials := rfl

theorem Scene.updateFirstObj_world (sc : Scene) (k : String) (f : Obj → Obj) :
    (sc.updateFirstObj k f).world = sc.world := rfl

theorem Scene.getObj_updateFirstObj (sc : Scene) (x y : String) (f : Obj → Obj)
    (hf : ∀ o, (f o).name = o.name) :
    (sc.updateFirstObj x f).getObj y =
      if x = y then (sc.getObj x).map f else sc.getObj y := by
  unfold Scene.updateFirstObj Scene.getObj
  simp only
  induction sc.objects with
  | nil => by_cases h : x = y <;> simp [Scene.updateFirstObj.go, h]
  | cons s t ih =>
    by_cases hs : s.name = x
    · simp only [Scene.updateFirstObj.go, if_pos hs]
      by_cases hxy : x = y
      · subst hxy
        have h1 : ((f s).name == x) = true := by rw [hf s, hs]; exact beq_self_eq_true x
        have h2 : (s.name == x) = true := by rw [hs]; exact beq_self_eq_true x
        simp [List.find?, h1, h2]
      · have h1 : ((f s).name == y) = false := by
          rw [hf s, hs]; exact beq_eq_false_iff_ne.mpr hxy
        have h2 : (s.name == y) = false := by
          rw [hs]; exact beq_eq_false_iff_ne.mpr hxy
        have h3 : (s.name == x) = true := by rw [hs]; exact beq_self_eq_true x
        simp [List.find?, h1, h2, h3, hxy]
    · simp only [Scene.updateFirstObj.go, if_neg hs]
      have h3 : (s.name == x) = false := beq_eq_false_iff_ne.mpr hs
      by_cases hsy : s.name = y
      · have hxy : ¬ x = y := fun hh => hs (hsy ▸ hh ▸ rfl)
        have h4 : (s.name == y) = true := by rw [hsy]; exact beq_self_eq_true y
        simp [List.find?, h3, h4, hxy]
      · have h4 : (s.name == y) = false := beq_eq_false_iff_ne.mpr hsy
        by_cases hxy : x = y <;> simp [List.find?, h3, h4, hxy, ih] <;>
          simp [hxy] at ih <;> exact ih

theorem C9_counterexample :
    (find_emissive_objects sceneEmpty9
        (find_emissive_objects sceneEmpty9 [] none).2.2 none).2.1 = false := by
  rfl

/-- Claim C9, corrected: a second whole-scene discovery with no scene
change is answered from the cache (`from_cache = true`) with the stored
list; an explicit object-list scope bypasses the cache entirely, neither
reading nor writing it; and an uncached whole-scene call computes the list
afresh.  The first call itself reports `from_cache = false`, and — the
correction — a call whose computed list is empty never stores it, so the
"identical cached list on the second call" holds only when something
emissive was found (see the counterexample). -/
theorem C9_amended :
    (∀ (s : Scene) (cache : EmCache),
        alookup cache (cacheKey s) = none →
        find_emissive_compute s s.objects ≠ [] →
        (find_emissive_objects s cache none).2.1 = false ∧
        find_emissive_objects s (find_emissive_objects s cache none).2.2 none =
          ((find_emissive_objects s cache none).1, true,
            (find_emissive_objects s cache none).2.2)) ∧
    (∀ (s : Scene) (cache : EmCache) (objs : List Obj),
        find_emissive_objects s cache (some objs) =
          (find_emissive_compute s objs, false, cache)) ∧
    (∀ (s : Scene) (cache : EmCache),
        alookup cache (cacheKey s) = none →
        (find_emissive_objects s cache none).1 =
          find_emissive_compute s s.objects) := by
  refine ⟨?_, ?_, ?_⟩
  · intro s cache h hne
    have hisE : (find_emissive_compute s s.objects).isEmpty = false := by
      cases hc : find_emissive_compute s s.objects
      · exact absurd hc hne
      · rfl
    have h1 : find_emissive_objects s cache none =
        (find_emissive_compute s s.objects, false,
          upsert cache (cacheKey s) (find_emissive_compute s s.objects)) := by
      unfold find_emissive_objects
      simp [h, hisE]
    rw [h1]
    refine ⟨rfl, ?_⟩
    unfold find_emissive_objects
    simp [alookup_upsert_self]
  · intro s cache objs
    unfold find_emissive_objects
    simp
  · intro s cache h
    unfold find_emissive_objects
    simp [h]
    split <;> rfl

theorem C9_witness :
    find_emissive_objects sceneWit
        (find_emissive_objects sceneWit [] none).2.2 none =
      ((find_emissive_objects sceneWit [] none).1, true,
        (find_emissive_objects sceneWit [] none).2.2) :=
  (C9_amended.1 sceneWit [] rfl (by decide)).2

theorem fen_mono_inv (nt : NodeTree) :
    ∀ (fuel : Nat) (name : String) (st : List String × List String),
      (∀ x ∈ st.1, x ∈ (find_emission_nodes_fuel nt fuel name st).1) ∧
      ((st.2.Nodup ∧ ∀ x ∈ st.2, x ∈ st.1) →
        ((find_emission_nodes_fuel nt fuel name st).2.Nodup ∧
          ∀ x ∈ (find_emission_nodes_fuel nt fuel name st).2,
            x ∈ (find_emission_nodes_fuel nt fuel name st).1)) := by
  intro fuel
  induction fuel with
  | zero => intro name st; exact ⟨fun x hx => hx, fun h => h⟩
  | succ f ih =>
    intro name st
    obtain ⟨v, fd⟩ := st
    show (∀ x ∈ v, x ∈ _) ∧ _
    have hstep : ∀ (nm : String) (st : List String × List String),
        (∀ x ∈ st.1, x ∈ (find_emission_nodes_fuel nt f nm st).1) ∧
        ((st.2.Nodup ∧ ∀ x ∈ st.2, x ∈ st.1) →
          ((find_emission_nodes_fuel nt f nm st).2.Nodup ∧
            ∀ x ∈ (find_emission_nodes_fuel nt f nm st).2,
              x ∈ (find_emission_nodes_fuel nt f nm st).1)) := ih
    have hlinks : ∀ (links : List LinkRef) (st : List String × List String),
        (∀ x ∈ st.1,
          x ∈ (links.foldl (fun st l => find_emission_nodes_fuel nt f l.1 st) st).1) ∧
        ((st.2.Nodup ∧ ∀ x ∈ st.2, x ∈ st.1) →
          (((links.foldl (fun st l => find_emission_nodes_fuel nt f l.1 st) st).2.Nodup ∧
            ∀ x ∈ (links.foldl (fun st l => find_emission_nodes_fuel nt f l.1 st) st).2,
              x ∈ (links.foldl (fun st l => find_emission_nodes_fuel nt f l.1 st) st).1))) := by
      intro links
      induction links with
      | nil => intro st; exact ⟨fun x hx => hx, fun h => h⟩
      | cons l t iht =>
        intro st
        simp only [List.foldl_cons]
        refine ⟨?_, ?_⟩
        · intro x hx
          exact (iht _).1 x ((hstep l.1 st).1 x hx)
        · intro h
          exact (iht _).2 ((hstep l.1 st).2 h)
    have hsocks : ∀ (socks : List Socket) (st : List String × List String),
        (∀ x ∈ st.1,
          x ∈ (socks.foldl (fun st sock => sock.links.foldl
            (fun st l => find_emission_nodes_fuel nt f l.1 st) st) st).1) ∧
        ((st.2.Nodup ∧ ∀ x ∈ st.2, x ∈ st.1) →
          ((socks.foldl (fun st sock => sock.links.foldl
              (fun st l => find_emission_nodes_fuel nt f l.1 st) st) st).2.Nodup ∧
            ∀ x ∈ (socks.foldl (fun st sock => sock.links.foldl
              (fun st l => find_emission_nodes_fuel nt f l.1 st) st) st).2,
              x ∈ (socks.foldl (fun st sock => sock.links.foldl
                (fun st l => find_emission_nodes_fuel nt f l.1 st) st) st).1)) := by
      intro socks
      induction socks with
      | nil => intro st; exact ⟨fun x hx => hx, fun h => h⟩
      | cons sck t iht =>
        intro st
        simp only [List.foldl_cons]
        refine ⟨?_, ?_⟩
        · intro x hx
          exact (iht _).1 x ((hlinks sck.links st).1 x hx)
        · intro h
          exact (iht _).2 ((hlinks sck.links st).2 h)
    cases hg : nt.getNode name with
    | none =>
      simp only [find_emission_nodes_fuel, hg]
      exact ⟨fun x hx => hx, fun h => h⟩
    | some node =>
      by_cases hv : name ∈ v
      · simp only [find_emission_nodes_fuel, hg, if_pos hv]
        exact ⟨fun x hx => hx, fun h => h⟩
      · simp only [find_emission_nodes_fuel, hg, if_neg hv]
        set fd₁ := if node.ntype = NType.EMISSION then fd ++ [name]
          else if node.ntype = NType.BSDF_PRINCIPLED ∧
            (node.getInput "Emission Strength").isSome then fd ++ [name]
          else fd with hfd₁
        have hbase : ∀ x ∈ v, x ∈ v ++ [name] := fun x hx => List.mem_append_left _ hx
        refine ⟨?_, ?_⟩
        · intro x hx
          exact (hsocks node.inputs (v ++ [name], fd₁)).1 x (hbase x hx)
        · intro ⟨hnd, hsub⟩
          apply (hsocks node.inputs (v ++ [name], fd₁)).2
          constructor
          · rw [hfd₁]
            split
            · exact hnd.append (List.nodup_singleton name)
                (by intro x hx hy; simp at hy; subst hy; exact hv (hsub _ hx))
            · split
              · exact hnd.append (List.nodup_singleton name)
                  (by intro x hx hy; simp at hy; subst hy; exact hv (hsub _ hx))
              · exact hnd
          · intro x hx
            rw [hfd₁] at hx
            have : x ∈ fd ++ [name] ∨ x ∈ fd := by
              revert hx
              split
              · exact fun hx => Or.inl hx
              · split
                · exact fun hx => Or.inl hx
                · exact fun hx => Or.inr hx
            rcases this with h | h
            · rcases List.mem_append.mp h with h | h
              · exact List.mem_append_left _ (hsub _ h)
              · simp at h; subst h; exact List.mem_append_right _ (by simp)
            · exact List.mem_append_left _ (hsub _ h)

theorem firstUser_nil (m : String) : firstUser [] m = none := rfl

theorem firstUser_cons (o : Obj) (rest : List Obj) (m : String) :
    firstUser (o :: rest) m =
      if o.otype == OType.MESH && decide (some m ∈ o.material_slots)
      then some o.name else firstUser rest m := by
  unfold firstUser
  cases h : (o.otype == OType.MESH && decide (some m ∈ o.material_slots)) <;>
    simp [List.find?, h]

theorem firstUser_append (l r : List Obj) (m : String) :
    firstUser (l ++ r) m =
      match firstUser l m with
      | some x => some x
      | none => firstUser r m := by
  induction l with
  | nil => simp [firstUser_nil]
  | cons o t ih =>
    rw [List.cons_append, firstUser_cons, firstUser_cons]
    by_cases ho : o.otype = OType.MESH ∧ some m ∈ o.material_slots <;>
      simp [ho, ih]

theorem getInput_mem {n : Node} {s : String} {sock : Socket}
    (h : n.getInput s = some sock) : sock ∈ n.inputs := by
  unfold Node.getInput at h
  exact List.mem_of_find?_eq_some h

theorem getInput_name {n : Node} {s : String} {sock : Socket}
    (h : n.getInput s = some sock) : sock.name = s := by
  unfold Node.getInput at h
  have := List.find?_some h
  simpa using this

theorem getNode_mem {nt : NodeTree} {s : String} {node : Node}
    (h : nt.getNode s = some node) : node ∈ nt.nodes := by
  unfold NodeTree.getNode at h
  exact List.mem_of_find?_eq_some h

theorem getNode_name {nt : NodeTree} {s : String} {node : Node}
    (h : nt.getNode s = some node) : node.name = s := by
  unfold NodeTree.getNode at h
  have := List.find?_some h
  simpa using this

theorem getMaterial_mem {sc : Scene} {m : String} {un : Bool} {nt : NodeTree}
    (h : sc.getMaterial m = some (un, nt)) : (m, un, nt) ∈ sc.materials := by
  unfold Scene.getMaterial at h
  cases hf : sc.materials.find? (fun x => x.1 == m) with
  | none => rw [hf] at h; exact absurd h (by simp)
  | some x =>
    rw [hf] at h
    have hm := List.mem_of_find?_eq_some hf
    have hk := List.find?_some hf
    simp at h hk
    obtain ⟨x1, x2, x3⟩ := x
    simp at hk h
    rw [hk, h.1, h.2] at hm
    exact hm

theorem firstOfType_mem {nt : NodeTree} {T : NType} {node : Node}
    (h : nt.firstOfType T = some node) : node ∈ nt.nodes := by
  unfold NodeTree.firstOfType at h
  exact List.mem_of_find?_eq_some h

theorem firstOfType_ntype {nt : NodeTree} {T : NType} {node : Node}
    (h : nt.firstOfType T = some node) : node.ntype = T := by
  unfold NodeTree.firstOfType at h
  have := List.find?_some h
  simpa using this

theorem getObj_mem {sc : Scene} {s : String} {o : Obj}
    (h : sc.getObj s = some o) : o ∈ sc.objects := by
  unfold Scene.getObj at h
  exact List.mem_of_find?_eq_some h

theorem getObj_name {sc : Scene} {s : String} {o : Obj}
    (h : sc.getObj s = some o) : o.name = s := by
  unfold Scene.getObj at h
  have := List.find?_some h
  simpa using this

theorem discStep_preserve (s : Scene) (hwf : s.WF) (processed : List Obj)
    (o : Obj) (ho : o.otype = OType.MESH) (slot : Option String)
    (hslot : slot ∈ o.material_slots) (st : List String × List Triple)
    (hI : discInv s (processed ++ [o]) processed st) :
    discInv s (processed ++ [o]) processed
        (find_emissive_compute.matStep s o.name st slot) ∧
    (∀ x ∈ st.1, x ∈ (find_emissive_compute.matStep s o.name st slot).1) ∧
    (∀ m, slot = some m → matNodesOk s m = true →
      m ∈ (find_emissive_compute.matStep s o.name st slot).1) := by
  obtain ⟨seen, acc⟩ := st
  cases slot with
  | none =>
    refine ⟨hI, fun x hx => hx, ?_⟩
    intro m hm
    exact absurd hm (by simp)
  | some mname =>
    cases hm : s.getMaterial mname with
    | none =>
      have hok : matNodesOk s mname = false := by
        unfold matNodesOk
        rw [hm]
      refine ⟨?_, ?_, ?_⟩
      · simpa [find_emissive_compute.matStep, hm] using hI
      · intro x hx
        simpa [find_emissive_compute.matStep, hm] using hx
      · intro m hmm hok'
        cases hmm
        rw [hok] at hok'
        exact absurd hok' (by simp)
    | some p =>
      obtain ⟨un, nt⟩ := p
      by_cases hcond : ¬ un = true ∨ mname ∈ seen
      · have hstep : find_emissive_compute.matStep s o.name (seen, acc) (some mname)
            = (seen, acc) := by
          simp only [find_emissive_compute.matStep, hm]
          rw [if_pos hcond]
        refine ⟨?_, ?_, ?_⟩
        · rw [hstep]; exact hI
        · intro x hx; rw [hstep]; exact hx
        intro m hmm hok
        cases hmm
        rw [hstep]
        unfold matNodesOk at hok
        rw [hm] at hok
        rcases hcond with hun | hmem
        · cases un
          · exact absurd hok (by simp)
          · exact absurd rfl hun
        · exact hmem
      · push_neg at hcond
        obtain ⟨hun, hnmem⟩ := hcond
        subst hun
        -- seen is extended by mname in every remaining branch
        have hokm : matNodesOk s mname = true := by
          unfold matNodesOk
          rw [hm]
        have hlift : discInv s (processed ++ [o]) processed
            (seen ++ [mname], acc) := by
          obtain ⟨h1, h2, h3⟩ := hI
          refine ⟨?_, h2, ?_⟩
          · intro t ht
            obtain ⟨a, b, c, d⟩ := h1 t ht
            exact ⟨a, b, List.mem_append_left _ c, d⟩
          · intro m hmem hok
            exact h3 m (fun hc => hmem (List.mem_append_left _ hc)) hok
        have hmono : ∀ x ∈ seen, x ∈ seen ++ [mname] :=
          fun x hx => List.mem_append_left _ hx
        have hmemm : mname ∈ seen ++ [mname] :=
          List.mem_append_right _ (by simp)
        cases hout : nt.nodes.find? (fun n =>
            n.ntype == NType.OUTPUT_MATERIAL && n.is_active_output) with
        | none =>
          have hstep : find_emissive_compute.matStep s o.name (seen, acc)
              (some mname) = (seen ++ [mname], acc) := by
            simp [find_emissive_compute.matStep, hm, hnmem, hout]
          rw [hstep]
          exact ⟨hlift, hmono, fun m hmm _ => by cases hmm; exact hmemm⟩
        | some output =>
          cases hsurf : output.getInput "Surface" with
          | none =>
            have hstep : find_emissive_compute.matStep s o.name (seen, acc)
                (some mname) = (seen ++ [mname], acc) := by
              simp [find_emissive_compute.matStep, hm, hnmem, hout, hsurf]
            rw [hstep]
            exact ⟨hlift, hmono, fun m hmm _ => by cases hmm; exact hmemm⟩
          | some surf =>
            by_cases hempty : surf.links.isEmpty
            · have hstep : find_emissive_compute.matStep s o.name (seen, acc)
                  (some mname) = (seen ++ [mname], acc) := by
                simp [find_emissive_compute.matStep, hm, hnmem, hout, hsurf, hempty]
              rw [hstep]
              exact ⟨hlift, hmono, fun m hmm _ => by cases hmm; exact hmemm⟩
            · -- the batch branch
              have htw : treeWF nt := by
                obtain ⟨_, _, _, hmats, _⟩ := hwf
                exact hmats _ (getMaterial_mem hm)
              have hsur1 : surf.links.length ≤ 1 := by
                have houtmem : output ∈ nt.nodes := List.mem_of_find?_eq_some hout
                have hsurfmem : surf ∈ output.inputs := getInput_mem hsurf
                exact ((htw.2 output houtmem).1 surf hsurfmem).1
              obtain ⟨l0, hl0⟩ : ∃ l0, surf.links = [l0] := by
                cases hls : surf.links with
                | nil => rw [hls] at hempty; exact absurd rfl hempty
                | cons a t =>
                  cases t with
                  | nil => exact ⟨a, rfl⟩
                  | cons b t2 =>
                    rw [hls] at hsur1
                    simp at hsur1
              have hfound : (surf.links.foldl
                  (fun fd l => (find_emission_nodes nt l.1 ([], fd)).2) []) =
                  (find_emission_nodes nt l0.1 ([], [])).2 := by
                rw [hl0]
                rfl
              have hfoundnd : (find_emission_nodes nt l0.1 ([], [])).2.Nodup := by
                have := (fen_mono_inv nt (nt.nodes.length + 1) l0.1 ([], [])).2
                  (by simp)
                exact this.1
              have hstep : find_emissive_compute.matStep s o.name (seen, acc)
                  (some mname) = (seen ++ [mname], acc ++
                    ((((find_emission_nodes nt l0.1 ([], [])).2).filter (fun nn =>
                      match nt.getNode nn with
                      | some node => is_emissive_node_active node
                      | none => false)).map (fun nn => (o.name, mname, nn)))) := by
                simp only [find_emissive_compute.matStep, hm, hout, hsurf]
                rw [if_neg (by simp [hnmem]), if_neg hempty, hfound]
              rw [hstep]
              set act := (((find_emission_nodes nt l0.1 ([], [])).2).filter (fun nn =>
                match nt.getNode nn with
                | some node => is_emissive_node_active node
                | none => false)) with hact
              have hactnd : act.Nodup := hfoundnd.filter _
              have hfu : firstUser (processed ++ [o]) mname = some o.name := by
                rw [firstUser_append]
                have : firstUser processed mname = none :=
                  hI.2.2 mname hnmem hokm
                rw [this, firstUser_cons]
                rw [if_pos (by simp [ho]; exact hslot)]
              obtain ⟨h1, h2, h3⟩ := hI
              refine ⟨⟨?_, ?_, ?_⟩, hmono, fun m hmm _ => by cases hmm; exact hmemm⟩
              · intro t ht
                rcases List.mem_append.mp ht with hold | hnew
                · obtain ⟨a, b, c, d⟩ := h1 t hold
                  exact ⟨a, b, List.mem_append_left _ c, d⟩
                · obtain ⟨nn, hnn, rfl⟩ := List.mem_map.mp hnew
                  have hpred := List.of_mem_filter hnn
                  refine ⟨⟨o, by simp, rfl, ho⟩, hfu, hmemm, ?_⟩
                  cases hgn : nt.getNode nn with
                  | none => rw [hgn] at hpred; exact absurd hpred (by simp)
                  | some node =>
                    rw [hgn] at hpred
                    exact ⟨true, nt, node, hm, hgn, by simpa using hpred⟩
              · rw [List.map_append]
                refine h2.append ?_ ?_
                · have : (act.map (fun nn => ((o.name, mname, nn) : Triple))).map
                      (fun t => (t.2.1, t.2.2)) = act.map (fun nn => (mname, nn)) := by
                    rw [List.map_map]
                    rfl
                  rw [this]
                  exact hactnd.map (fun a b hab => by
                    simpa using hab)
                · intro x hx hy
                  obtain ⟨t, htacc, rfl⟩ := List.mem_map.mp hx
                  have hts : t.2.1 ∈ seen := (h1 t htacc).2.2.1
                  rw [List.map_map] at hy
                  obtain ⟨nn, _, heq⟩ := List.mem_map.mp hy
                  have hx1 : mname = t.2.1 := by
                    simpa using congrArg Prod.fst heq
                  exact hnmem (by rw [hx1]; exact hts)
              · intro m hmem hok
                exact h3 m (fun hc => hmem (List.mem_append_left _ hc)) hok

theorem discSlots_preserve (s : Scene) (hwf : s.WF) (processed : List Obj)
    (o : Obj) (ho : o.otype = OType.MESH) :
    ∀ (slots : List (Option String)) (_ : ∀ x ∈ slots, x ∈ o.material_slots)
      (st : List String × List Triple)
      (_ : discInv s (processed ++ [o]) processed st),
      discInv s (processed ++ [o]) processed
          (slots.foldl (find_emissive_compute.matStep s o.name) st) ∧
      (∀ x ∈ st.1,
        x ∈ (slots.foldl (find_emissive_compute.matStep s o.name) st).1) ∧
      (∀ m, some m ∈ slots → matNodesOk s m = true →
        m ∈ (slots.foldl (find_emissive_compute.matStep s o.name) st).1) := by
  intro slots
  induction slots with
  | nil =>
    intro hsub st hI
    exact ⟨hI, fun x hx => hx, fun m hm _ => absurd hm (by simp)⟩
  | cons slot rest ih =>
    intro hsub st hI
    have hs1 := discStep_preserve s hwf processed o ho slot
      (hsub slot (by simp)) st hI
    have hrest := ih (fun x hx => hsub x (by simp [hx]))
      (find_emissive_compute.matStep s o.name st slot) hs1.1
    simp only [List.foldl_cons]
    refine ⟨hrest.1, ?_, ?_⟩
    · intro x hx
      exact hrest.2.1 x (hs1.2.1 x hx)
    · intro m hm hok
      rcases List.mem_cons.mp hm with hm | hm
    -- head or tail occurrence of the slot
      · exact hrest.2.1 m (hs1.2.2 m hm.symm hok)
      · exact hrest.2.2 m hm hok

theorem discObj_preserve (s : Scene) (hwf : s.WF) (processed : List Obj)
    (o : Obj) (st : List String × List Triple)
    (hI : discInv s processed processed st) :
    discInv s (processed ++ [o]) (processed ++ [o])
        (find_emissive_compute.step s st o) ∧
    (∀ x ∈ st.1, x ∈ (find_emissive_compute.step s st o).1) := by
  have hlift : ∀ st', discInv s processed processed st' →
      discInv s (processed ++ [o]) processed st' := by
    intro st' ⟨h1, h2, h3⟩
    refine ⟨?_, h2, h3⟩
    intro t ht
    obtain ⟨⟨o', ho', ha, hb⟩, hfu, hc, hd⟩ := h1 t ht
    exact ⟨⟨o', List.mem_append_left _ ho', ha, hb⟩, by
      rw [firstUser_append, hfu], hc, hd⟩
  by_cases ho : o.otype = OType.MESH
  · have hmid := hlift st hI
    have h := discSlots_preserve s hwf processed o ho o.material_slots
      (fun x hx => hx) st hmid
    have hstep : find_emissive_compute.step s st o =
        o.material_slots.foldl (find_emissive_compute.matStep s o.name) st := by
      simp [find_emissive_compute.step, ho]
    rw [hstep]
    obtain ⟨⟨h1, h2, h3⟩, hmono, hpost⟩ := h
    refine ⟨⟨h1, h2, ?_⟩, hmono⟩
    intro m hmem hok
    rw [firstUser_append]
    rw [h3 m hmem hok, firstUser_cons]
    by_cases hu : o.otype = OType.MESH ∧ some m ∈ o.material_slots
    · exact absurd (hpost m hu.2 hok) hmem
    · rw [if_neg (by simpa using hu)]
      rfl
  · have hstep : find_emissive_compute.step s st o = st := by
      simp [find_emissive_compute.step, ho]
    rw [hstep]
    refine ⟨?_, fun x hx => hx⟩
    obtain ⟨h1, h2, h3⟩ := hlift st hI
    refine ⟨h1, h2, ?_⟩
    intro m hmem hok
    rw [firstUser_append, h3 m hmem hok, firstUser_cons]
    rw [if_neg (by simp [ho])]
    rfl

theorem discFold (s : Scene) (hwf : s.WF) :
    ∀ (objs processed : List Obj) (st : List String × List Triple),
      discInv s processed processed st →
      discInv s (processed ++ objs) (processed ++ objs)
        (objs.foldl (find_emissive_compute.step s) st) := by
  intro objs
  induction objs with
  | nil => intro processed st hI; simpa using hI
  | cons o rest ih =>
    intro processed st hI
    have h1 := discObj_preserve s hwf processed o st hI
    have h2 := ih (processed ++ [o]) _ h1.1
    simpa using h2

/-- Claim C10 — implicit: every discovery entry names a mesh object of the
searched scope; a material appears only paired with its first user (the
node tree of each material is examined at most once per call, deduplicated
by material name); each entry names a distinct active emission-capable node
of its material. -/
theorem C10_theorem (s : Scene) (objs : List Obj) (hwf : s.WF) :
    (∀ t ∈ find_emissive_compute s objs,
        (∃ o ∈ objs, o.name = t.1 ∧ o.otype = OType.MESH) ∧
        firstUser objs t.2.1 = some t.1 ∧
        (∃ un nt node, s.getMaterial t.2.1 = some (un, nt) ∧
          nt.getNode t.2.2 = some node ∧
          is_emissive_node_active node = true)) ∧
    ((find_emissive_compute s objs).map (fun t => (t.2.1, t.2.2))).Nodup := by
  have hinit : discInv s [] [] ([], []) := by
    refine ⟨?_, ?_, ?_⟩ <;> simp [discInv, firstUser_nil]
  have h := discFold s hwf objs [] ([], []) hinit
  simp only [List.nil_append] at h
  obtain ⟨h1, h2, _⟩ := h
  have hcompute : find_emissive_compute s objs =
      (objs.foldl (find_emissive_compute.step s) ([], [])).2 := rfl
  rw [hcompute]
  refine ⟨?_, h2⟩
  intro t ht
  obtain ⟨ha, hb, _, hd⟩ := h1 t ht
  exact ⟨ha, hb, hd⟩

theorem C10_witness : firstUser sceneWit.objects "M" = some "O" :=
  (((C10_theorem sceneWit sceneWit.objects (by decide)).1
    ("O", "M", "E") (by decide))).2.1

theorem fen_vis_mono (nt : NodeTree) (fuel : Nat) (name : String)
    (st : List String × List String) :
    ∀ x ∈ st.1, x ∈ (find_emission_nodes_fuel nt fuel name st).1 :=
  (fen_mono_inv nt fuel name st).1

theorem getNode_removeLink (nt : NodeTree) (d sname : String) (e : LinkRef)
    (y : String) :
    (nt.removeLink d sname e).getNode y = (nt.getNode y).map
      (fun n => if n.name = d then
        n.updateInput sname (fun s => { s with links := s.links.erase e })
      else n) := by
  unfold NodeTree.removeLink NodeTree.getNode
  exact findNode_map_name _
    (fun n => by by_cases h : n.name = d <;> simp [h, Node.updateInput_name])
    nt.nodes y

theorem mem_updateInput_go (x : String) (f : Socket → Socket) (l : List Socket) :
    ∀ s' ∈ Node.updateInput.go x f l, ∃ s ∈ l, s' = s ∨ s' = f s := by
  induction l with
  | nil => intro s' hs'; simp [Node.updateInput.go] at hs'
  | cons s t ih =>
    intro s' hs'
    by_cases hx : s.name = x
    · rw [Node.updateInput.go, if_pos hx] at hs'
      rcases List.mem_cons.mp hs' with h | h
      · exact ⟨s, by simp, Or.inr h⟩
      · exact ⟨s', by simp [h], Or.inl rfl⟩
    · rw [Node.updateInput.go, if_neg hx] at hs'
      rcases List.mem_cons.mp hs' with h | h
      · exact ⟨s, by simp, Or.inl h⟩
      · obtain ⟨s₀, hs₀, hor⟩ := ih s' h
        exact ⟨s₀, by simp [hs₀], hor⟩

theorem stepsTo_removeLink {nt : NodeTree} {d sname : String} {e : LinkRef}
    {x y : String} (h : stepsTo (nt.removeLink d sname e) x y) :
    stepsTo nt x y := by
  obtain ⟨n', hn', s', hs', l, hl, hly⟩ := h
  rw [getNode_removeLink] at hn'
  cases hg : nt.getNode x with
  | none => rw [hg] at hn'; exact absurd hn' (by simp)
  | some n =>
    rw [hg] at hn'
    simp only [Option.map_some'] at hn'
    have hn2 := Option.some.inj hn'
    subst hn2
    have hn'' := hs'
    by_cases hd : n.name = d
    · rw [if_pos hd] at hn''
      unfold Node.updateInput at hn''
      simp only at hn''
      obtain ⟨s₀, hs₀, hor⟩ := mem_updateInput_go sname _ n.inputs s' hn''
      rcases hor with h1 | h1
      · rw [h1] at hl
        exact ⟨n, hg, s₀, hs₀, l, hl, hly⟩
      · rw [h1] at hl
        exact ⟨n, hg, s₀, hs₀, l, List.erase_subset _ _ hl, hly⟩
    · rw [if_neg hd] at hn''
      exact ⟨n, hg, s', hn'', l, hl, hly⟩

theorem reaches_removeLink {nt : NodeTree} {d sname : String} {e : LinkRef}
    {x y : String} (h : reaches (nt.removeLink d sname e) x y) :
    reaches nt x y :=
  Relation.ReflTransGen.mono (fun _ _ hs => stepsTo_removeLink hs) h

theorem capableB_removeLink (nt : NodeTree) (d sname : String) (e : LinkRef)
    (x : String) :
    capableB (nt.removeLink d sname e) x = capableB nt x := by
  unfold capableB
  rw [getNode_removeLink]
  cases hg : nt.getNode x with
  | none => rfl
  | some n =>
    simp only [Option.map_some']
    by_cases hd : n.name = d
    · rw [if_pos hd]
      rw [Node.getInput_updateInput n sname "Emission Strength"
        (fun s => { s with links := s.links.erase e }) (fun s => rfl)]
      by_cases hsn : sname = "Emission Strength" <;>
        simp [hsn, Node.updateInput_ntype]
    · rw [if_neg hd]

theorem fen_excursion (g : NodeTree) :
    ∀ (fuel : Nat) (n : String) (v fd : List String),
      (∀ x, reaches g n x → capableB g x = false) →
      (find_emission_nodes_fuel g fuel n (v, fd)).2 = fd ∧
      (∀ x ∈ (find_emission_nodes_fuel g fuel n (v, fd)).1,
        x ∈ v ∨ reaches g n x) := by
  intro fuel
  induction fuel with
  | zero => exact fun n v fd _ => ⟨rfl, fun x hx => Or.inl hx⟩
  | succ f ihf =>
    intro n v fd hcap
    cases hg : g.getNode n with
    | none =>
      simp only [find_emission_nodes_fuel, hg]
      exact ⟨by trivial, fun x hx => Or.inl hx⟩
    | some node =>
      by_cases hv : n ∈ v
      · simp only [find_emission_nodes_fuel, hg, if_pos hv]
        exact ⟨by trivial, fun x hx => Or.inl hx⟩
      · have hcapn := hcap n Relation.ReflTransGen.refl
        unfold capableB at hcapn
        rw [hg] at hcapn
        simp only [Bool.or_eq_false_iff, Bool.and_eq_false_iff,
          beq_eq_false_iff_ne, ne_eq] at hcapn
        have hne1 : ¬ node.ntype = NType.EMISSION := hcapn.1
        have hne2 : ¬ (node.ntype = NType.BSDF_PRINCIPLED ∧
            (node.getInput "Emission Strength").isSome) := by
          intro ⟨ha, hb⟩
          rcases hcapn.2 with h | h
          · exact h ha
          · rw [hb] at h; exact absurd h (by simp)
        have hstepcall : ∀ (y : String) (st : List String × List String),
            reaches g n y → st.2 = fd → (∀ x ∈ st.1, x ∈ v ∨ reaches g n x) →
            (find_emission_nodes_fuel g f y st).2 = fd ∧
            (∀ x ∈ (find_emission_nodes_fuel g f y st).1,
              x ∈ v ∨ reaches g n x) := by
          intro y st hy h2 h1
          obtain ⟨sv, sf⟩ := st
          subst h2
          have hsub : ∀ x, reaches g y x → capableB g x = false :=
            fun x hx => hcap x (hy.trans hx)
          obtain ⟨ha, hb⟩ := ihf y sv sf hsub
          refine ⟨ha, ?_⟩
          intro x hx
          rcases hb x hx with h | h
          · exact h1 x h
          · exact Or.inr (hy.trans h)
        have hfoldlinks : ∀ (links : List LinkRef),
            (∀ l ∈ links, reaches g n l.1) →
            ∀ st : List String × List String, st.2 = fd →
            (∀ x ∈ st.1, x ∈ v ∨ reaches g n x) →
            ((links.foldl (fun st l => find_emission_nodes_fuel g f l.1 st) st).2 = fd ∧
             ∀ x ∈ (links.foldl (fun st l => find_emission_nodes_fuel g f l.1 st) st).1,
               x ∈ v ∨ reaches g n x) := by
          intro links
          induction links with
          | nil => exact fun _ st h2 h1 => ⟨h2, h1⟩
          | cons l t iht =>
            intro hl st h2 h1
            simp only [List.foldl_cons]
            have hs := hstepcall l.1 st (hl l (by simp)) h2 h1
            exact iht (fun l' hl' => hl l' (by simp [hl'])) _ hs.1 hs.2
        have hfoldsocks : ∀ (socks : List Socket),
            (∀ sck ∈ socks, sck ∈ node.inputs) →
            ∀ st : List String × List String, st.2 = fd →
            (∀ x ∈ st.1, x ∈ v ∨ reaches g n x) →
            ((socks.foldl (fun st sock => sock.links.foldl
                (fun st l => find_emission_nodes_fuel g f l.1 st) st) st).2 = fd ∧
             ∀ x ∈ (socks.foldl (fun st sock => sock.links.foldl
                (fun st l => find_emission_nodes_fuel g f l.1 st) st) st).1,
               x ∈ v ∨ reaches g n x) := by
          intro socks
          induction socks with
          | nil => exact fun _ st h2 h1 => ⟨h2, h1⟩
          | cons sck t iht =>
            intro hs st h2 h1
            simp only [List.foldl_cons]
            have hlinks : ∀ l ∈ sck.links, reaches g n l.1 := by
              intro l hl
              exact Relation.ReflTransGen.single
                ⟨node, hg, sck, hs sck (by simp), l, hl, rfl⟩
            have hres := hfoldlinks sck.links hlinks st h2 h1
            exact iht (fun s' hs' => hs s' (by simp [hs'])) _ hres.1 hres.2
        simp only [find_emission_nodes_fuel, hg, if_neg hv, if_neg hne1,
          if_neg hne2]
        apply hfoldsocks node.inputs (fun _ h => h) (v ++ [n], fd) rfl
        intro x hx
        rcases List.mem_append.mp hx with h | h
        · exact Or.inl h
        · simp at h
          subst h
          exact Or.inr Relation.ReflTransGen.refl

theorem updateInput_go_split (x : String) (f : Socket → Socket) :
    ∀ (l : List Socket),
    (Node.updateInput.go x f l = l ∧ ∀ s ∈ l, ¬ s.name = x) ∨
    ∃ A s B, l = A ++ s :: B ∧ s.name = x ∧
      Node.updateInput.go x f l = A ++ f s :: B := by
  intro l
  induction l with
  | nil => left; exact ⟨rfl, by simp⟩
  | cons s t ih =>
    by_cases hs : s.name = x
    · right
      exact ⟨[], s, t, by simp, hs, by simp [Node.updateInput.go, hs]⟩
    · rcases ih with ⟨h1, h2⟩ | ⟨A, s₀, B, h1, h2, h3⟩
      · left
        refine ⟨by simp [Node.updateInput.go, hs, h1], ?_⟩
        intro s' hs'
        rcases List.mem_cons.mp hs' with h | h
        · subst h; exact hs
        · exact h2 s' h
      · right
        refine ⟨s :: A, s₀, B, by simp [h1], h2, ?_⟩
        simp [Node.updateInput.go, hs, h3]

theorem fen_bisim (nt : NodeTree) (d sname : String) (e : LinkRef)
    (hcap : ∀ x, reaches nt e.1 x → capableB nt x = false) :
    ∀ (fuel : Nat) (n : String) (v v' fd : List String),
      (∀ x, ¬ reaches nt e.1 x → (x ∈ v ↔ x ∈ v')) →
      (find_emission_nodes_fuel nt fuel n (v, fd)).2 =
        (find_emission_nodes_fuel (nt.removeLink d sname e) fuel n (v', fd)).2 ∧
      (∀ x, ¬ reaches nt e.1 x →
        (x ∈ (find_emission_nodes_fuel nt fuel n (v, fd)).1 ↔
         x ∈ (find_emission_nodes_fuel (nt.removeLink d sname e) fuel n (v', fd)).1)) := by
  intro fuel
  induction fuel with
  | zero => exact fun n v v' fd hInv => ⟨rfl, fun x hx => hInv x hx⟩
  | succ f ihf =>
    intro n v v' fd hInv
    have plinks : ∀ (links : List LinkRef) (va vb fda : List String),
        (∀ x, ¬ reaches nt e.1 x → (x ∈ va ↔ x ∈ vb)) →
        ((links.foldl (fun st l => find_emission_nodes_fuel nt f l.1 st) (va, fda)).2 =
          (links.foldl (fun st l => find_emission_nodes_fuel
            (nt.removeLink d sname e) f l.1 st) (vb, fda)).2 ∧
         ∀ x, ¬ reaches nt e.1 x →
           (x ∈ (links.foldl (fun st l => find_emission_nodes_fuel nt f l.1 st)
              (va, fda)).1 ↔
            x ∈ (links.foldl (fun st l => find_emission_nodes_fuel
              (nt.removeLink d sname e) f l.1 st) (vb, fda)).1)) := by
      intro links
      induction links with
      | nil => exact fun va vb fda h => ⟨rfl, fun x hx => h x hx⟩
      | cons l t iht =>
        intro va vb fda h
        simp only [List.foldl_cons]
        obtain ⟨h1, h2⟩ := ihf l.1 va vb fda h
        obtain ⟨wa, ga, hwa⟩ : ∃ wa ga,
            find_emission_nodes_fuel nt f l.1 (va, fda) = (wa, ga) :=
          ⟨_, _, rfl⟩
        obtain ⟨wb, gb, hwb⟩ : ∃ wb gb, find_emission_nodes_fuel
            (nt.removeLink d sname e) f l.1 (vb, fda) = (wb, gb) :=
          ⟨_, _, rfl⟩
        rw [hwa, hwb]
        rw [hwa, hwb] at h1 h2
        simp only at h1 h2
        rw [h1]
        exact iht wa wb gb (fun x hx => h2 x hx)
    have estepL : ∀ (y : String) (va vb fda : List String),
        reaches nt e.1 y →
        (∀ x, ¬ reaches nt e.1 x → (x ∈ va ↔ x ∈ vb)) →
        ((find_emission_nodes_fuel nt f y (va, fda)).2 = fda ∧
         ∀ x, ¬ reaches nt e.1 x →
           (x ∈ (find_emission_nodes_fuel nt f y (va, fda)).1 ↔ x ∈ vb)) := by
      intro y va vb fda hy h
      have hsub : ∀ x, reaches nt y x → capableB nt x = false :=
        fun x hx => hcap x (hy.trans hx)
      obtain ⟨h1, h2⟩ := fen_excursion nt f y va fda hsub
      refine ⟨h1, ?_⟩
      intro x hx
      constructor
      · intro hm
        rcases h2 x hm with hh | hh
        · exact (h x hx).mp hh
        · exact absurd (hy.trans hh) hx
      · intro hm
        exact fen_vis_mono nt f y (va, fda) x ((h x hx).mpr hm)
    have psocks : ∀ (socks : List Socket) (va vb fda : List String),
        (∀ x, ¬ reaches nt e.1 x → (x ∈ va ↔ x ∈ vb)) →
        (((socks.foldl (fun st sock => sock.links.foldl
            (fun st l => find_emission_nodes_fuel nt f l.1 st) st) (va, fda)).2 =
          (socks.foldl (fun st sock => sock.links.foldl
            (fun st l => find_emission_nodes_fuel (nt.removeLink d sname e) f l.1 st)
            st) (vb, fda)).2) ∧
         ∀ x, ¬ reaches nt e.1 x →
           (x ∈ (socks.foldl (fun st sock => sock.links.foldl
              (fun st l => find_emission_nodes_fuel nt f l.1 st) st) (va, fda)).1 ↔
            x ∈ (socks.foldl (fun st sock => sock.links.foldl
              (fun st l => find_emission_nodes_fuel (nt.removeLink d sname e) f l.1 st)
              st) (vb, fda)).1)) := by
      intro socks
      induction socks with
      | nil => exact fun va vb fda h => ⟨rfl, fun x hx => h x hx⟩
      | cons sck t iht =>
        intro va vb fda h
        simp only [List.foldl_cons]
        obtain ⟨h1, h2⟩ := plinks sck.links va vb fda h
        obtain ⟨wa, ga, hwa⟩ : ∃ wa ga, sck.links.foldl
            (fun st l => find_emission_nodes_fuel nt f l.1 st) (va, fda) = (wa, ga) :=
          ⟨_, _, rfl⟩
        obtain ⟨wb, gb, hwb⟩ : ∃ wb gb, sck.links.foldl
            (fun st l => find_emission_nodes_fuel (nt.removeLink d sname e) f l.1 st)
            (vb, fda) = (wb, gb) := ⟨_, _, rfl⟩
        rw [hwa, hwb]
        rw [hwa, hwb] at h1 h2
        simp only at h1 h2
        rw [h1]
        exact iht wa wb gb (fun x hx => h2 x hx)
    cases hg : nt.getNode n with
    | none =>
      have hg' : (nt.removeLink d sname e).getNode n = none := by
        rw [getNode_removeLink, hg]
        rfl
      simp only [find_emission_nodes_fuel, hg, hg']
      exact ⟨by trivial, fun x hx => hInv x hx⟩
    | some node =>
      have hg' : (nt.removeLink d sname e).getNode n = some
          (if node.name = d then node.updateInput sname
            (fun s => { s with links := s.links.erase e }) else node) := by
        rw [getNode_removeLink, hg]
        rfl
      by_cases hv : n ∈ v <;> by_cases hv' : n ∈ v'
      · simp only [find_emission_nodes_fuel, hg, hg', if_pos hv, if_pos hv']
        exact ⟨by trivial, fun x hx => hInv x hx⟩
      · -- n visited only on the intact side: n is reachable from the edge source
        have hR : reaches nt e.1 n := by
          by_contra hRc
          exact hv' ((hInv n hRc).mp hv)
        have hsub' : ∀ x, reaches (nt.removeLink d sname e) n x →
            capableB (nt.removeLink d sname e) x = false := by
          intro x hx
          rw [capableB_removeLink]
          exact hcap x (hR.trans (reaches_removeLink hx))
        obtain ⟨h1, h2⟩ := fen_excursion (nt.removeLink d sname e) (f + 1) n v' fd hsub'
        have hA : find_emission_nodes_fuel nt (f + 1) n (v, fd) = (v, fd) := by
          simp only [find_emission_nodes_fuel, hg, if_pos hv]
        rw [hA]
        refine ⟨h1.symm, ?_⟩
        intro x hx
        constructor
        · intro hm
          exact fen_vis_mono _ (f + 1) n (v', fd) x ((hInv x hx).mp hm)
        · intro hm
          rcases h2 x hm with hh | hh
          · exact (hInv x hx).mpr hh
          · exact absurd (hR.trans (reaches_removeLink hh)) hx
      · -- n visited only on the removed-link side
        have hR : reaches nt e.1 n := by
          by_contra hRc
          exact hv ((hInv n hRc).mpr hv')
        have hsub : ∀ x, reaches nt n x → capableB nt x = false :=
          fun x hx => hcap x (hR.trans hx)
        obtain ⟨h1, h2⟩ := fen_excursion nt (f + 1) n v fd hsub
        have hB : find_emission_nodes_fuel (nt.removeLink d sname e) (f + 1) n
            (v', fd) = (v', fd) := by
          simp only [find_emission_nodes_fuel, hg', if_pos hv']
        rw [hB]
        refine ⟨h1, ?_⟩
        intro x hx
        constructor
        · intro hm
          rcases h2 x hm with hh | hh
          · exact (hInv x hx).mp hh
          · exact absurd (hR.trans hh) hx
        · intro hm
          exact fen_vis_mono nt (f + 1) n (v, fd) x ((hInv x hx).mpr hm)
      · by_cases hR : reaches nt e.1 n
        · -- both sides take a silent excursion
          have hsub : ∀ x, reaches nt n x → capableB nt x = false :=
            fun x hx => hcap x (hR.trans hx)
          have hsub' : ∀ x, reaches (nt.removeLink d sname e) n x →
              capableB (nt.removeLink d sname e) x = false := by
            intro x hx
            rw [capableB_removeLink]
            exact hcap x (hR.trans (reaches_removeLink hx))
          obtain ⟨h1, h2⟩ := fen_excursion nt (f + 1) n v fd hsub
          obtain ⟨h1', h2'⟩ := fen_excursion (nt.removeLink d sname e) (f + 1) n
            v' fd hsub'
          refine ⟨h1.trans h1'.symm, ?_⟩
          intro x hx
          constructor
          · intro hm
            rcases h2 x hm with hh | hh
            · exact fen_vis_mono _ (f + 1) n (v', fd) x ((hInv x hx).mp hh)
            · exact absurd (hR.trans hh) hx
          · intro hm
            rcases h2' x hm with hh | hh
            · exact fen_vis_mono nt (f + 1) n (v, fd) x ((hInv x hx).mpr hh)
            · exact absurd (hR.trans (reaches_removeLink hh)) hx
        · -- lockstep descent through an unreachable-from-the-edge node
          have hInv1 : ∀ x, ¬ reaches nt e.1 x →
              (x ∈ v ++ [n] ↔ x ∈ v' ++ [n]) := by
            intro x hx
            simp only [List.mem_append, List.mem_singleton]
            constructor
            · rintro (h | h)
              · exact Or.inl ((hInv x hx).mp h)
              · exact Or.inr h
            · rintro (h | h)
              · exact Or.inl ((hInv x hx).mpr h)
              · exact Or.inr h
          by_cases hnd : node.name = d
          · have hes : ((node.updateInput sname
                (fun s => { s with links := s.links.erase e })).getInput
                  "Emission Strength").isSome =
                (node.getInput "Emission Strength").isSome := by
              rw [Node.getInput_updateInput node sname "Emission Strength"
                (fun s => { s with links := s.links.erase e }) (fun s => rfl)]
              by_cases hsn : sname = "Emission Strength" <;> simp [hsn]
            simp only [find_emission_nodes_fuel, hg, hg', if_neg hv, if_neg hv',
              if_pos hnd, Node.updateInput_ntype, hes]
            rcases updateInput_go_split sname
                (fun s => { s with links := s.links.erase e }) node.inputs with
              ⟨hgo, _⟩ | ⟨A, sck, B, hsplit, _, hgo⟩
            · have hinputs : (node.updateInput sname
                  (fun s => { s with links := s.links.erase e })).inputs =
                  node.inputs := hgo
              rw [hinputs]
              by_cases hc1 : node.ntype = NType.EMISSION
              · simp only [if_pos hc1]
                exact psocks node.inputs _ _ (fd ++ [n]) hInv1
              · simp only [if_neg hc1]
                by_cases hc2 : node.ntype = NType.BSDF_PRINCIPLED ∧
                    (node.getInput "Emission Strength").isSome = true
                · simp only [if_pos hc2]
                  exact psocks node.inputs _ _ (fd ++ [n]) hInv1
                · simp only [if_neg hc2]
                  exact psocks node.inputs _ _ fd hInv1
            · have hinputs : (node.updateInput sname
                  (fun s => { s with links := s.links.erase e })).inputs =
                  A ++ (fun s => { s with links := s.links.erase e }) sck :: B :=
                hgo
              have hmain : ∀ fd₁ : List String,
                  (((A ++ sck :: B).foldl (fun st sock => sock.links.foldl
                      (fun st l => find_emission_nodes_fuel nt f l.1 st) st)
                      (v ++ [n], fd₁)).2 =
                    ((A ++ (fun s => { s with links := s.links.erase e }) sck :: B).foldl
                      (fun st sock => sock.links.foldl
                        (fun st l => find_emission_nodes_fuel
                          (nt.removeLink d sname e) f l.1 st) st)
                      (v' ++ [n], fd₁)).2) ∧
                  ∀ x, ¬ reaches nt e.1 x →
                    (x ∈ ((A ++ sck :: B).foldl (fun st sock => sock.links.foldl
                        (fun st l => find_emission_nodes_fuel nt f l.1 st) st)
                        (v ++ [n], fd₁)).1 ↔
                     x ∈ ((A ++ (fun s => { s with links := s.links.erase e }) sck :: B).foldl
                        (fun st sock => sock.links.foldl
                          (fun st l => find_emission_nodes_fuel
                            (nt.removeLink d sname e) f l.1 st) st)
                        (v' ++ [n], fd₁)).1) := by
                intro fd₁
                rw [List.foldl_append, List.foldl_append, List.foldl_cons,
                  List.foldl_cons]
                obtain ⟨ha1, ha2⟩ := psocks A (v ++ [n]) (v' ++ [n]) fd₁ hInv1
                obtain ⟨wa, ga, hwa⟩ : ∃ wa ga, A.foldl (fun st sock =>
                    sock.links.foldl (fun st l =>
                      find_emission_nodes_fuel nt f l.1 st) st)
                    (v ++ [n], fd₁) = (wa, ga) := ⟨_, _, rfl⟩
                obtain ⟨wb, gb, hwb⟩ : ∃ wb gb, A.foldl (fun st sock =>
                    sock.links.foldl (fun st l => find_emission_nodes_fuel
                      (nt.removeLink d sname e) f l.1 st) st)
                    (v' ++ [n], fd₁) = (wb, gb) := ⟨_, _, rfl⟩
                rw [hwa, hwb]
                rw [hwa, hwb] at ha1 ha2
                simp only at ha1 ha2
                rw [ha1]
                have hsock : ((sck.links.foldl (fun st l =>
                      find_emission_nodes_fuel nt f l.1 st) (wa, gb)).2 =
                    ((sck.links.erase e).foldl (fun st l =>
                      find_emission_nodes_fuel (nt.removeLink d sname e) f l.1 st)
                      (wb, gb)).2) ∧
                    ∀ x, ¬ reaches nt e.1 x →
                      (x ∈ (sck.links.foldl (fun st l =>
                          find_emission_nodes_fuel nt f l.1 st) (wa, gb)).1 ↔
                       x ∈ ((sck.links.erase e).foldl (fun st l =>
                          find_emission_nodes_fuel (nt.removeLink d sname e) f
                            l.1 st) (wb, gb)).1) := by
                  by_cases he : e ∈ sck.links
                  · obtain ⟨P, Q, _, hPQ, herase⟩ := List.exists_erase_eq he
                    rw [herase, hPQ, List.foldl_append, List.foldl_append,
                      List.foldl_cons]
                    obtain ⟨hp1, hp2⟩ := plinks P wa wb gb (fun x hx => ha2 x hx)
                    obtain ⟨wa2, ga2, hwa2⟩ : ∃ w g, P.foldl (fun st l =>
                        find_emission_nodes_fuel nt f l.1 st) (wa, gb) = (w, g) :=
                      ⟨_, _, rfl⟩
                    obtain ⟨wb2, gb2, hwb2⟩ : ∃ w g, P.foldl (fun st l =>
                        find_emission_nodes_fuel (nt.removeLink d sname e) f
                          l.1 st) (wb, gb) = (w, g) := ⟨_, _, rfl⟩
                    rw [hwa2, hwb2]
                    rw [hwa2, hwb2] at hp1 hp2
                    simp only at hp1 hp2
                    rw [hp1]
                    obtain ⟨he1, he2⟩ := estepL e.1 wa2 wb2 gb2
                      Relation.ReflTransGen.refl (fun x hx => hp2 x hx)
                    obtain ⟨wa3, ga3, hwa3⟩ : ∃ w g, find_emission_nodes_fuel nt f
                        e.1 (wa2, gb2) = (w, g) := ⟨_, _, rfl⟩
                    rw [hwa3]
                    rw [hwa3] at he1 he2
                    simp only at he1 he2
                    rw [he1]
                    exact plinks Q wa3 wb2 gb2 (fun x hx => he2 x hx)
                  · rw [List.erase_of_not_mem he]
                    exact plinks sck.links wa wb gb (fun x hx => ha2 x hx)
                obtain ⟨hs1, hs2⟩ := hsock
                obtain ⟨wa4, ga4, hwa4⟩ : ∃ w g, sck.links.foldl (fun st l =>
                    find_emission_nodes_fuel nt f l.1 st) (wa, gb) = (w, g) :=
                  ⟨_, _, rfl⟩
                obtain ⟨wb4, gb4, hwb4⟩ : ∃ w g, (sck.links.erase e).foldl
                    (fun st l => find_emission_nodes_fuel (nt.removeLink d sname e)
                      f l.1 st) (wb, gb) = (w, g) := ⟨_, _, rfl⟩
                rw [hwa4, hwb4]
                rw [hwa4, hwb4] at hs1 hs2
                simp only at hs1 hs2
                rw [hs1]
                exact psocks B wa4 wb4 gb4 (fun x hx => hs2 x hx)
              rw [hinputs, hsplit]
              by_cases hc1 : node.ntype = NType.EMISSION
              · simp only [if_pos hc1]
                exact hmain (fd ++ [n])
              · simp only [if_neg hc1]
                by_cases hc2 : node.ntype = NType.BSDF_PRINCIPLED ∧
                    (node.getInput "Emission Strength").isSome = true
                · simp only [if_pos hc2]
                  exact hmain (fd ++ [n])
                · simp only [if_neg hc2]
                  exact hmain fd
          · simp only [find_emission_nodes_fuel, hg, hg', if_neg hv, if_neg hv',
              if_neg hnd]
            by_cases hc1 : node.ntype = NType.EMISSION
            · simp only [if_pos hc1]
              exact psocks node.inputs _ _ (fd ++ [n]) hInv1
            · simp only [if_neg hc1]
              by_cases hc2 : node.ntype = NType.BSDF_PRINCIPLED ∧
                  (node.getInput "Emission Strength").isSome = true
              · simp only [if_pos hc2]
                exact psocks node.inputs _ _ (fd ++ [n]) hInv1
              · simp only [if_neg hc2]
                exact psocks node.inputs _ _ fd hInv1

theorem names_measure_mono (l v w : List String) (hsub : ∀ x ∈ v, x ∈ w) :
    (l.filter (fun x => ¬ x ∈ w)).length ≤
      (l.filter (fun x => ¬ x ∈ v)).length := by
  apply List.Sublist.length_le
  apply List.monotone_filter_right
  intro a ha
  simp only [decide_eq_true_eq] at ha ⊢
  exact fun hv => ha (hsub a hv)

theorem names_measure_strict (l v : List String) (n : String) (hmem : n ∈ l)
    (hnv : ¬ n ∈ v) :
    (l.filter (fun x => ¬ x ∈ v ++ [n])).length <
      (l.filter (fun x => ¬ x ∈ v)).length := by
  have h1 : l.filter (fun x => ¬ x ∈ v ++ [n]) =
      (l.filter (fun x => ¬ x ∈ v)).filter (fun x => ¬ x = n) := by
    rw [List.filter_filter]
    apply List.filter_congr
    intro a _
    by_cases h1 : a ∈ v <;> by_cases h2 : a = n <;> simp [h1, h2]
  rw [h1]
  exact List.length_filter_lt_length_iff_exists.mpr
    ⟨n, List.mem_filter.mpr ⟨hmem, by simp [hnv]⟩, by simp⟩

theorem fen_fuel_congr (nt : NodeTree) :
    ∀ (cnt : Nat) (f₁ f₂ : Nat) (n : String) (v fd : List String),
      ((nt.nodes.map (fun nd => nd.name)).dedup.filter
        (fun x => ¬ x ∈ v)).length = cnt →
      cnt < f₁ → cnt < f₂ →
      find_emission_nodes_fuel nt f₁ n (v, fd) =
        find_emission_nodes_fuel nt f₂ n (v, fd) := by
  intro cnt
  induction cnt using Nat.strong_induction_on with
  | _ cnt ih =>
    intro f₁ f₂ n v fd hcnt h1 h2
    cases f₁ with
    | zero => omega
    | succ a =>
      cases f₂ with
      | zero => omega
      | succ b =>
        cases hg : nt.getNode n with
        | none => simp only [find_emission_nodes_fuel, hg]
        | some node =>
          by_cases hv : n ∈ v
          · simp only [find_emission_nodes_fuel, hg, if_pos hv]
          · have hnmem : n ∈ (nt.nodes.map (fun nd => nd.name)).dedup := by
              rw [List.mem_dedup]
              exact List.mem_map.mpr ⟨node, getNode_mem hg, getNode_name hg⟩
            have hlt : ((nt.nodes.map (fun nd => nd.name)).dedup.filter
                (fun x => ¬ x ∈ v ++ [n])).length < cnt := by
              rw [← hcnt]
              exact names_measure_strict _ v n hnmem hv
            have hcall : ∀ (y : String) (st : List String × List String),
                (∀ x ∈ v ++ [n], x ∈ st.1) →
                find_emission_nodes_fuel nt a y st =
                  find_emission_nodes_fuel nt b y st ∧
                (∀ x ∈ v ++ [n], x ∈ (find_emission_nodes_fuel nt a y st).1) := by
              intro y st hsub
              obtain ⟨sv, sf⟩ := st
              have hm : ((nt.nodes.map (fun nd => nd.name)).dedup.filter
                  (fun x => ¬ x ∈ sv)).length ≤
                  ((nt.nodes.map (fun nd => nd.name)).dedup.filter
                    (fun x => ¬ x ∈ v ++ [n])).length :=
                names_measure_mono _ _ _ hsub
              refine ⟨ih _ (lt_of_le_of_lt hm hlt) a b y sv sf rfl ?_ ?_, ?_⟩
              · omega
              · omega
              · intro x hx
                exact fen_vis_mono nt a y (sv, sf) x (hsub x hx)
            have hlinks : ∀ (links : List LinkRef) (st : List String × List String),
                (∀ x ∈ v ++ [n], x ∈ st.1) →
                links.foldl (fun st l => find_emission_nodes_fuel nt a l.1 st) st =
                  links.foldl (fun st l => find_emission_nodes_fuel nt b l.1 st) st ∧
                (∀ x ∈ v ++ [n],
                  x ∈ (links.foldl (fun st l =>
                    find_emission_nodes_fuel nt a l.1 st) st).1) := by
              intro links
              induction links with
              | nil => exact fun st h => ⟨rfl, h⟩
              | cons l t iht =>
                intro st h
                simp only [List.foldl_cons]
                obtain ⟨hc1, hc2⟩ := hcall l.1 st h
                rw [← hc1]
                exact iht _ hc2
            have hsocks : ∀ (socks : List Socket) (st : List String × List String),
                (∀ x ∈ v ++ [n], x ∈ st.1) →
                socks.foldl (fun st sock => sock.links.foldl
                  (fun st l => find_emission_nodes_fuel nt a l.1 st) st) st =
                  socks.foldl (fun st sock => sock.links.foldl
                    (fun st l => find_emission_nodes_fuel nt b l.1 st) st) st ∧
                (∀ x ∈ v ++ [n],
                  x ∈ (socks.foldl (fun st sock => sock.links.foldl
                    (fun st l => find_emission_nodes_fuel nt a l.1 st) st) st).1) := by
              intro socks
              induction socks with
              | nil => exact fun st h => ⟨rfl, h⟩
              | cons sck t iht =>
                intro st h
                simp only [List.foldl_cons]
                obtain ⟨hc1, hc2⟩ := hlinks sck.links st h
                rw [← hc1]
                exact iht _ hc2
            simp only [find_emission_nodes_fuel, hg, if_neg hv]
            exact (hsocks node.inputs (v ++ [n], _) (fun x hx => hx)).1

/-- Claim C8: the depth-first emission search terminates on every node
graph, cyclic ones included — recursion depth `nodes.length + 1` already
computes the fixed point from any start state — and removing a link whose
source node reaches no emission-capable node (the formalisation of "a cycle
edge not on the path to an emission node") leaves the list of found
emission nodes unchanged, at every recursion depth and in particular for
`find_emission_nodes` itself. -/
theorem C8_theorem :
    (∀ (nt : NodeTree) (entry : String) (st : List String × List String)
        (fuel : Nat), nt.nodes.length + 1 ≤ fuel →
        find_emission_nodes_fuel nt fuel entry st =
          find_emission_nodes nt entry st) ∧
    (∀ (nt : NodeTree) (d sname : String) (e : LinkRef) (entry : String)
        (fuel : Nat),
        (∀ x, reaches nt e.1 x → capableB nt x = false) →
        (find_emission_nodes_fuel nt fuel entry ([], [])).2 =
          (find_emission_nodes_fuel (nt.removeLink d sname e) fuel entry
            ([], [])).2) ∧
    (∀ (nt : NodeTree) (d sname : String) (e : LinkRef) (entry : String),
        (∀ x, reaches nt e.1 x → capableB nt x = false) →
        (find_emission_nodes nt entry ([], [])).2 =
          (find_emission_nodes (nt.removeLink d sname e) entry ([], [])).2) := by
  have hpart1 : ∀ (nt : NodeTree) (entry : String)
      (st : List String × List String) (fuel : Nat),
      nt.nodes.length + 1 ≤ fuel →
      find_emission_nodes_fuel nt fuel entry st =
        find_emission_nodes nt entry st := by
    intro nt entry st fuel hf
    obtain ⟨v, fd⟩ := st
    have hcnt : ((nt.nodes.map (fun nd => nd.name)).dedup.filter
        (fun x => ¬ x ∈ v)).length ≤ nt.nodes.length := by
      refine le_trans (List.length_filter_le _ _) ?_
      refine le_trans (List.Sublist.length_le (List.dedup_sublist _)) ?_
      rw [List.length_map]
    unfold find_emission_nodes
    exact fen_fuel_congr nt _ fuel (nt.nodes.length + 1) entry v fd rfl
      (by omega) (by omega)
  have hpart2 : ∀ (nt : NodeTree) (d sname : String) (e : LinkRef)
      (entry : String) (fuel : Nat),
      (∀ x, reaches nt e.1 x → capableB nt x = false) →
      (find_emission_nodes_fuel nt fuel entry ([], [])).2 =
        (find_emission_nodes_fuel (nt.removeLink d sname e) fuel entry
          ([], [])).2 := by
    intro nt d sname e entry fuel hcap
    exact (fen_bisim nt d sname e hcap fuel entry [] [] [] (by simp)).1
  refine ⟨hpart1, hpart2, ?_⟩
  intro nt d sname e entry hcap
  have hlen : (nt.removeLink d sname e).nodes.length = nt.nodes.length := by
    show (nt.nodes.map _).length = nt.nodes.length
    rw [List.length_map]
  unfold find_emission_nodes
  rw [hlen]
  exact hpart2 nt d sname e entry (nt.nodes.length + 1) hcap

theorem ntCyc_reach : ∀ x, reaches ntCyc "A" x → x = "A" ∨ x = "B" := by
  have hstep : ∀ y z, stepsTo ntCyc y z → (y = "A" ∨ y = "B") →
      z = "A" ∨ z = "B" := by
    intro y z hs hy
    obtain ⟨nd, hnd, s, hs', l, hl, hlz⟩ := hs
    rcases hy with rfl | rfl
    · have h0 : ntCyc.getNode "A" = some ⟨"A", NType.OTHER,
          [⟨"In", SockVal.scalar 0, [("B", "Out")]⟩], ["Out"], false⟩ := by rfl
      rw [h0] at hnd
      have hnd2 := Option.some.inj hnd
      rw [← hnd2] at hs'
      simp only [List.mem_singleton] at hs'
      rw [hs'] at hl
      simp only [List.mem_singleton] at hl
      rw [hl] at hlz
      exact Or.inr hlz.symm
    · have h0 : ntCyc.getNode "B" = some ⟨"B", NType.OTHER,
          [⟨"In", SockVal.scalar 0, [("A", "Out")]⟩], ["Out"], false⟩ := by rfl
      rw [h0] at hnd
      have hnd2 := Option.some.inj hnd
      rw [← hnd2] at hs'
      simp only [List.mem_singleton] at hs'
      rw [hs'] at hl
      simp only [List.mem_singleton] at hl
      rw [hl] at hlz
      exact Or.inl hlz.symm
  intro x h
  induction h with
  | refl => exact Or.inl rfl
  | tail p step ih => exact hstep _ _ step ih

theorem C8_witness :
    find_emission_nodes_fuel ntCyc 10 "S" ([], []) =
      find_emission_nodes ntCyc "S" ([], []) ∧
    (find_emission_nodes_fuel ntCyc 10 "S" ([], [])).2 =
      (find_emission_nodes_fuel (ntCyc.removeLink "B" "In" ("A", "Out")) 10 "S"
        ([], [])).2 :=
  ⟨C8_theorem.1 ntCyc "S" ([], []) 10 (by decide),
   C8_theorem.2.1 ntCyc "B" "In" ("A", "Out") "S" 10
     (fun x hx => by rcases ntCyc_reach x hx with rfl | rfl <;> rfl)⟩

theorem forceNodeMap_name (m : String) (em : Option Mode) (ei : Option PyIdent)
    (n : Node) : (forceNodeMap m em ei n).name = n.name := by
  unfold forceNodeMap
  cases hos : orStrength n with
  | none => rfl
  | some p =>
    obtain ⟨sname, s⟩ := p
    dsimp only
    by_cases hex : em = some Mode.MATERIAL ∧ ei = some (PyIdent.matKey m n.name)
    · rw [if_pos hex]
    · rw [if_neg hex]; exact Node.updateInput_name n sname _

theorem forceMatMap_key (em : Option Mode) (ei : Option PyIdent)
    (t : String × Bool × NodeTree) : (forceMatMap em ei t).1 = t.1 := by
  unfold forceMatMap
  split <;> rfl

theorem force_nodes_eq (mname : String) (em : Option Mode) (ei : Option PyIdent) :
    ∀ (nodes : List Node) (bk : List ((String × String) × SockVal)),
    force_nodes mname em ei nodes bk =
      (nodes.map (forceNodeMap mname em ei),
       nodes.foldl (forceNodeBk mname em ei) bk) := by
  intro nodes
  induction nodes with
  | nil => intro bk; rfl
  | cons n t ih =>
    intro bk
    simp only [force_nodes, forceNodeMap, forceNodeBk, List.map_cons,
      List.foldl_cons]
    cases hos : orStrength n with
    | none => simp [ih]
    | some p =>
      obtain ⟨sname, s⟩ := p
      by_cases hex : em = some Mode.MATERIAL ∧ ei = some (PyIdent.matKey mname n.name)
      · simp only [if_pos hex, ih]
      · simp only [if_neg hex, ih]

theorem force_materials_eq (em : Option Mode) (ei : Option PyIdent) :
    ∀ (mats : List (String × Bool × NodeTree))
      (bk : List ((String × String) × SockVal)),
    force_materials em ei mats bk =
      (mats.map (forceMatMap em ei), mats.foldl (forceMatBk em ei) bk) := by
  intro mats
  induction mats with
  | nil => intro bk; rfl
  | cons x t ih =>
    intro bk
    obtain ⟨mname, un, nt⟩ := x
    simp only [force_materials, force_nodes_eq, forceMatMap, forceMatBk,
      List.map_cons, List.foldl_cons, ih]
    by_cases hu : un = true <;> simp [hu]

theorem force_all_off_parts (sc : Scene) (mgr : OnOffMgr) (em : Option Mode)
    (ei : Option PyIdent) :
    force_all_off sc mgr em ei =
      (⟨(force_lights (keepLightsOf em ei) sc.objects mgr.light_backup).1,
        sc.materials.map (forceMatMap em ei),
        (force_world sc.world mgr.env_backup).1,
        sc.view_layer_name⟩,
       ⟨(force_lights (keepLightsOf em ei) sc.objects mgr.light_backup).2,
        sc.materials.foldl (forceMatBk em ei) mgr.material_backup,
        (force_world sc.world mgr.env_backup).2⟩) := by
  simp only [force_all_off, force_materials_eq]

theorem orStrength_getInput {n : Node} {sname : String} {sock : Socket}
    (h : orStrength n = some (sname, sock)) : n.getInput sname = some sock := by
  unfold orStrength at h
  cases h1 : n.getInput "Strength" with
  | some s =>
    rw [h1] at h
    simp only [Option.some.injEq, Prod.mk.injEq] at h
    obtain ⟨h2, h3⟩ := h
    rw [← h2, ← h3]
    exact h1
  | none =>
    rw [h1] at h
    cases h2 : n.getInput "Emission Strength" with
    | none => rw [h2] at h; exact absurd h (by simp)
    | some s =>
      rw [h2] at h
      simp only [Option.some.injEq, Prod.mk.injEq] at h
      obtain ⟨h3, h4⟩ := h
      rw [← h3, ← h4]
      exact h2

theorem getMaterial_find {sc : Scene} {m : String} {un : Bool} {nt : NodeTree}
    (h : sc.getMaterial m = some (un, nt)) :
    sc.materials.find? (fun x => x.1 == m) = some (m, un, nt) := by
  unfold Scene.getMaterial at h
  cases hf : sc.materials.find? (fun x => x.1 == m) with
  | none => rw [hf] at h; exact absurd h (by simp)
  | some t =>
    rw [hf] at h
    simp only [Option.map_some'] at h
    have h2 := Option.some.inj h
    have h1 := List.find?_some hf
    simp only [beq_iff_eq] at h1
    obtain ⟨a, b⟩ := t
    simp only at h1 h2
    rw [h1, h2]

theorem getMaterial_fao_true (sc : Scene) (mgr : OnOffMgr) (em : Option Mode)
    (ei : Option PyIdent) (m : String) (nt : NodeTree)
    (h : sc.getMaterial m = some (true, nt)) :
    (force_all_off sc mgr em ei).1.getMaterial m =
      some (true, (⟨nt.nodes.map (forceNodeMap m em ei)⟩ : NodeTree)) := by
  rw [force_all_off_parts]
  show ((sc.materials.map (forceMatMap em ei)).find? (fun x => x.1 == m)).map
    (fun x => x.2) = _
  rw [findMat_map_key (forceMatMap em ei) (forceMatMap_key em ei),
    getMaterial_find h]
  rfl

theorem fao_namedInput (sc : Scene) (mgr : OnOffMgr) (em : Option Mode)
    (ei : Option PyIdent) (m nname sname : String) (nt : NodeTree) (node : Node)
    (sock : Socket)
    (hm : sc.getMaterial m = some (true, nt))
    (hn : nt.getNode nname = some node)
    (hs : orStrength node = some (sname, sock))
    (hex : ¬(em = some Mode.MATERIAL ∧ ei = some (PyIdent.matKey m nname))) :
    getNamedInput (force_all_off sc mgr em ei).1 m nname sname =
      some { sock with value := SockVal.scalar 0 } := by
  have hname : node.name = nname := getNode_name hn
  have hgn : (⟨nt.nodes.map (forceNodeMap m em ei)⟩ : NodeTree).getNode nname
      = some (forceNodeMap m em ei node) := by
    show (nt.nodes.map _).find? _ = _
    rw [findNode_map_name _ (forceNodeMap_name m em ei)]
    show (nt.getNode nname).map _ = _
    rw [hn]
    rfl
  have hfn : forceNodeMap m em ei node =
      node.updateInput sname (fun s => { s with value := SockVal.scalar 0 }) := by
    unfold forceNodeMap
    rw [hs]
    exact if_neg (by rw [hname]; exact hex)
  simp only [getNamedInput, getMaterial_fao_true sc mgr em ei m nt hm, hgn, hfn]
  rw [Node.getInput_updateInput node sname sname
    (fun s => { s with value := SockVal.scalar 0 }) (fun s => rfl),
    if_pos rfl, orStrength_getInput hs]
  rfl

theorem forceNodeBk_alookup_ne (mname : String) (em : Option Mode)
    (ei : Option PyIdent) (bk : List ((String × String) × SockVal)) (n : Node)
    (K : String × String) (h : (mname, n.name) ≠ K) :
    alookup (forceNodeBk mname em ei bk n) K = alookup bk K := by
  unfold forceNodeBk
  cases hos : orStrength n with
  | none => rfl
  | some p =>
    obtain ⟨sn, s⟩ := p
    dsimp only
    by_cases hex : em = some Mode.MATERIAL ∧ ei = some (PyIdent.matKey mname n.name)
    · rw [if_pos hex]
    · rw [if_neg hex]
      exact alookup_upsert_ne bk (mname, n.name) K s.value (Ne.symm h)

theorem nodesfold_bk_ne (mname : String) (em : Option Mode) (ei : Option PyIdent)
    (K : String × String) :
    ∀ (ns : List Node) (bk : List ((String × String) × SockVal)),
    (∀ n ∈ ns, (mname, n.name) ≠ K) →
    alookup (ns.foldl (forceNodeBk mname em ei) bk) K = alookup bk K := by
  intro ns
  induction ns with
  | nil => intro bk _; rfl
  | cons n t ih =>
    intro bk h
    rw [List.foldl_cons, ih _ (fun x hx => h x (List.mem_cons_of_mem n hx)),
      forceNodeBk_alookup_ne mname em ei bk n K (h n (List.mem_cons_self n t))]

theorem forceMatBk_alookup_ne (em : Option Mode) (ei : Option PyIdent)
    (bk : List ((String × String) × SockVal)) (t : String × Bool × NodeTree)
    (K : String × String) (h : t.1 ≠ K.1) :
    alookup (forceMatBk em ei bk t) K = alookup bk K := by
  unfold forceMatBk
  split
  · exact nodesfold_bk_ne t.1 em ei K t.2.2.nodes bk
      (fun n _ hh => h (by simpa using congrArg Prod.fst hh))
  · rfl

theorem matsfold_bk_ne (em : Option Mode) (ei : Option PyIdent)
    (K : String × String) :
    ∀ (mats : List (String × Bool × NodeTree))
      (bk : List ((String × String) × SockVal)),
    (∀ t ∈ mats, t.1 ≠ K.1) →
    alookup (mats.foldl (forceMatBk em ei) bk) K = alookup bk K := by
  intro mats
  induction mats with
  | nil => intro bk _; rfl
  | cons x t ih =>
    intro bk h
    rw [List.foldl_cons, ih _ (fun y hy => h y (List.mem_cons_of_mem x hy)),
      forceMatBk_alookup_ne em ei bk x K (h x (List.mem_cons_self x t))]

theorem nodesfold_bk_found (mname : String) (em : Option Mode)
    (ei : Option PyIdent) (nname sname : String) (node : Node) (sock : Socket)
    (hs : orStrength node = some (sname, sock))
    (hex : ¬(em = some Mode.MATERIAL ∧ ei = some (PyIdent.matKey mname nname))) :
    ∀ (ns : List Node) (bk : List ((String × String) × SockVal)),
    (ns.map (fun n => n.name)).Nodup →
    ns.find? (fun n => n.name == nname) = some node →
    alookup (ns.foldl (forceNodeBk mname em ei) bk) (mname, nname) =
      some sock.value := by
  intro ns
  induction ns with
  | nil => intro bk _ hf; exact absurd hf (by simp)
  | cons n t ih =>
    intro bk hnd hf
    rw [List.map_cons, List.nodup_cons] at hnd
    obtain ⟨hn1, hn2⟩ := hnd
    by_cases hname : n.name = nname
    · rw [List.find?_cons_of_pos _ (by simp [hname])] at hf
      have hnode := Option.some.inj hf
      rw [List.foldl_cons]
      have hname2 : node.name = nname := by rw [← hnode]; exact hname
      have hstep : forceNodeBk mname em ei bk n =
          upsert bk (mname, nname) sock.value := by
        unfold forceNodeBk
        rw [hnode, hs]
        dsimp only
        rw [hname2, if_neg hex]
      rw [hstep]
      rw [nodesfold_bk_ne mname em ei (mname, nname) t _ ?hT]
      · exact alookup_upsert_self bk (mname, nname) sock.value
      case hT =>
        intro x hx hh
        have hxn : x.name = nname := by simpa using congrArg Prod.snd hh
        exact hn1 (by rw [hname, ← hxn]; exact List.mem_map_of_mem _ hx)
    · rw [List.find?_cons_of_neg _ (by simp [hname])] at hf
      rw [List.foldl_cons]
      exact ih _ hn2 hf

theorem matsfold_bk_found (em : Option Mode) (ei : Option PyIdent)
    (m nname sname : String) (nt : NodeTree) (node : Node) (sock : Socket)
    (hn : nt.getNode nname = some node)
    (hnd : (nt.nodes.map (fun n => n.name)).Nodup)
    (hs : orStrength node = some (sname, sock))
    (hex : ¬(em = some Mode.MATERIAL ∧ ei = some (PyIdent.matKey m nname))) :
    ∀ (mats : List (String × Bool × NodeTree))
      (bk : List ((String × String) × SockVal)),
    (mats.map (fun t => t.1)).Nodup →
    (mats.find? (fun x => x.1 == m)).map (fun x => x.2) = some (true, nt) →
    alookup (mats.foldl (forceMatBk em ei) bk) (m, nname) = some sock.value := by
  intro mats
  induction mats with
  | nil => intro bk _ hf; exact absurd hf (by simp)
  | cons x t ih =>
    intro bk hnodup hf
    rw [List.map_cons, List.nodup_cons] at hnodup
    obtain ⟨h1, h2⟩ := hnodup
    by_cases hx : x.1 = m
    · rw [List.find?_cons_of_pos _ (by simp [hx])] at hf
      simp only [Option.map_some'] at hf
      have hx2 := Option.some.inj hf
      rw [List.foldl_cons]
      have hstep : forceMatBk em ei bk x =
          nt.nodes.foldl (forceNodeBk m em ei) bk := by
        unfold forceMatBk
        rw [hx2, hx]
        rfl
      rw [hstep]
      rw [matsfold_bk_ne em ei (m, nname) t _ ?hT]
      · exact nodesfold_bk_found m em ei nname sname node sock hs hex
          nt.nodes bk hnd hn
      case hT =>
        intro y hy hh
        have hy1 : y.1 = m := by simpa using hh
        exact h1 (by rw [hx, ← hy1]; exact List.mem_map_of_mem _ hy)
    · rw [List.find?_cons_of_neg _ (by simp [hx])] at hf
      rw [List.foldl_cons]
      exact ih _ h2 hf

theorem envBranch_getNamedInput (sc : Scene) (bk : List (BKey × BVal))
    (m n s : String) :
    getNamedInput (envBranch sc bk) m n s = getNamedInput sc m n s := by
  unfold envBranch
  cases hw : sc.world with
  | none => rfl
  | some w =>
    dsimp only
    cases hun : w.use_nodes with
    | false => rw [if_neg (by simp)]
    | true =>
      rw [if_pos rfl]
      cases hft : w.node_tree.firstOfType NType.OUTPUT_WORLD with
      | none => rfl
      | some o => rfl

theorem matBranchStep_getNamedInput (ident : Option PyIdent)
    (bk : List (BKey × BVal)) (sc : Scene) (t : Triple) (m n s : String)
    (h : ident ≠ some (PyIdent.matKey m n)) :
    getNamedInput (matBranchStep ident bk sc t) m n s =
      getNamedInput sc m n s := by
  obtain ⟨oname, mt, nn⟩ := t
  unfold matBranchStep
  dsimp only
  by_cases hid : ident = some (PyIdent.matKey mt nn)
  · rw [if_pos hid]
    cases hbk : alookup bk (BKey.pair mt nn) with
    | none => rfl
    | some v =>
      cases v with
      | lightTup a b => rfl
      | linkRef l => rfl
      | sockVal val =>
        unfold getNamedInput
        rw [Scene.getMaterial_updateMaterialTree]
        by_cases hm : mt = m
        · subst hm
          rw [if_pos rfl]
          have hn2 : nn ≠ n := fun hh => h (by rw [← hh]; exact hid)
          cases hgm : sc.getMaterial mt with
          | none => rfl
          | some p =>
            obtain ⟨un, nt0⟩ := p
            dsimp only [Option.map_some']
            unfold setTypeStrengthValue
            rw [NodeTree.getNode_updateNode nt0 nn n _
              (fun nd => Node.updateInput_name nd _ _)]
            rw [if_neg hn2]
        · rw [if_neg hm]
  · rw [if_neg hid]

theorem matBranchFold_getNamedInput (ident : Option PyIdent)
    (bk : List (BKey × BVal)) (m n s : String)
    (h : ident ≠ some (PyIdent.matKey m n)) :
    ∀ (trips : List Triple) (sc : Scene),
    getNamedInput (trips.foldl (matBranchStep ident bk) sc) m n s =
      getNamedInput sc m n s := by
  intro trips
  induction trips with
  | nil => intro sc; rfl
  | cons t r ih =>
    intro sc
    rw [List.foldl_cons, ih, matBranchStep_getNamedInput ident bk sc t m n s h]

theorem activate_onoff (gs : GState) (mode : Mode) (ident : Option PyIdent) :
    (activate gs mode ident).onoff =
      (force_all_off gs.scene gs.onoff (some mode) ident).2 := rfl

theorem activate_getNamedInput (gs : GState) (mode : Mode)
    (ident : Option PyIdent) (m n s : String)
    (hid : ¬(mode = Mode.MATERIAL ∧ ident = some (PyIdent.matKey m n))) :
    getNamedInput (activate gs mode ident).scene m n s =
      getNamedInput (force_all_off gs.scene gs.onoff (some mode) ident).1 m n s := by
  cases mode with
  | LIGHT_GROUP => rfl
  | LIGHT_ROW => rfl
  | MATERIAL =>
    have hi : ident ≠ some (PyIdent.matKey m n) := fun hh => hid ⟨rfl, hh⟩
    exact matBranchFold_getNamedInput ident _ m n s hi _ _
  | ENVIRONMENT => exact envBranch_getNamedInput _ _ m n s
  | MATERIAL_GROUP => rfl
  | ENVIRONMENT_SURFACE => rfl
  | ENVIRONMENT_VOLUME => rfl

/-- Claim C4, corrected: during `activate`, every node owning a
`Strength`-or-`Emission Strength` input that is not the excepted material
target has that socket's value set to scalar zero with the previous value
recorded in the on/off manager's material backup — the socket's incoming
links are never disconnected, whether or not the socket is linked (the
claimed EdgeRef branch does not exist in the material pass). -/
theorem C4_amended (gs : GState) (mode : Mode) (ident : Option PyIdent)
    (m nname sname : String) (nt : NodeTree) (node : Node) (sock : Socket)
    (hwf : gs.scene.WF)
    (hm : gs.scene.getMaterial m = some (true, nt))
    (hn : nt.getNode nname = some node)
    (hs : orStrength node = some (sname, sock))
    (hex : ¬(mode = Mode.MATERIAL ∧ ident = some (PyIdent.matKey m nname))) :
    getNamedInput (activate gs mode ident).scene m nname sname =
      some { sock with value := SockVal.scalar 0 } ∧
    alookup (activate gs mode ident).onoff.material_backup (m, nname) =
      some sock.value := by
  have hex' : ¬(some mode = some Mode.MATERIAL ∧
      ident = some (PyIdent.matKey m nname)) := by
    intro hh
    exact hex ⟨Option.some.inj hh.1, hh.2⟩
  constructor
  · rw [activate_getNamedInput gs mode ident m nname sname hex]
    exact fao_namedInput gs.scene gs.onoff (some mode) ident m nname sname
      nt node sock hm hn hs hex'
  · rw [activate_onoff]
    have hbk : (force_all_off gs.scene gs.onoff (some mode) ident).2.material_backup
        = gs.scene.materials.foldl (forceMatBk (some mode) ident)
            gs.onoff.material_backup := by
      rw [force_all_off_parts]
    rw [hbk]
    obtain ⟨-, hmatnd, -, htrees, -⟩ := hwf
    obtain ⟨hnodnd, -⟩ := htrees _ (getMaterial_mem hm)
    exact matsfold_bk_found (some mode) ident m nname sname nt node sock hn
      hnodnd hs hex' gs.scene.materials gs.onoff.material_backup hmatnd hm

/-- Claim C4, counterexample: in `sceneLinkedEm` the discovered emissive
node `E` (not in any keep set — the mode is plain environment isolation) has
a linked `Strength` socket, yet `activate` leaves the incoming edge
connected, zeroes the socket's value anyway, and records a value snapshot —
not an EdgeRef — in both backup stores. -/
theorem C4_counterexample :
    (find_emissive_objects sceneLinkedEm [] none).1 = [("O", "M", "E")] ∧
    getTypeStrengthLinks
      (activate (freshGState sceneLinkedEm) Mode.ENVIRONMENT none).scene
      "M" "E" = some [("V", "Value")] ∧
    getTypeStrengthValue
      (activate (freshGState sceneLinkedEm) Mode.ENVIRONMENT none).scene
      "M" "E" = some (SockVal.scalar 0) ∧
    alookup (activate (freshGState sceneLinkedEm) Mode.ENVIRONMENT none).iso.backup
      (BKey.pair "M" "E") = some (BVal.sockVal (SockVal.scalar 3)) := by
  refine ⟨rfl, rfl, rfl, rfl⟩

theorem C4_witness :
    getNamedInput
      (activate (freshGState sceneLinkedEm) Mode.ENVIRONMENT none).scene
      "M" "E" "Strength" =
        some ⟨"Strength", SockVal.scalar 0, [("V", "Value")]⟩ ∧
    alookup (activate (freshGState sceneLinkedEm)
      Mode.ENVIRONMENT none).onoff.material_backup ("M", "E") =
        some (SockVal.scalar 3) :=
  C4_amended (freshGState sceneLinkedEm) Mode.ENVIRONMENT none "M" "E"
    "Strength" _ _ ⟨"Strength", SockVal.scalar 3, [("V", "Value")]⟩
    (by decide) rfl rfl rfl (by decide)

theorem getNode_of_mem_nodup :
    ∀ (l : List Node), (l.map (fun n => n.name)).Nodup → ∀ {x : Node}, x ∈ l →
    l.find? (fun n => n.name == x.name) = some x := by
  intro l
  induction l with
  | nil => intro _ x hx; exact absurd hx (List.not_mem_nil x)
  | cons h t ih =>
    intro hnd x hx
    rw [List.map_cons, List.nodup_cons] at hnd
    obtain ⟨h1, h2⟩ := hnd
    rcases List.mem_cons.mp hx with rfl | hxt
    · exact List.find?_cons_of_pos _ (by simp)
    · have hne : h.name ≠ x.name := by
        intro hh
        exact h1 (hh ▸ List.mem_map_of_mem _ hxt)
      rw [List.find?_cons_of_neg _ (by simp [hne])]
      exact ih h2 hxt

theorem ts_orStrength (x : Node)
    (hboth : ¬((x.getInput "Strength").isSome ∧
      (x.getInput "Emission Strength").isSome))
    {stx : Socket} (hts : typeStrengthSocket x = some stx) :
    orStrength x = some (typeStrengthName x, stx) := by
  unfold typeStrengthSocket typeStrengthName at *
  unfold orStrength
  by_cases he : x.ntype = NType.EMISSION
  · rw [if_pos he] at hts ⊢
    rw [hts]
  · rw [if_neg he] at hts ⊢
    cases h1 : x.getInput "Strength" with
    | none => rw [hts]
    | some s => exact absurd ⟨by rw [h1]; rfl, by rw [hts]; rfl⟩ hboth

theorem treeInput_update_other (ntc : NodeTree) (xname ts : String)
    (f : Socket → Socket) (hf : ∀ s, (f s).name = s.name)
    (n s : String) (sock : Socket)
    (hI : treeInput ntc n s = some sock)
    (hne : ¬(xname = n ∧ ts = s)) :
    treeInput (ntc.updateNode xname (fun nd => nd.updateInput ts f)) n s =
      some sock := by
  unfold treeInput at *
  rw [NodeTree.getNode_updateNode ntc xname n _
    (fun nd => Node.updateInput_name nd ts f)]
  by_cases hx : xname = n
  · rw [if_pos hx]
    rw [← hx] at hI
    cases hg : ntc.getNode xname with
    | none => rw [hg] at hI; exact absurd hI (by simp)
    | some nd =>
      rw [hg] at hI
      dsimp only [Option.map_some']
      rw [Node.getInput_updateInput nd ts s f hf,
        if_neg (fun hh => hne ⟨hx, hh⟩)]
      exact hI
  · rw [if_neg hx]
    exact hI

theorem getNode_ntype_update (ntc : NodeTree) (xname ts : String)
    (f : Socket → Socket) (y : String) :
    ((ntc.updateNode xname (fun nd => nd.updateInput ts f)).getNode y).map
        (fun nd => nd.ntype) =
      (ntc.getNode y).map (fun nd => nd.ntype) := by
  rw [NodeTree.getNode_updateNode ntc xname y _
    (fun nd => Node.updateInput_name nd ts f)]
  by_cases hx : xname = y
  · rw [if_pos hx, hx]
    cases ntc.getNode y with
    | none => rfl
    | some nd => simp [Node.updateInput_ntype]
  · rw [if_neg hx]

theorem updateNode_congr_getNode :
    ∀ (l : List Node) (xname : String) (g₁ g₂ : Node → Node),
    (∀ nd, l.find? (fun k => k.name == xname) = some nd → g₁ nd = g₂ nd) →
    NodeTree.updateNode.go xname g₁ l = NodeTree.updateNode.go xname g₂ l := by
  intro l
  induction l with
  | nil => intro xname g₁ g₂ _; rfl
  | cons k t ih =>
    intro xname g₁ g₂ h
    unfold NodeTree.updateNode.go
    by_cases hk : k.name = xname
    · rw [if_pos hk, if_pos hk,
        h k (List.find?_cons_of_pos _ (by simp [hk]))]
    · rw [if_neg hk, if_neg hk,
        ih xname g₁ g₂ (fun nd hnd => h nd (by
          rw [List.find?_cons_of_neg _ (by simp [hk])]
          exact hnd))]

theorem toggleStep_off_preserve (mat : String) (nt : NodeTree)
    (hnd : (nt.nodes.map (fun n => n.name)).Nodup)
    (n s : String) (sock : Socket)
    (hobs : treeInput nt n s = some sock)
    (hlink : sock.is_linked = true)
    (x : Node) (hx : x ∈ nt.nodes)
    (hboth : ¬((x.getInput "Strength").isSome ∧
      (x.getInput "Emission Strength").isSome))
    (hxoff : ∀ sn sx, orStrength x = some (sn, sx) → sx.is_linked = false)
    (ntc : NodeTree) (store : List (String × TogRec))
    (hI : treeInput ntc n s = some sock)
    (hty : ∀ y, ((ntc.getNode y).map (fun nd => nd.ntype)) =
      ((nt.getNode y).map (fun nd => nd.ntype))) :
    treeInput (toggleStep mat false (ntc, store) x.name).1 n s = some sock ∧
    (∀ y, (((toggleStep mat false (ntc, store) x.name).1.getNode y).map
        (fun nd => nd.ntype)) =
      ((nt.getNode y).map (fun nd => nd.ntype))) := by
  have hnx : nt.getNode x.name = some x := getNode_of_mem_nodup nt.nodes hnd hx
  unfold toggleStep
  dsimp only
  cases hg : ntc.getNode x.name with
  | none => exact ⟨hI, hty⟩
  | some node =>
    dsimp only
    cases hts : typeStrengthSocket node with
    | none => exact ⟨hI, hty⟩
    | some sockc =>
      dsimp only
      rw [if_neg (by simp)]
      have hxnt : node.ntype = x.ntype := by
        have h0 := hty x.name
        rw [hg, hnx] at h0
        simpa using h0
      have hne : ¬(x.name = n ∧ typeStrengthName node = s) := by
        intro hh
        obtain ⟨h1, h2⟩ := hh
        have htsx : typeStrengthName node = typeStrengthName x := by
          unfold typeStrengthName
          rw [hxnt]
        unfold treeInput at hobs
        rw [← h1, hnx] at hobs
        dsimp only at hobs
        rw [← h2, htsx] at hobs
        have hor := ts_orStrength x hboth hobs
        have hoff := hxoff _ _ hor
        rw [hlink] at hoff
        exact absurd hoff (by simp)
      have hcon : ∀ (f : Socket → Socket),
          ntc.updateNode x.name (fun nd => nd.updateInput (typeStrengthName nd) f) =
          ntc.updateNode x.name (fun nd => nd.updateInput (typeStrengthName node) f) := by
        intro f
        show NodeTree.mk _ = NodeTree.mk _
        rw [updateNode_congr_getNode ntc.nodes x.name
          (fun nd => nd.updateInput (typeStrengthName nd) f)
          (fun nd => nd.updateInput (typeStrengthName node) f)
          (fun nd hnd => by
            have hnn : nd = node := (Option.some.inj (hg.symm.trans hnd)).symm
            rw [hnn])]
      cases hst : alookup store (mat ++ ":" ++ x.name ++ ":Strength") with
      | none =>
        dsimp only
        rw [hcon _]
        exact ⟨treeInput_update_other ntc x.name (typeStrengthName node)
            (fun sk => { sk with value := SockVal.scalar 1 })
            (fun sk => rfl) n s sock hI hne,
          fun y => by rw [getNode_ntype_update]; exact hty y⟩
      | some r =>
        cases r with
        | value v =>
          dsimp only
          rw [hcon _]
          exact ⟨treeInput_update_other ntc x.name (typeStrengthName node)
              (fun sk => { sk with value := v })
              (fun sk => rfl) n s sock hI hne,
            fun y => by rw [getNode_ntype_update]; exact hty y⟩
        | link fn fs =>
          dsimp only
          cases hfn : ntc.getNode fn with
          | none => exact ⟨hI, hty⟩
          | some fromNode =>
            dsimp only
            by_cases hout : fromNode.hasOutput fs
            · rw [if_pos hout, hcon _]
              exact ⟨treeInput_update_other ntc x.name (typeStrengthName node)
                  (fun sk => { sk with links := sk.links ++ [(fn, fs)] })
                  (fun sk => rfl) n s sock hI hne,
                fun y => by rw [getNode_ntype_update]; exact hty y⟩
            · rw [if_neg hout]
              exact ⟨hI, hty⟩

theorem toggleFold_off_preserve (mat : String) (nt : NodeTree)
    (hnd : (nt.nodes.map (fun n => n.name)).Nodup)
    (n s : String) (sock : Socket)
    (hobs : treeInput nt n s = some sock)
    (hlink : sock.is_linked = true) :
    ∀ (nodes : List Node) (ntc : NodeTree) (store : List (String × TogRec)),
    (∀ x ∈ nodes, x ∈ nt.nodes ∧
      ¬((x.getInput "Strength").isSome ∧
        (x.getInput "Emission Strength").isSome) ∧
      (∀ sn sx, orStrength x = some (sn, sx) → sx.is_linked = false)) →
    treeInput ntc n s = some sock →
    (∀ y, ((ntc.getNode y).map (fun nd => nd.ntype)) =
      ((nt.getNode y).map (fun nd => nd.ntype))) →
    treeInput ((nodes.foldl (fun st k => toggleStep mat false st k.name)
      (ntc, store)).1) n s = some sock := by
  intro nodes
  induction nodes with
  | nil => intro ntc store _ hI _; exact hI
  | cons x t ih =>
    intro ntc store hall hI hty
    obtain ⟨hx, hb, hoffx⟩ := hall x (List.mem_cons_self x t)
    have hstep := toggleStep_off_preserve mat nt hnd n s sock hobs hlink x hx
      hb hoffx ntc store hI hty
    rw [List.foldl_cons]
    rcases hpair : toggleStep mat false (ntc, store) x.name with ⟨ntc', store'⟩
    rw [hpair] at hstep
    exact ih ntc' store' (fun y hy => hall y (List.mem_cons_of_mem x hy))
      hstep.1 hstep.2

theorem nodesToToggle_mem {nt : NodeTree} {nn : String} {nodes : List Node}
    (h : nodesToToggle nt nn = some nodes) : ∀ x ∈ nodes, x ∈ nt.nodes := by
  unfold nodesToToggle at h
  by_cases ht : (nn.data.any (fun c => !c.isWhitespace)) = true
  · rw [if_pos ht] at h
    cases hg : nt.getNode nn with
    | none => rw [hg] at h; exact absurd h (by simp)
    | some nd =>
      rw [hg] at h
      dsimp only at h
      have h2 := Option.some.inj h
      intro x hx
      rw [← h2, List.mem_singleton] at hx
      rw [hx]
      exact getNode_mem hg
  · rw [if_neg ht] at h
    dsimp only at h
    split at h
    · exact absurd h (by simp)
    · intro x hx
      rw [← Option.some.inj h] at hx
      exact (List.mem_filter.mp hx).1

/-- Claim C5: a stored edge record is only ever replayed onto a socket that
currently has no incoming edge.  First conjunct: the environment-link
replay (`relinkEnv`, used by both `deactivate` and the environment keep
branch) is the identity whenever the destination world socket is still
linked, so a foreign edge is never removed or replaced.  Second conjunct: a
toggle turn-on (`is_on = false`) leaves every currently linked socket of
the material untouched — turn-on can only happen when every toggled
strength socket is unlinked, so its LINK replay never lands on an occupied
socket. -/
theorem C5_theorem :
    (∀ (nt : NodeTree) (name : String) (l : LinkRef) (output : Node)
        (sock : Socket),
        nt.firstOfType NType.OUTPUT_WORLD = some output →
        output.getInput name = some sock →
        sock.is_linked = true →
        relinkEnv nt name l = nt) ∧
    (∀ (gs gs' : GState) (mat node_name : String) (nt : NodeTree)
        (m n s : String) (sock : Socket),
        gs.scene.getMaterial mat = some (true, nt) →
        treeWF nt →
        toggle_emission gs mat node_name = some gs' →
        (match nodesToToggle nt node_name with
         | none => True
         | some nodes => toggleIsOn nodes = false) →
        getNamedInput gs.scene m n s = some sock →
        sock.is_linked = true →
        getNamedInput gs'.scene m n s = some sock) := by
  constructor
  · intro nt name l output sock h1 h2 h3
    unfold relinkEnv
    rw [h1]
    cases hfn : nt.getNode l.1 with
    | none => rfl
    | some fromNode =>
      dsimp only
      by_cases hout : fromNode.hasOutput l.2
      · rw [if_pos hout, h2]
        dsimp only
        rw [if_pos h3]
      · rw [if_neg hout]
  · intro gs gs' mat node_name nt m n s sock hm hwf htog hoff hobs hlink
    unfold toggle_emission at htog
    rw [hm] at htog
    dsimp only at htog
    rw [if_pos rfl] at htog
    cases hnodes : nodesToToggle nt node_name with
    | none => rw [hnodes] at htog; exact absurd htog (by simp)
    | some nodes =>
      rw [hnodes] at htog hoff
      dsimp only at htog
      by_cases hany : (nodes.any (fun k => (typeStrengthSocket k).isNone)) = true
      · rw [if_pos hany] at htog; exact absurd htog (by simp)
      · rw [if_neg hany] at htog
        rw [hoff] at htog
        rw [← Option.some.inj htog]
        dsimp only
        unfold getNamedInput
        rw [Scene.getMaterial_updateMaterialTree]
        by_cases hmm : mat = m
        · rw [if_pos hmm]
          rw [← hmm] at hobs
          rw [hm]
          dsimp only [Option.map_some']
          obtain ⟨hnd, hwf2⟩ := hwf
          have hobs' : treeInput nt n s = some sock := by
            unfold getNamedInput at hobs
            rw [hm] at hobs
            exact hobs
          have hoff' : ∀ x ∈ nodes,
              (∀ sn sx, orStrength x = some (sn, sx) → sx.is_linked = false) := by
            intro x hx sn sx hsx
            have h0 : (nodes.any (fun k =>
                match orStrength k with
                | some (_, sk) => sk.is_linked || sk.value.gtZero
                | none => false)) = false := hoff
            rw [List.any_eq_false] at h0
            have := h0 x hx
            rw [hsx] at this
            dsimp only at this
            exact (Bool.or_eq_false_iff.mp (Bool.eq_false_iff.mpr this)).1
          exact toggleFold_off_preserve mat nt hnd n s sock hobs' hlink nodes
            nt ((alookup gs.emissive_link_backup mat).getD []) (fun x hx =>
              ⟨nodesToToggle_mem hnodes x hx,
               (hwf2 x (nodesToToggle_mem hnodes x hx)).2,
               hoff' x hx⟩)
            hobs' (fun y => rfl)
        · rw [if_neg hmm]
          exact hobs

theorem C5_witness :
    relinkEnv (sceneEnv.world.getD ⟨true, ⟨[]⟩⟩).node_tree "Surface"
        ("Z", "Out") = (sceneEnv.world.getD ⟨true, ⟨[]⟩⟩).node_tree ∧
    getNamedInput ((toggle_emission (freshGState sceneTogOff) "M" "").getD
        (freshGState sceneTogOff)).scene "M" "D" "In" =
      some ⟨"In", SockVal.scalar 0, [("E", "Emission")]⟩ :=
  ⟨C5_theorem.1 (sceneEnv.world.getD ⟨true, ⟨[]⟩⟩).node_tree "Surface"
      ("Z", "Out")
      ⟨"World Output", .OUTPUT_WORLD,
        [⟨"Surface", .scalar 0, [("N", "Shader")]⟩, ⟨"Volume", .scalar 0, []⟩],
        [], false⟩
      ⟨"Surface", .scalar 0, [("N", "Shader")]⟩ rfl rfl rfl,
   C5_theorem.2 (freshGState sceneTogOff)
      ((toggle_emission (freshGState sceneTogOff) "M" "").getD
        (freshGState sceneTogOff))
      "M" "" ((sceneTogOff.getMaterial "M").getD (true, ⟨[]⟩)).2
      "M" "D" "In" ⟨"In", SockVal.scalar 0, [("E", "Emission")]⟩
      rfl (by decide) (by decide) rfl rfl rfl⟩

theorem umt_go_cons (m : String) (f : NodeTree → NodeTree) (nm : String)
    (un : Bool) (nt : NodeTree) (t : List (String × Bool × NodeTree)) :
    Scene.updateMaterialTree.go m f ((nm, un, nt) :: t) =
      if nm = m then (nm, un, f nt) :: t
      else (nm, un, nt) :: Scene.updateMaterialTree.go m f t := rfl

theorem umt_go_comp (m : String) (f g : NodeTree → NodeTree) :
    ∀ (l : List (String × Bool × NodeTree)),
    Scene.updateMaterialTree.go m f (Scene.updateMaterialTree.go m g l) =
      Scene.updateMaterialTree.go m (fun t => f (g t)) l := by
  intro l
  induction l with
  | nil => rfl
  | cons x t ih =>
    obtain ⟨nm, un, nt⟩ := x
    by_cases hn : nm = m
    · rw [umt_go_cons, if_pos hn, umt_go_cons, if_pos hn, umt_go_cons, if_pos hn]
    · rw [umt_go_cons, if_neg hn, umt_go_cons, if_neg hn, umt_go_cons,
        if_neg hn, ih]

theorem updateMaterialTree_comp (sc : Scene) (mat : String)
    (f g : NodeTree → NodeTree) :
    (sc.updateMaterialTree mat g).updateMaterialTree mat f =
      sc.updateMaterialTree mat (fun t => f (g t)) := by
  unfold Scene.updateMaterialTree
  simp only
  rw [umt_go_comp]

theorem umt_go_self (m : String) (f : NodeTree → NodeTree) :
    ∀ (l : List (String × Bool × NodeTree)),
    (∀ un nt, (l.find? (fun x => x.1 == m)).map (fun x => x.2) = some (un, nt) →
      f nt = nt) →
    Scene.updateMaterialTree.go m f l = l := by
  intro l
  induction l with
  | nil => intro _; rfl
  | cons x t ih =>
    intro h
    obtain ⟨nm, un, nt⟩ := x
    by_cases hn : nm = m
    · rw [umt_go_cons, if_pos hn]
      have := h un nt (by rw [List.find?_cons_of_pos _ (by simp [hn])]; rfl)
      rw [this]
    · rw [umt_go_cons, if_neg hn]
      rw [ih (fun u n hh => h u n (by
        rw [List.find?_cons_of_neg _ (by simp [hn])]
        exact hh))]

theorem updateMaterialTree_eq_self (sc : Scene) (mat : String)
    (f : NodeTree → NodeTree)
    (h : ∀ un nt, sc.getMaterial mat = some (un, nt) → f nt = nt) :
    sc.updateMaterialTree mat f = sc := by
  unfold Scene.updateMaterialTree
  have hgo := umt_go_self mat f sc.materials h
  cases sc
  simpa using hgo

theorem toggle_single_eq (gs : GState) (mat nname : String) (nt : NodeTree)
    (node : Node) (sock : Socket)
    (hm : gs.scene.getMaterial mat = some (true, nt))
    (hnn : (nname.data.any (fun c => !c.isWhitespace)) = true)
    (hnode : nt.getNode nname = some node)
    (hts : typeStrengthSocket node = some sock) :
    toggle_emission gs mat nname =
      some { gs with
        scene := gs.scene.updateMaterialTree mat (fun _ =>
          (toggleStep mat (toggleIsOn [node])
            (nt, (alookup gs.emissive_link_backup mat).getD []) nname).1),
        emissive_link_backup :=
          if (toggleStep mat (toggleIsOn [node])
              (nt, (alookup gs.emissive_link_backup mat).getD []) nname).2.isEmpty
          then adelete gs.emissive_link_backup mat
          else upsert gs.emissive_link_backup mat
            (toggleStep mat (toggleIsOn [node])
              (nt, (alookup gs.emissive_link_backup mat).getD []) nname).2 } := by
  unfold toggle_emission
  rw [hm]
  dsimp only
  rw [if_pos rfl,
    show nodesToToggle nt nname = some [node] from by
      unfold nodesToToggle
      rw [if_pos hnn, hnode]]
  dsimp only
  rw [if_neg (by simp [hts])]
  dsimp only [List.foldl_cons, List.foldl_nil]
  rw [getNode_name hnode]

theorem tsname_update (node : Node) (x : String) (g : Socket → Socket) :
    typeStrengthName (node.updateInput x g) = typeStrengthName node := by
  unfold typeStrengthName
  rw [Node.updateInput_ntype]

theorem tssocket_update (node : Node) (g : Socket → Socket)
    (hgname : ∀ s, (g s).name = s.name) (sock : Socket)
    (hts : typeStrengthSocket node = some sock) :
    typeStrengthSocket (node.updateInput (typeStrengthName node) g) =
      some (g sock) := by
  unfold typeStrengthSocket at *
  rw [tsname_update, Node.getInput_updateInput node _ _ g hgname, if_pos rfl,
    hts]
  rfl

theorem getNode_update_self (nt : NodeTree) (nname : String) (node : Node)
    (g : Node → Node) (hnode : nt.getNode nname = some node)
    (hgname : ∀ n, (g n).name = n.name) :
    (nt.updateNode nname g).getNode nname = some (g node) := by
  rw [NodeTree.getNode_updateNode nt nname nname g hgname, if_pos rfl, hnode]
  rfl

theorem updateNode_ts_congr (nt : NodeTree) (nname : String) (node : Node)
    (hnode : nt.getNode nname = some node) (f : Socket → Socket) :
    nt.updateNode nname (fun nd => nd.updateInput (typeStrengthName nd) f) =
      nt.updateNode nname (fun nd => nd.updateInput (typeStrengthName node) f) := by
  show NodeTree.mk _ = NodeTree.mk _
  rw [updateNode_congr_getNode nt.nodes nname
    (fun nd => nd.updateInput (typeStrengthName nd) f)
    (fun nd => nd.updateInput (typeStrengthName node) f)
    (fun nd hnd => by
      have hnn : nd = node := (Option.some.inj (hnode.symm.trans hnd)).symm
      rw [hnn])]

theorem getInput_isSome_update (node : Node) (x sx : String) (g : Socket → Socket)
    (hgname : ∀ s, (g s).name = s.name) :
    ((node.updateInput x g).getInput sx).isSome = (node.getInput sx).isSome := by
  rw [Node.getInput_updateInput node x sx g hgname]
  by_cases h : x = sx
  · rw [if_pos h]
    subst h
    cases node.getInput x <;> rfl
  · rw [if_neg h]

theorem toggleStep_eval (mat : String) (is_on : Bool) (nt : NodeTree)
    (store : List (String × TogRec)) (nname : String) (node : Node)
    (sock : Socket)
    (hnode : nt.getNode nname = some node)
    (hts : typeStrengthSocket node = some sock) :
    toggleStep mat is_on (nt, store) nname =
      (if is_on then
        match sock.links with
        | l :: _ =>
          (nt.updateNode nname (fun nd => nd.updateInput (typeStrengthName node)
            (fun s => { s with links := s.links.tail })),
           upsert store (mat ++ ":" ++ nname ++ ":Strength") (.link l.1 l.2))
        | [] =>
          (nt.updateNode nname (fun nd => nd.updateInput (typeStrengthName node)
            (fun s => { s with value := SockVal.scalar 0 })),
           upsert store (mat ++ ":" ++ nname ++ ":Strength") (.value sock.value))
       else
        match alookup store (mat ++ ":" ++ nname ++ ":Strength") with
        | some r =>
          (match r with
           | .link fn fs =>
             match nt.getNode fn with
             | none => nt
             | some fromNode =>
               if fromNode.hasOutput fs then
                 nt.updateNode nname (fun nd =>
                   nd.updateInput (typeStrengthName node)
                     (fun s => { s with links := s.links ++ [(fn, fs)] }))
               else nt
           | .value v =>
             nt.updateNode nname (fun nd => nd.updateInput (typeStrengthName node)
               (fun s => { s with value := v })),
           adelete store (mat ++ ":" ++ nname ++ ":Strength"))
        | none =>
          (nt.updateNode nname (fun nd => nd.updateInput (typeStrengthName node)
            (fun s => { s with value := SockVal.scalar 1 })), store)) := by
  unfold toggleStep
  dsimp only
  rw [hnode]
  dsimp only
  rw [hts]
  dsimp only
  simp only [updateNode_ts_congr nt nname node hnode]

theorem hasOutput_update (n : Node) (x : String) (f : Socket → Socket)
    (o : String) : (n.updateInput x f).hasOutput o = n.hasOutput o := by
  unfold Node.hasOutput
  rw [Node.updateInput_outputs]

theorem adelete_single_self {α β : Type} [DecidableEq α] (k : α) (v : β) :
    adelete [(k, v)] k = [] := by
  simp [adelete]

/-- Claim C6, corrected: the double toggle is an identity only on
single-node entities whose strength socket is in a pure state — unlinked
with a positive value, or linked (necessarily through its single incoming
edge) with a non-positive value — and with no pre-existing backup entry for
the material.  In that case toggling twice restores the scene exactly and
drops the material's backup entry.  (A linked socket whose stored value is
also positive breaks the round trip: the second toggle re-suppresses
instead of replaying the link — see the counterexample.) -/
theorem C6_amended (gs : GState) (mat nname : String) (nt : NodeTree)
    (node : Node) (sock : Socket)
    (hwf : treeWF nt)
    (hm : gs.scene.getMaterial mat = some (true, nt))
    (hnn : (nname.data.any (fun c => !c.isWhitespace)) = true)
    (hnode : nt.getNode nname = some node)
    (hts : typeStrengthSocket node = some sock)
    (hnb : alookup gs.emissive_link_backup mat = none)
    (hcase : (sock.links = [] ∧ sock.value.gtZero = true) ∨
      (∃ l, sock.links = [l] ∧ sock.value.gtZero = false)) :
    ∃ gs1 gs2, toggle_emission gs mat nname = some gs1 ∧
      toggle_emission gs1 mat nname = some gs2 ∧
      gs2.scene = gs.scene ∧
      alookup gs2.emissive_link_backup mat = none := by
  have hboth := (hwf.2 node (getNode_mem hnode)).2
  have hor : orStrength node = some (typeStrengthName node, sock) :=
    ts_orStrength node hboth hts
  have hmatkey : ∀ un nt0, gs.scene.getMaterial mat = some (un, nt0) → nt0 = nt := by
    intro un nt0 h0
    have := h0.symm.trans hm
    exact (Prod.mk.injEq _ _ _ _ ▸ Option.some.inj this).2
  rcases hcase with ⟨hl0, hgz⟩ | ⟨l, hl1, hgz⟩
  · -- unlinked, positive value: VALUE path
    have hison : toggleIsOn [node] = true := by
      simp [toggleIsOn, hor, hgz]
    have hstep1 : toggleStep mat true (nt, []) nname =
        (nt.updateNode nname (fun nd => nd.updateInput (typeStrengthName node)
           (fun s => { s with value := SockVal.scalar 0 })),
         [(mat ++ ":" ++ nname ++ ":Strength", TogRec.value sock.value)]) := by
      rw [toggleStep_eval mat true nt [] nname node sock hnode hts,
        if_pos rfl, hl0]
      rfl
    have h1 := toggle_single_eq gs mat nname nt node sock hm hnn hnode hts
    rw [hnb] at h1
    dsimp only [Option.getD] at h1
    rw [hison, hstep1] at h1
    dsimp only at h1
    rw [if_neg (by simp)] at h1
    -- facts about the intermediate tree and node
    have hnode1 := getNode_update_self nt nname node
      (fun nd => nd.updateInput (typeStrengthName node)
        (fun s => { s with value := SockVal.scalar 0 }))
      hnode (fun n => Node.updateInput_name n _ _)
    have hts1 := tssocket_update node
      (fun s => { s with value := SockVal.scalar 0 }) (fun s => rfl) sock hts
    have hboth1 : ¬(((node.updateInput (typeStrengthName node)
          (fun s => { s with value := SockVal.scalar 0 })).getInput
            "Strength").isSome ∧
        ((node.updateInput (typeStrengthName node)
          (fun s => { s with value := SockVal.scalar 0 })).getInput
            "Emission Strength").isSome) := by
      rw [getInput_isSome_update node _ "Strength"
          (fun s => { s with value := SockVal.scalar 0 }) (fun s => rfl),
        getInput_isSome_update node _ "Emission Strength"
          (fun s => { s with value := SockVal.scalar 0 }) (fun s => rfl)]
      exact hboth
    have hor1 := ts_orStrength _ hboth1 hts1
    have hison1 : toggleIsOn [node.updateInput (typeStrengthName node)
        (fun s => { s with value := SockVal.scalar 0 })] = false := by
      simp [toggleIsOn, hor1, Socket.is_linked, hl0, SockVal.gtZero]
    have hm1 : (gs.scene.updateMaterialTree mat (fun _ =>
        nt.updateNode nname (fun nd => nd.updateInput (typeStrengthName node)
          (fun s => { s with value := SockVal.scalar 0 })))).getMaterial mat =
        some (true, nt.updateNode nname (fun nd =>
          nd.updateInput (typeStrengthName node)
            (fun s => { s with value := SockVal.scalar 0 }))) := by
      rw [Scene.getMaterial_updateMaterialTree, if_pos rfl, hm]
      rfl
    have h2 := toggle_single_eq
      { gs with
        scene := gs.scene.updateMaterialTree mat (fun _ =>
          nt.updateNode nname (fun nd =>
            nd.updateInput (typeStrengthName node)
              (fun s => { s with value := SockVal.scalar 0 }))),
        emissive_link_backup := upsert gs.emissive_link_backup mat
          [(mat ++ ":" ++ nname ++ ":Strength", TogRec.value sock.value)] }
      mat nname _ _ _ hm1 hnn hnode1 hts1
    dsimp only at h2
    rw [hison1] at h2
    rw [show alookup (upsert gs.emissive_link_backup mat
        [(mat ++ ":" ++ nname ++ ":Strength", TogRec.value sock.value)]) mat =
        some [(mat ++ ":" ++ nname ++ ":Strength", TogRec.value sock.value)]
      from alookup_upsert_self _ _ _] at h2
    dsimp only [Option.getD] at h2
    rw [toggleStep_eval mat false _ _ nname _ _ hnode1 hts1,
      if_neg (by simp), alookup_cons, if_pos rfl] at h2
    dsimp only at h2
    rw [adelete_single_self] at h2
    dsimp only [List.isEmpty_nil] at h2
    rw [if_pos rfl] at h2
    refine ⟨_, _, h1, h2, ?_, ?_⟩
    · dsimp only
      rw [updateMaterialTree_comp]
      apply updateMaterialTree_eq_self
      intro un nt0 h0
      have hnt0 := hmatkey un nt0 h0
      rw [hnt0]
      rw [tsname_update,
        NodeTree.updateNode_updateNode nt nname _ _
          (fun n => Node.updateInput_name n _ _),
        show (fun n : Node => (n.updateInput (typeStrengthName node)
            (fun s => { s with value := SockVal.scalar 0 })).updateInput
              (typeStrengthName node) (fun s => { s with value := sock.value }))
          = (fun n : Node => n.updateInput (typeStrengthName node)
              (fun s => { s with value := sock.value })) from
          funext (fun n => Node.updateInput_updateInput n _ _ _ (fun s => rfl))]
      apply NodeTree.updateNode_eq_self
      intro n hn
      have hnn2 : n = node := Option.some.inj (hnode.symm.trans hn).symm
      rw [hnn2]
      apply Node.updateInput_eq_self
      intro s hs
      have hss : s = sock := Option.some.inj (hts.symm.trans hs).symm
      rw [hss]
    · dsimp only
      exact alookup_adelete_self _ _
  · -- linked, non-positive value: LINK path
    have hmem : sock ∈ node.inputs := getInput_mem hts
    obtain ⟨srcN, hsrc, hout⟩ := ((hwf.2 node (getNode_mem hnode)).1 sock hmem).2
      l (by rw [hl1]; exact List.mem_singleton.mpr rfl)
    have hison : toggleIsOn [node] = true := by
      simp [toggleIsOn, hor, Socket.is_linked, hl1]
    have hstep1 : toggleStep mat true (nt, []) nname =
        (nt.updateNode nname (fun nd => nd.updateInput (typeStrengthName node)
           (fun s => { s with links := s.links.tail })),
         [(mat ++ ":" ++ nname ++ ":Strength", TogRec.link l.1 l.2)]) := by
      rw [toggleStep_eval mat true nt [] nname node sock hnode hts,
        if_pos rfl, hl1]
      rfl
    have h1 := toggle_single_eq gs mat nname nt node sock hm hnn hnode hts
    rw [hnb] at h1
    dsimp only [Option.getD] at h1
    rw [hison, hstep1] at h1
    dsimp only at h1
    rw [if_neg (by simp)] at h1
    have hnode1 := getNode_update_self nt nname node
      (fun nd => nd.updateInput (typeStrengthName node)
        (fun s => { s with links := s.links.tail }))
      hnode (fun n => Node.updateInput_name n _ _)
    have hts1 := tssocket_update node
      (fun s => { s with links := s.links.tail }) (fun s => rfl) sock hts
    have hboth1 : ¬(((node.updateInput (typeStrengthName node)
          (fun s => { s with links := s.links.tail })).getInput
            "Strength").isSome ∧
        ((node.updateInput (typeStrengthName node)
          (fun s => { s with links := s.links.tail })).getInput
            "Emission Strength").isSome) := by
      rw [getInput_isSome_update node _ "Strength"
          (fun s => { s with links := s.links.tail }) (fun s => rfl),
        getInput_isSome_update node _ "Emission Strength"
          (fun s => { s with links := s.links.tail }) (fun s => rfl)]
      exact hboth
    have hor1 := ts_orStrength _ hboth1 hts1
    have hison1 : toggleIsOn [node.updateInput (typeStrengthName node)
        (fun s => { s with links := s.links.tail })] = false := by
      simp [toggleIsOn, hor1, Socket.is_linked, hl1, hgz]
    have hm1 : (gs.scene.updateMaterialTree mat (fun _ =>
        nt.updateNode nname (fun nd => nd.updateInput (typeStrengthName node)
          (fun s => { s with links := s.links.tail })))).getMaterial mat =
        some (true, nt.updateNode nname (fun nd =>
          nd.updateInput (typeStrengthName node)
            (fun s => { s with links := s.links.tail }))) := by
      rw [Scene.getMaterial_updateMaterialTree, if_pos rfl, hm]
      rfl
    have hsrc1 : ∃ q, (nt.updateNode nname (fun nd =>
        nd.updateInput (typeStrengthName node)
          (fun s => { s with links := s.links.tail }))).getNode l.1 = some q ∧
        q.hasOutput l.2 = true := by
      by_cases hql : nname = l.1
      · refine ⟨node.updateInput (typeStrengthName node)
          (fun s => { s with links := s.links.tail }), ?_, ?_⟩
        · rw [← hql]
          exact hnode1
        · rw [hasOutput_update]
          rw [← hql] at hsrc
          rw [Option.some.inj (hnode.symm.trans hsrc)]
          exact hout
      · refine ⟨srcN, ?_, hout⟩
        rw [NodeTree.getNode_updateNode _ _ _ _
          (fun n => Node.updateInput_name n _ _), if_neg hql]
        exact hsrc
    obtain ⟨q, hq, hqo⟩ := hsrc1
    have h2 := toggle_single_eq
      { gs with
        scene := gs.scene.updateMaterialTree mat (fun _ =>
          nt.updateNode nname (fun nd =>
            nd.updateInput (typeStrengthName node)
              (fun s => { s with links := s.links.tail }))),
        emissive_link_backup := upsert gs.emissive_link_backup mat
          [(mat ++ ":" ++ nname ++ ":Strength", TogRec.link l.1 l.2)] }
      mat nname _ _ _ hm1 hnn hnode1 hts1
    dsimp only at h2
    rw [hison1] at h2
    rw [show alookup (upsert gs.emissive_link_backup mat
        [(mat ++ ":" ++ nname ++ ":Strength", TogRec.link l.1 l.2)]) mat =
        some [(mat ++ ":" ++ nname ++ ":Strength", TogRec.link l.1 l.2)]
      from alookup_upsert_self _ _ _] at h2
    dsimp only [Option.getD] at h2
    rw [toggleStep_eval mat false _ _ nname _ _ hnode1 hts1,
      if_neg (by simp), alookup_cons, if_pos rfl] at h2
    dsimp only at h2
    rw [hq] at h2
    dsimp only at h2
    rw [if_pos hqo, adelete_single_self] at h2
    dsimp only [List.isEmpty_nil] at h2
    rw [if_pos rfl] at h2
    refine ⟨_, _, h1, h2, ?_, ?_⟩
    · dsimp only
      rw [updateMaterialTree_comp]
      apply updateMaterialTree_eq_self
      intro un nt0 h0
      have hnt0 := hmatkey un nt0 h0
      rw [hnt0]
      rw [tsname_update,
        NodeTree.updateNode_updateNode nt nname _ _
          (fun n => Node.updateInput_name n _ _),
        show (fun n : Node => (n.updateInput (typeStrengthName node)
            (fun s => { s with links := s.links.tail })).updateInput
              (typeStrengthName node)
              (fun s => { s with links := s.links ++ [(l.1, l.2)] }))
          = (fun n : Node => n.updateInput (typeStrengthName node)
              (fun s => { s with links := s.links.tail ++ [(l.1, l.2)] })) from
          funext (fun n => Node.updateInput_updateInput n _ _ _ (fun s => rfl))]
      apply NodeTree.updateNode_eq_self
      intro n hn
      have hnn2 : n = node := Option.some.inj (hnode.symm.trans hn).symm
      rw [hnn2]
      apply Node.updateInput_eq_self
      intro s hs
      have hss : s = sock := Option.some.inj (hts.symm.trans hs).symm
      rw [hss, hl1]
      show ({ name := sock.name, value := sock.value, links := [l] } : Socket)
        = sock
      rw [← hl1]
    · dsimp only
      exact alookup_adelete_self _ _

/-- Claim C6, counterexample: in `sceneTogLinked` the Emission node's
Strength socket is linked while its stored scalar is 1 (also positive), so
the second toggle still sees the entity as on and suppresses again instead
of replaying: after two toggles the link is gone, the value is 0, and the
material's backup entry is still present. -/
theorem C6_counterexample :
    getTypeStrengthLinks sceneTogLinked "M" "E" = some [("V", "Value")] ∧
    getTypeStrengthValue sceneTogLinked "M" "E" = some (SockVal.scalar 1) ∧
    ((toggle_emission (freshGState sceneTogLinked) "M" "").bind
        (fun g1 => toggle_emission g1 "M" "")).map
      (fun g2 => getTypeStrengthLinks g2.scene "M" "E") = some (some []) ∧
    ((toggle_emission (freshGState sceneTogLinked) "M" "").bind
        (fun g1 => toggle_emission g1 "M" "")).map
      (fun g2 => getTypeStrengthValue g2.scene "M" "E") =
        some (some (SockVal.scalar 0)) ∧
    ((toggle_emission (freshGState sceneTogLinked) "M" "").bind
        (fun g1 => toggle_emission g1 "M" "")).map
      (fun g2 => (alookup g2.emissive_link_backup "M").isSome) = some true :=
  ⟨rfl, rfl, rfl, rfl, rfl⟩

theorem C6_witness :
    ∃ gs1 gs2,
      toggle_emission (freshGState sceneTogGood) "M" "E" = some gs1 ∧
      toggle_emission gs1 "M" "E" = some gs2 ∧
      gs2.scene = (freshGState sceneTogGood).scene ∧
      alookup gs2.emissive_link_backup "M" = none :=
  C6_amended (freshGState sceneTogGood) "M" "E"
    ((sceneTogGood.getMaterial "M").getD (true, ⟨[]⟩)).2
    ⟨"E", .EMISSION,
      [⟨"Strength", .scalar 5, []⟩, ⟨"Color", .color 1 1 1 1, []⟩],
      ["Emission"], false⟩
    ⟨"Strength", SockVal.scalar 5, []⟩
    (by decide) rfl (by decide) rfl rfl rfl
    (Or.inl ⟨rfl, by decide⟩)

/-- Claim C2, corrected: re-activating with a different target does not run
the deactivate side-effects for the old target — `activate` simply clears
the store and snapshots the current (still suppressed) state.  What does
hold: afterwards the old target reads inactive (provided the old query does
not degenerate to a mode-only check that the new target also satisfies),
the new target reads active, and the isolate-manager state equals the
snapshot taken from the intermediate scene and cache alone — no record
created by the first activation survives. -/
theorem C2_amended (gs : GState) (mA mB : Mode) (iA iB : Option PyIdent)
    (hAB : ¬(mA = mB ∧ iA = iB)) (hA : mA ≠ mB ∨ iA ≠ none) :
    (activate (activate gs mA iA) mB iB).iso.is_active (some mB) iB = true ∧
    (activate (activate gs mA iA) mB iB).iso.is_active (some mA) iA = false ∧
    (activate (activate gs mA iA) mB iB).iso =
      activeSnapshotOf (activate gs mA iA).scene (activate gs mA iA).cache
        mB iB := by
  have ha : (activate (activate gs mA iA) mB iB).iso.active_mode = some mB := rfl
  have hb : (activate (activate gs mA iA) mB iB).iso.active_identifier = iB := rfl
  refine ⟨?_, ?_, rfl⟩
  · unfold IsoMgr.is_active
    cases iB with
    | none => simp [ha]
    | some i => simp [ha, hb]
  · unfold IsoMgr.is_active
    cases iA with
    | none =>
      have hmode : mA ≠ mB := by
        rcases hA with h | h
        · exact h
        · exact absurd rfl h
      simp only [ha, decide_eq_false_iff_not]
      intro h
      exact hmode (Option.some.inj h).symm
    | some i =>
      simp only [ha, hb, decide_eq_false_iff_not]
      intro hcon
      rcases hcon with ⟨h1, h2⟩
      exact hAB ⟨(Option.some.inj h1).symm, h2.symm⟩

/-- Claim C2, counterexample: two visible lights, isolate L1 then isolate
L2 without deactivating.  The claimed composition (deactivate A's effects,
then activate B) leaves L2 visible, but the real double activation
snapshots the suppressed state and keeps L2 hidden. -/
theorem C2_counterexample :
    ((activate (activate (freshGState sceneLights) Mode.LIGHT_GROUP
        (some identKeepL1)) Mode.LIGHT_GROUP (some identKeepL2)).scene.getObj
      "L2").map (fun o => o.hide_viewport) = some true ∧
    ((activate (deactivate (activate (freshGState sceneLights)
        Mode.LIGHT_GROUP (some identKeepL1))) Mode.LIGHT_GROUP
        (some identKeepL2)).scene.getObj
      "L2").map (fun o => o.hide_viewport) = some false :=
  ⟨rfl, rfl⟩

theorem C2_witness :
    (activate (activate (freshGState sceneLights) Mode.LIGHT_GROUP
        (some identKeepL1)) Mode.LIGHT_GROUP (some identKeepL2)).iso.is_active
      (some Mode.LIGHT_GROUP) (some identKeepL2) = true ∧
    (activate (activate (freshGState sceneLights) Mode.LIGHT_GROUP
        (some identKeepL1)) Mode.LIGHT_GROUP (some identKeepL2)).iso.is_active
      (some Mode.LIGHT_GROUP) (some identKeepL1) = false ∧
    (activate (activate (freshGState sceneLights) Mode.LIGHT_GROUP
        (some identKeepL1)) Mode.LIGHT_GROUP (some identKeepL2)).iso =
      activeSnapshotOf
        (activate (freshGState sceneLights) Mode.LIGHT_GROUP
          (some identKeepL1)).scene
        (activate (freshGState sceneLights) Mode.LIGHT_GROUP
          (some identKeepL1)).cache
        Mode.LIGHT_GROUP (some identKeepL2) :=
  C2_amended (freshGState sceneLights) Mode.LIGHT_GROUP Mode.LIGHT_GROUP
    (some identKeepL1) (some identKeepL2) (by decide) (Or.inr (by decide))

theorem alookup_mem {α β : Type} [DecidableEq α] {l : List (α × β)} {k : α}
    {v : β} (h : alookup l k = some v) : (k, v) ∈ l := by
  unfold alookup at h
  cases hf : l.find? (fun x => x.1 = k) with
  | none => rw [hf] at h; exact absurd h (by simp)
  | some t =>
    rw [hf] at h
    have h2 := Option.some.inj h
    have h1 := List.find?_some hf
    simp only [decide_eq_true_eq] at h1
    have h3 := List.mem_of_find?_eq_some hf
    obtain ⟨a, b⟩ := t
    simp only at h1 h2
    rw [← h1, ← h2]
    exact h3

theorem upsert_append {α β : Type} [DecidableEq α] :
    ∀ (l : List (α × β)) (k : α) (v : β), alookup l k = none →
    upsert l k v = l ++ [(k, v)] := by
  intro l
  induction l with
  | nil => intro k v _; rfl
  | cons x t ih =>
    intro k v h
    obtain ⟨k', v'⟩ := x
    rw [alookup_cons] at h
    by_cases hk : k' = k
    · rw [if_pos hk] at h; exact absurd h (by simp)
    · rw [if_neg hk] at h
      show (if k' = k then _ else _) = _
      rw [if_neg hk, List.cons_append, ih k v h]

theorem alookup_append_left_none {α β : Type} [DecidableEq α] :
    ∀ (l₁ l₂ : List (α × β)) (k : α), alookup l₁ k = none →
    alookup (l₁ ++ l₂) k = alookup l₂ k := by
  intro l₁
  induction l₁ with
  | nil => intro l₂ k _; rfl
  | cons x t ih =>
    intro l₂ k h
    obtain ⟨k', v'⟩ := x
    rw [alookup_cons] at h
    by_cases hk : k' = k
    · rw [if_pos hk] at h; exact absurd h (by simp)
    · rw [if_neg hk] at h
      rw [List.cons_append, alookup_cons, if_neg hk, ih l₂ k h]

theorem mem_upsert {α β : Type} [DecidableEq α] :
    ∀ (l : List (α × β)) (k : α) (v : β) (r : α × β),
    r ∈ upsert l k v → r ∈ l ∨ r = (k, v) := by
  intro l
  induction l with
  | nil =>
    intro k v r h
    right
    simpa [upsert] using h
  | cons x t ih =>
    intro k v r h
    obtain ⟨k', v'⟩ := x
    unfold upsert at h
    by_cases hk : k' = k
    · rw [if_pos hk] at h
      rcases List.mem_cons.mp h with h1 | h1
      · right; exact h1
      · left; exact List.mem_cons_of_mem _ h1
    · rw [if_neg hk] at h
      rcases List.mem_cons.mp h with h1 | h1
      · left; rw [h1]; exact List.mem_cons_self _ _
      · rcases ih k v r h1 with h2 | h2
        · left; exact List.mem_cons_of_mem _ h2
        · right; exact h2

theorem keys_nodup_upsert {α β : Type} [DecidableEq α] :
    ∀ (l : List (α × β)) (k : α) (v : β),
    (l.map (fun r => r.1)).Nodup → ((upsert l k v).map (fun r => r.1)).Nodup := by
  intro l
  induction l with
  | nil => intro k v _; simp [upsert]
  | cons x t ih =>
    intro k v h
    obtain ⟨k', v'⟩ := x
    rw [List.map_cons, List.nodup_cons] at h
    obtain ⟨h1, h2⟩ := h
    unfold upsert
    by_cases hk : k' = k
    · rw [if_pos hk, List.map_cons, List.nodup_cons]
      exact ⟨by rw [← hk]; exact h1, h2⟩
    · rw [if_neg hk, List.map_cons, List.nodup_cons]
      constructor
      · intro hmem
        rcases List.mem_map.mp hmem with ⟨r, hr, hrk⟩
        rcases mem_upsert t k v r hr with h3 | h3
        · exact h1 (hrk ▸ List.mem_map_of_mem _ h3)
        · rw [h3] at hrk
          exact hk hrk.symm
      · exact ih k v h2

theorem snapLights_mem :
    ∀ (objs : List Obj) (bk : List (BKey × BVal)) (r : BKey × BVal),
    r ∈ snapLights objs bk → r ∈ bk ∨
      ∃ o, o ∈ objs ∧ r = (.str o.name, .lightTup o.hide_viewport o.hide_render) := by
  intro objs
  induction objs with
  | nil => intro bk r h; left; exact h
  | cons o t ih =>
    intro bk r h
    rw [show snapLights (o :: t) bk = snapLights t
      (if o.otype = .LIGHT then
        upsert bk (.str o.name) (.lightTup o.hide_viewport o.hide_render)
      else bk) from rfl] at h
    rcases ih _ r h with h1 | ⟨o', ho', hr⟩
    · by_cases hl : o.otype = .LIGHT
      · rw [if_pos hl] at h1
        rcases mem_upsert _ _ _ _ h1 with h2 | h2
        · left; exact h2
        · right; exact ⟨o, List.mem_cons_self o t, h2⟩
      · rw [if_neg hl] at h1
        left; exact h1
    · right; exact ⟨o', List.mem_cons_of_mem o ho', hr⟩

theorem snapLights_alookup_ne :
    ∀ (objs : List Obj) (bk : List (BKey × BVal)) (K : BKey),
    (∀ o ∈ objs, BKey.str o.name ≠ K) →
    alookup (snapLights objs bk) K = alookup bk K := by
  intro objs
  induction objs with
  | nil => intro bk K _; rfl
  | cons o t ih =>
    intro bk K h
    rw [show snapLights (o :: t) bk = snapLights t
      (if o.otype = .LIGHT then
        upsert bk (.str o.name) (.lightTup o.hide_viewport o.hide_render)
      else bk) from rfl,
      ih _ K (fun x hx => h x (List.mem_cons_of_mem o hx))]
    by_cases hl : o.otype = .LIGHT
    · rw [if_pos hl]
      exact alookup_upsert_ne _ _ _ _ (Ne.symm (h o (List.mem_cons_self o t)))
    · rw [if_neg hl]

theorem snapLights_alookup :
    ∀ (objs : List Obj) (bk : List (BKey × BVal)) (o : Obj),
    (objs.map (fun x => x.name)).Nodup → o ∈ objs → o.otype = .LIGHT →
    alookup (snapLights objs bk) (.str o.name) =
      some (.lightTup o.hide_viewport o.hide_render) := by
  intro objs
  induction objs with
  | nil => intro bk o _ h; exact absurd h (List.not_mem_nil o)
  | cons x t ih =>
    intro bk o hnd hmem hl
    rw [List.map_cons, List.nodup_cons] at hnd
    obtain ⟨h1, h2⟩ := hnd
    rw [show snapLights (x :: t) bk = snapLights t
      (if x.otype = .LIGHT then
        upsert bk (.str x.name) (.lightTup x.hide_viewport x.hide_render)
      else bk) from rfl]
    rcases List.mem_cons.mp hmem with rfl | hmt
    · rw [if_pos hl]
      rw [snapLights_alookup_ne t _ (.str o.name) (fun y hy hh => by
        have : y.name = o.name := by
          have := congrArg (fun k => match k with
            | BKey.str s => s
            | BKey.pair a _ => a) hh
          simpa using this
        exact h1 (this ▸ List.mem_map_of_mem _ hy))]
      exact alookup_upsert_self _ _ _
    · exact ih _ o h2 hmt hl

theorem snapEmissives_mem :
    ∀ (trips : List Triple) (s : Scene) (bk : List (BKey × BVal))
      (r : BKey × BVal),
    r ∈ snapEmissives s trips bk → r ∈ bk ∨
      ∃ m n v, r = (.pair m n, .sockVal v) := by
  intro trips
  induction trips with
  | nil => intro s bk r h; left; exact h
  | cons t rest ih =>
    intro s bk r h
    rw [show snapEmissives s (t :: rest) bk = snapEmissives s rest
      (match s.getMaterial t.2.1 with
       | none => bk
       | some (_, nt) =>
         match nt.getNode t.2.2 with
         | none => bk
         | some node =>
           match typeStrengthSocket node with
           | none => bk
           | some sock => upsert bk (.pair t.2.1 t.2.2) (.sockVal sock.value))
      from rfl] at h
    rcases ih s _ r h with h1 | h1
    · cases hgm : s.getMaterial t.2.1 with
      | none => rw [hgm] at h1; left; exact h1
      | some p =>
        obtain ⟨un, nt⟩ := p
        rw [hgm] at h1
        dsimp only at h1
        cases hgn : nt.getNode t.2.2 with
        | none => rw [hgn] at h1; left; exact h1
        | some node =>
          rw [hgn] at h1
          dsimp only at h1
          cases hts : typeStrengthSocket node with
          | none => rw [hts] at h1; left; exact h1
          | some sock =>
            rw [hts] at h1
            dsimp only at h1
            rcases mem_upsert _ _ _ _ h1 with h2 | h2
            · left; exact h2
            · right; exact ⟨t.2.1, t.2.2, sock.value, h2⟩
    · right; exact h1

theorem snapEmissives_alookup_str :
    ∀ (trips : List Triple) (s : Scene) (bk : List (BKey × BVal)) (k : String),
    alookup (snapEmissives s trips bk) (.str k) = alookup bk (.str k) := by
  intro trips
  induction trips with
  | nil => intro s bk k; rfl
  | cons t rest ih =>
    intro s bk k
    rw [show snapEmissives s (t :: rest) bk = snapEmissives s rest
      (match s.getMaterial t.2.1 with
       | none => bk
       | some (_, nt) =>
         match nt.getNode t.2.2 with
         | none => bk
         | some node =>
           match typeStrengthSocket node with
           | none => bk
           | some sock => upsert bk (.pair t.2.1 t.2.2) (.sockVal sock.value))
      from rfl, ih]
    cases hgm : s.getMaterial t.2.1 with
    | none => rfl
    | some p =>
      obtain ⟨un, nt⟩ := p
      dsimp only
      cases hgn : nt.getNode t.2.2 with
      | none => rfl
      | some node =>
        dsimp only
        cases hts : typeStrengthSocket node with
        | none => rfl
        | some sock =>
          exact alookup_upsert_ne _ _ _ _ (by simp)

theorem snapEmissives_alookup_found (s : Scene) (m n : String) (v : SockVal)
    (hv : getTypeStrengthValue s m n = some v) :
    ∀ (trips : List Triple) (bk : List (BKey × BVal)),
    ((∃ t ∈ trips, t.2.1 = m ∧ t.2.2 = n) ∨
      alookup bk (.pair m n) = some (.sockVal v)) →
    alookup (snapEmissives s trips bk) (.pair m n) = some (.sockVal v) := by
  have hread : ∃ (un : Bool) (nt : NodeTree) (node : Node) (sock : Socket),
      s.getMaterial m = some (un, nt) ∧
      nt.getNode n = some node ∧ typeStrengthSocket node = some sock ∧
      sock.value = v := by
    unfold getTypeStrengthValue at hv
    cases hgm : s.getMaterial m with
    | none => rw [hgm] at hv; exact absurd hv (by simp)
    | some p =>
      rw [hgm] at hv
      obtain ⟨un, nt⟩ := p
      dsimp only at hv
      cases hgn : nt.getNode n with
      | none => rw [hgn] at hv; exact absurd hv (by simp)
      | some node =>
        rw [hgn] at hv
        dsimp only at hv
        cases hts : typeStrengthSocket node with
        | none => rw [hts] at hv; exact absurd hv (by simp)
        | some sock =>
          rw [hts] at hv
          exact ⟨un, nt, node, sock, rfl, hgn, hts, Option.some.inj hv⟩
  obtain ⟨un0, nt0, node0, sock0, hgm0, hgn0, hts0, hval0⟩ := hread
  intro trips
  induction trips with
  | nil =>
    intro bk h
    rcases h with ⟨t, ht, _⟩ | h
    · exact absurd ht (List.not_mem_nil t)
    · exact h
  | cons t rest ih =>
    intro bk h
    rw [show snapEmissives s (t :: rest) bk = snapEmissives s rest
      (match s.getMaterial t.2.1 with
       | none => bk
       | some (_, nt) =>
         match nt.getNode t.2.2 with
         | none => bk
         | some node =>
           match typeStrengthSocket node with
           | none => bk
           | some sock => upsert bk (.pair t.2.1 t.2.2) (.sockVal sock.value))
      from rfl]
    by_cases hours : t.2.1 = m ∧ t.2.2 = n
    · obtain ⟨hm1, hn1⟩ := hours
      apply ih
      right
      rw [hm1, hn1, hgm0]
      dsimp only
      rw [hgn0]
      dsimp only
      rw [hts0]
      dsimp only
      rw [hval0]
      exact alookup_upsert_self _ _ _
    · apply ih
      rcases h with ⟨t', ht', hmn⟩ | h
      · rcases List.mem_cons.mp ht' with rfl | htr
        · exact absurd hmn hours
        · exact Or.inl ⟨t', htr, hmn⟩
      · right
        cases hgm : s.getMaterial t.2.1 with
        | none => exact h
        | some p =>
          obtain ⟨un, nt⟩ := p
          dsimp only
          cases hgn : nt.getNode t.2.2 with
          | none => exact h
          | some node =>
            dsimp only
            cases hts : typeStrengthSocket node with
            | none => exact h
            | some sock =>
              dsimp only
              rw [alookup_upsert_ne _ _ _ _ (fun hh => hours (by
                have h1 := congrArg (fun k => match k with
                  | BKey.pair a _ => a
                  | BKey.str s => s) hh
                have h2 := congrArg (fun k => match k with
                  | BKey.pair _ b => b
                  | BKey.str s => s) hh
                simp only at h1 h2
                exact ⟨h1.symm, h2.symm⟩))]
              exact h

theorem snapEnv_eval (w : World) (output : Node) (bk : List (BKey × BVal))
    (hu : w.use_nodes = true)
    (hfo : w.node_tree.firstOfType NType.OUTPUT_WORLD = some output) :
    snapEnv (some w) bk =
      (match output.getInput "Volume" with
        | none =>
          (match output.getInput "Surface" with
            | none => bk
            | some sock => match sock.links with
              | [] => bk
              | l :: _ => upsert bk (.str ("env_link_" ++ "Surface")) (.linkRef l))
        | some sock => match sock.links with
          | [] =>
            (match output.getInput "Surface" with
              | none => bk
              | some sock => match sock.links with
                | [] => bk
                | l :: _ => upsert bk (.str ("env_link_" ++ "Surface")) (.linkRef l))
          | l :: _ => upsert
            (match output.getInput "Surface" with
              | none => bk
              | some sock => match sock.links with
                | [] => bk
                | l :: _ => upsert bk (.str ("env_link_" ++ "Surface")) (.linkRef l))
            (.str ("env_link_" ++ "Volume")) (.linkRef l)) := by
  unfold snapEnv
  dsimp only
  rw [if_pos hu, hfo]
  dsimp only [List.foldl_cons, List.foldl_nil]

theorem snapEnv_mem :
    ∀ (w : Option World) (bk : List (BKey × BVal)) (r : BKey × BVal),
    r ∈ snapEnv w bk → r ∈ bk ∨
      ∃ name l, (name = "Surface" ∨ name = "Volume") ∧
        r = (.str ("env_link_" ++ name), .linkRef l) := by
  intro w bk r h
  cases w with
  | none => left; exact h
  | some w =>
    unfold snapEnv at h
    dsimp only at h
    by_cases hu : w.use_nodes = true
    · rw [if_pos hu] at h
      cases hfo : w.node_tree.firstOfType NType.OUTPUT_WORLD with
      | none => rw [hfo] at h; left; exact h
      | some output =>
        rw [hfo] at h
        dsimp only [List.foldl_cons, List.foldl_nil] at h
        have hstep : ∀ (name : String) (bk' : List (BKey × BVal)),
            r ∈ (match output.getInput name with
              | none => bk'
              | some sock => match sock.links with
                | [] => bk'
                | l :: _ => upsert bk' (.str ("env_link_" ++ name)) (.linkRef l)) →
            r ∈ bk' ∨ ∃ l, r = (.str ("env_link_" ++ name), .linkRef l) := by
          intro name bk' hmem
          cases hgi : output.getInput name with
          | none => rw [hgi] at hmem; left; exact hmem
          | some sock =>
            rw [hgi] at hmem
            dsimp only at hmem
            cases hlk : sock.links with
            | nil => rw [hlk] at hmem; left; exact hmem
            | cons l rest =>
              rw [hlk] at hmem
              dsimp only at hmem
              rcases mem_upsert _ _ _ _ hmem with h1 | h1
              · left; exact h1
              · right; exact ⟨l, h1⟩
        rcases hstep "Volume" _ h with h1 | ⟨l, h1⟩
        · rcases hstep "Surface" _ h1 with h2 | ⟨l, h2⟩
          · left; exact h2
          · right; exact ⟨"Surface", l, Or.inl rfl, h2⟩
        · right; exact ⟨"Volume", l, Or.inr rfl, h1⟩
    · rw [if_neg hu] at h; left; exact h

theorem snapEnv_alookup_ne :
    ∀ (w : Option World) (bk : List (BKey × BVal)) (K : BKey),
    K ≠ .str ("env_link_" ++ "Surface") → K ≠ .str ("env_link_" ++ "Volume") →
    alookup (snapEnv w bk) K = alookup bk K := by
  intro w bk K hS hV
  cases w with
  | none => rfl
  | some w =>
    unfold snapEnv
    dsimp only
    by_cases hu : w.use_nodes = true
    · rw [if_pos hu]
      cases hfo : w.node_tree.firstOfType NType.OUTPUT_WORLD with
      | none => rfl
      | some output =>
        dsimp only [List.foldl_cons, List.foldl_nil]
        have hstep : ∀ (name : String) (bk' : List (BKey × BVal)),
            K ≠ .str ("env_link_" ++ name) →
            alookup (match output.getInput name with
              | none => bk'
              | some sock => match sock.links with
                | [] => bk'
                | l :: _ => upsert bk' (.str ("env_link_" ++ name)) (.linkRef l))
              K = alookup bk' K := by
          intro name bk' hne
          cases hgi : output.getInput name with
          | none => rfl
          | some sock =>
            dsimp only
            cases hlk : sock.links with
            | nil => rfl
            | cons l rest =>
              exact alookup_upsert_ne _ _ _ _ hne
        rw [hstep "Volume" _ hV, hstep "Surface" _ hS]
    · rw [if_neg hu]

theorem deactStep_world_of_not_link (sc : Scene) (e : BKey × BVal)
    (h : ∀ l, e.2 ≠ BVal.linkRef l) : (deactStep sc e).world = sc.world := by
  obtain ⟨k, v⟩ := e
  cases k with
  | pair m n =>
    cases v with
    | sockVal val =>
      unfold deactStep
      dsimp only
      cases sc.getMaterial m with
      | none => rfl
      | some p =>
        obtain ⟨un, nt⟩ := p
        dsimp only
        cases un
        · rw [if_neg (by simp)]
        · rw [if_pos rfl, Scene.updateMaterialTree_world]
    | lightTup a b => rfl
    | linkRef l => exact absurd rfl (h l)
  | str k =>
    cases v with
    | linkRef l => exact absurd rfl (h l)
    | lightTup a b =>
      unfold deactStep
      dsimp only
      by_cases hp : strStartsWith k "env_link_" = true
      · rw [if_pos hp]
      · rw [if_neg hp]
        exact Scene.updateFirstObj_world sc k _
    | sockVal val =>
      unfold deactStep
      dsimp only
      by_cases hp : strStartsWith k "env_link_" = true
      · rw [if_pos hp]
      · rw [if_neg hp]

theorem deactStep_objects_of_not_light (sc : Scene) (e : BKey × BVal)
    (h : ∀ a b, e.2 ≠ BVal.lightTup a b) : (deactStep sc e).objects = sc.objects := by
  obtain ⟨k, v⟩ := e
  cases k with
  | pair m n =>
    cases v with
    | sockVal val =>
      unfold deactStep
      dsimp only
      cases sc.getMaterial m with
      | none => rfl
      | some p =>
        obtain ⟨un, nt⟩ := p
        dsimp only
        cases un
        · rw [if_neg (by simp)]
        · rw [if_pos rfl, Scene.updateMaterialTree_objects]
    | lightTup a b => exact absurd rfl (h a b)
    | linkRef l => rfl
  | str k =>
    cases v with
    | lightTup a b => exact absurd rfl (h a b)
    | linkRef l =>
      unfold deactStep
      dsimp only
      by_cases hp : strStartsWith k "env_link_" = true
      · rw [if_pos hp]
        cases sc.world with
        | none => rfl
        | some w =>
          dsimp only
          by_cases hu : w.use_nodes = true
          · rw [if_pos hu]
          · rw [if_neg hu]
      · rw [if_neg hp]
    | sockVal val =>
      unfold deactStep
      dsimp only
      by_cases hp : strStartsWith k "env_link_" = true
      · rw [if_pos hp]
      · rw [if_neg hp]

theorem deactStep_materials_str (sc : Scene) (k : String) (v : BVal) :
    (deactStep sc (BKey.str k, v)).materials = sc.materials := by
  unfold deactStep
  dsimp only
  by_cases hp : strStartsWith k "env_link_" = true
  · rw [if_pos hp]
    cases v with
    | linkRef l =>
      cases sc.world with
      | none => rfl
      | some w =>
        dsimp only
        by_cases hu : w.use_nodes = true
        · rw [if_pos hu]
        · rw [if_neg hu]
    | lightTup a b => rfl
    | sockVal val => rfl
  · rw [if_neg hp]
    cases v with
    | linkRef l => rfl
    | sockVal val => rfl
    | lightTup a b => exact Scene.updateFirstObj_materials sc k _

theorem tsSocket_isSome_update (nd : Node) (x : String) (g : Socket → Socket)
    (hg : ∀ s, (g s).name = s.name) :
    (typeStrengthSocket (nd.updateInput x g)).isSome =
      (typeStrengthSocket nd).isSome := by
  unfold typeStrengthSocket
  rw [tsname_update]
  exact getInput_isSome_update nd x (typeStrengthName nd) g hg

theorem forceNodeMap_ntype (m : String) (em : Option Mode) (ei : Option PyIdent)
    (n : Node) : (forceNodeMap m em ei n).ntype = n.ntype := by
  unfold forceNodeMap
  cases hos : orStrength n with
  | none => rfl
  | some p =>
    obtain ⟨sname, s⟩ := p
    dsimp only
    by_cases hex : em = some Mode.MATERIAL ∧ ei = some (PyIdent.matKey m n.name)
    · rw [if_pos hex]
    · rw [if_neg hex]; exact Node.updateInput_ntype n sname _

theorem forceNodeMap_tsSome (m : String) (em : Option Mode) (ei : Option PyIdent)
    (n : Node) : (typeStrengthSocket (forceNodeMap m em ei n)).isSome =
      (typeStrengthSocket n).isSome := by
  unfold forceNodeMap
  cases hos : orStrength n with
  | none => rfl
  | some p =>
    obtain ⟨sname, s⟩ := p
    dsimp only
    by_cases hex : em = some Mode.MATERIAL ∧ ei = some (PyIdent.matKey m n.name)
    · rw [if_pos hex]
    · rw [if_neg hex]; exact tsSocket_isSome_update n sname _ (fun s => rfl)

theorem matSkel_congr_materials (sc₁ sc₂ : Scene)
    (h : sc₁.materials = sc₂.materials) (m n : String) :
    matSkel sc₁ m n = matSkel sc₂ m n := by
  unfold matSkel Scene.getMaterial
  rw [h]

theorem gtsv_congr_materials (sc₁ sc₂ : Scene)
    (h : sc₁.materials = sc₂.materials) (m n : String) :
    getTypeStrengthValue sc₁ m n = getTypeStrengthValue sc₂ m n := by
  unfold getTypeStrengthValue Scene.getMaterial
  rw [h]

theorem matSkel_umt_sts (sc : Scene) (m' x : String) (v : SockVal)
    (m n : String) :
    matSkel (sc.updateMaterialTree m' (fun nt => setTypeStrengthValue nt x v))
      m n = matSkel sc m n := by
  unfold matSkel
  rw [Scene.getMaterial_updateMaterialTree]
  by_cases hm : m' = m
  · rw [if_pos hm]
    cases hgm : sc.getMaterial m' with
    | none => rw [hm] at hgm; rw [hgm]; rfl
    | some p =>
      obtain ⟨un, nt⟩ := p
      rw [hm] at hgm
      rw [hgm]
      dsimp only [Option.map_some']
      unfold setTypeStrengthValue
      rw [NodeTree.getNode_updateNode nt x n _
        (fun nd => Node.updateInput_name nd _ _)]
      by_cases hx : x = n
      · rw [if_pos hx]
        cases hgn : nt.getNode x with
        | none => rw [hx] at hgn; rw [hgn]; rfl
        | some nodec =>
          rw [hx] at hgn
          rw [hgn]
          dsimp only [Option.map_some']
          rw [Node.updateInput_ntype,
            tsSocket_isSome_update nodec (typeStrengthName nodec)
              (fun s => { s with value := v }) (fun s => rfl)]
      · rw [if_neg hx]
  · rw [if_neg hm]

theorem gtsv_umt_sts_ne (sc : Scene) (m' x : String) (v : SockVal)
    (m n : String) (hne : ¬(m' = m ∧ x = n)) :
    getTypeStrengthValue
      (sc.updateMaterialTree m' (fun nt => setTypeStrengthValue nt x v)) m n =
      getTypeStrengthValue sc m n := by
  unfold getTypeStrengthValue
  rw [Scene.getMaterial_updateMaterialTree]
  by_cases hm : m' = m
  · rw [if_pos hm]
    have hx : x ≠ n := fun hh => hne ⟨hm, hh⟩
    cases hgm : sc.getMaterial m' with
    | none => rw [hm] at hgm; rw [hgm]; rfl
    | some p =>
      obtain ⟨un, nt⟩ := p
      rw [hm] at hgm
      rw [hgm]
      dsimp only [Option.map_some']
      unfold setTypeStrengthValue
      rw [NodeTree.getNode_updateNode nt x n _
        (fun nd => Node.updateInput_name nd _ _), if_neg hx]
  · rw [if_neg hm]

theorem deactStep_matSkel (sc : Scene) (e : BKey × BVal) (m n : String) :
    matSkel (deactStep sc e) m n = matSkel sc m n := by
  obtain ⟨k, v⟩ := e
  cases k with
  | str k =>
    exact matSkel_congr_materials _ _ (deactStep_materials_str sc k v) m n
  | pair m' n' =>
    cases v with
    | lightTup a b => rfl
    | linkRef l => rfl
    | sockVal val =>
      unfold deactStep
      dsimp only
      cases hgm : sc.getMaterial m' with
      | none => rfl
      | some p =>
        obtain ⟨un, nt⟩ := p
        dsimp only
        cases un
        · rw [if_neg (by simp)]
        · rw [if_pos rfl]
          exact matSkel_umt_sts sc m' n' val m n

theorem deactStep_gtsv_ne (sc : Scene) (e : BKey × BVal) (m n : String)
    (h : e.1 ≠ BKey.pair m n) :
    getTypeStrengthValue (deactStep sc e) m n = getTypeStrengthValue sc m n := by
  obtain ⟨k, v⟩ := e
  cases k with
  | str k =>
    exact gtsv_congr_materials _ _ (deactStep_materials_str sc k v) m n
  | pair m' n' =>
    cases v with
    | lightTup a b => rfl
    | linkRef l => rfl
    | sockVal val =>
      unfold deactStep
      dsimp only
      cases hgm : sc.getMaterial m' with
      | none => rfl
      | some p =>
        obtain ⟨un, nt⟩ := p
        dsimp only
        cases un
        · rw [if_neg (by simp)]
        · rw [if_pos rfl]
          refine gtsv_umt_sts_ne sc m' n' val m n (fun hh => h ?_)
          rw [hh.1, hh.2]

theorem deactStep_gtsv_write (sc : Scene) (m n : String) (v : SockVal)
    (hsk : ∃ τ, matSkel sc m n = some (true, some (τ, true))) :
    getTypeStrengthValue (deactStep sc (BKey.pair m n, BVal.sockVal v)) m n =
      some v := by
  obtain ⟨τ, hsk⟩ := hsk
  unfold matSkel at hsk
  cases hgm : sc.getMaterial m with
  | none => rw [hgm] at hsk; exact absurd hsk (by simp)
  | some p =>
    obtain ⟨un, nt⟩ := p
    rw [hgm] at hsk
    dsimp only [Option.map_some'] at hsk
    have hun : un = true := by
      have := congrArg (fun o => o.map (fun q => q.1)) hsk
      simpa using this
    cases hgn : nt.getNode n with
    | none => rw [hgn] at hsk; simp at hsk
    | some nodec =>
      rw [hgn] at hsk
      dsimp only [Option.map_some'] at hsk
      have hts : (typeStrengthSocket nodec).isSome = true := by
        have h2 := Option.some.inj hsk
        have h3 := congrArg (fun q => q.2) h2
        dsimp only at h3
        have h4 := Option.some.inj h3
        exact (congrArg (fun q => q.2) h4)
      cases htss : typeStrengthSocket nodec with
      | none => rw [htss] at hts; exact absurd hts (by simp)
      | some sockc =>
        unfold deactStep
        dsimp only
        rw [hgm, hun]
        dsimp only
        rw [if_pos rfl]
        unfold getTypeStrengthValue
        rw [Scene.getMaterial_updateMaterialTree, if_pos rfl, hgm]
        dsimp only [Option.map_some']
        unfold setTypeStrengthValue
        rw [updateNode_ts_congr nt n nodec hgn _,
          getNode_update_self nt n nodec _ hgn
            (fun nd => Node.updateInput_name nd _ _)]
        dsimp only
        rw [tssocket_update nodec (fun s => { s with value := v })
          (fun s => rfl) sockc htss]
        rfl

theorem deactFold_gtsv_ne (m n : String) :
    ∀ (records : List (BKey × BVal)) (sc : Scene),
    (∀ r ∈ records, r.1 ≠ BKey.pair m n) →
    getTypeStrengthValue (records.foldl deactStep sc) m n =
      getTypeStrengthValue sc m n := by
  intro records
  induction records with
  | nil => intro sc _; rfl
  | cons e t ih =>
    intro sc h
    rw [List.foldl_cons, ih _ (fun r hr => h r (List.mem_cons_of_mem e hr)),
      deactStep_gtsv_ne sc e m n (h e (List.mem_cons_self e t))]

theorem deactFold_gtsv_write (m n : String) (v : SockVal) :
    ∀ (records : List (BKey × BVal)) (sc : Scene),
    (records.map (fun r => r.1)).Nodup →
    alookup records (BKey.pair m n) = some (BVal.sockVal v) →
    (∃ τ, matSkel sc m n = some (true, some (τ, true))) →
    getTypeStrengthValue (records.foldl deactStep sc) m n = some v := by
  intro records
  induction records with
  | nil => intro sc _ h _; exact absurd h (by simp [alookup])
  | cons e t ih =>
    intro sc hnd hl hsk
    rw [List.map_cons, List.nodup_cons] at hnd
    obtain ⟨h1, h2⟩ := hnd
    obtain ⟨k, val⟩ := e
    rw [alookup_cons] at hl
    by_cases hk : k = BKey.pair m n
    · rw [if_pos hk] at hl
      have hval := Option.some.inj hl
      rw [List.foldl_cons]
      rw [deactFold_gtsv_ne m n t _ (fun r hr hh => h1 (by
        show k ∈ _
        rw [hk, ← hh]
        exact List.mem_map_of_mem _ hr))]
      rw [hk, hval]
      exact deactStep_gtsv_write sc m n v hsk
    · rw [if_neg hk] at hl
      rw [List.foldl_cons]
      refine ih _ h2 hl ?_
      obtain ⟨τ, hτ⟩ := hsk
      exact ⟨τ, by rw [deactStep_matSkel]; exact hτ⟩

theorem matSkel_map_force (sc : Scene) (em : Option Mode) (ei : Option PyIdent)
    (m n : String) :
    matSkel { sc with materials := sc.materials.map (forceMatMap em ei) } m n =
      matSkel sc m n := by
  unfold matSkel Scene.getMaterial
  dsimp only
  rw [findMat_map_key (forceMatMap em ei) (forceMatMap_key em ei)]
  cases hf : sc.materials.find? (fun x => x.1 == m) with
  | none => rfl
  | some t =>
    obtain ⟨key, un, nt⟩ := t
    dsimp only [Option.map_some']
    unfold forceMatMap
    cases un
    · rw [if_neg (by simp)]
    · rw [if_pos rfl]
      dsimp only
      rw [show (⟨nt.nodes.map (forceNodeMap key em ei)⟩ : NodeTree).getNode n
          = (nt.getNode n).map (forceNodeMap key em ei) from by
        show (nt.nodes.map _).find? _ = _
        rw [findNode_map_name _ (forceNodeMap_name key em ei)]
        rfl]
      cases hgn : nt.getNode n with
      | none => rfl
      | some nodec =>
        dsimp only [Option.map_some']
        rw [forceNodeMap_ntype, forceNodeMap_tsSome]

theorem matSkel_fao (sc : Scene) (mgr : OnOffMgr) (em : Option Mode)
    (ei : Option PyIdent) (m n : String) :
    matSkel (force_all_off sc mgr em ei).1 m n = matSkel sc m n := by
  have h1 : (force_all_off sc mgr em ei).1.materials
      = sc.materials.map (forceMatMap em ei) := by rw [force_all_off_parts]
  rw [matSkel_congr_materials (force_all_off sc mgr em ei).1
    { sc with materials := sc.materials.map (forceMatMap em ei) } h1 m n]
  exact matSkel_map_force sc em ei m n

theorem matBranchStep_matSkel (ident : Option PyIdent) (bk : List (BKey × BVal))
    (sc : Scene) (t : Triple) (m n : String) :
    matSkel (matBranchStep ident bk sc t) m n = matSkel sc m n := by
  unfold matBranchStep
  by_cases hid : ident = some (PyIdent.matKey t.2.1 t.2.2)
  · rw [if_pos hid]
    cases hbk : alookup bk (BKey.pair t.2.1 t.2.2) with
    | none => rfl
    | some v =>
      cases v with
      | lightTup a b => rfl
      | linkRef l => rfl
      | sockVal val => exact matSkel_umt_sts sc t.2.1 t.2.2 val m n
  · rw [if_neg hid]

theorem matBranchFold_matSkel (ident : Option PyIdent) (bk : List (BKey × BVal))
    (m n : String) :
    ∀ (trips : List Triple) (sc : Scene),
    matSkel (trips.foldl (matBranchStep ident bk) sc) m n = matSkel sc m n := by
  intro trips
  induction trips with
  | nil => intro sc; rfl
  | cons t r ih =>
    intro sc
    rw [List.foldl_cons, ih, matBranchStep_matSkel]

theorem envBranch_materials (sc : Scene) (bk : List (BKey × BVal)) :
    (envBranch sc bk).materials = sc.materials := by
  unfold envBranch
  cases hw : sc.world with
  | none => rfl
  | some w =>
    dsimp only
    cases hun : w.use_nodes with
    | false => rw [if_neg (by simp)]
    | true =>
      rw [if_pos rfl]
      cases hft : w.node_tree.firstOfType NType.OUTPUT_WORLD with
      | none => rfl
      | some o => rfl

theorem matSkel_activate (gs : GState) (mode : Mode) (ident : Option PyIdent)
    (m n : String) :
    matSkel (activate gs mode ident).scene m n = matSkel gs.scene m n := by
  have hfo : matSkel (force_all_off gs.scene gs.onoff (some mode) ident).1 m n
      = matSkel gs.scene m n := matSkel_fao _ _ _ _ m n
  cases mode with
  | LIGHT_GROUP => exact hfo
  | LIGHT_ROW => exact hfo
  | MATERIAL =>
    refine Eq.trans ?_ hfo
    exact matBranchFold_matSkel ident _ m n _ _
  | ENVIRONMENT =>
    rw [← hfo]
    exact matSkel_congr_materials _ _ (envBranch_materials _ _) m n
  | MATERIAL_GROUP => exact hfo
  | ENVIRONMENT_SURFACE => exact hfo
  | ENVIRONMENT_VOLUME => exact hfo

theorem snapLights_keys_nodup :
    ∀ (objs : List Obj) (bk : List (BKey × BVal)),
    (bk.map (fun r => r.1)).Nodup →
    ((snapLights objs bk).map (fun r => r.1)).Nodup := by
  intro objs
  induction objs with
  | nil => intro bk h; exact h
  | cons o t ih =>
    intro bk h
    rw [show snapLights (o :: t) bk = snapLights t
      (if o.otype = .LIGHT then
        upsert bk (.str o.name) (.lightTup o.hide_viewport o.hide_render)
      else bk) from rfl]
    apply ih
    by_cases hl : o.otype = .LIGHT
    · rw [if_pos hl]; exact keys_nodup_upsert _ _ _ h
    · rw [if_neg hl]; exact h

theorem snapEmissives_keys_nodup (s : Scene) :
    ∀ (trips : List Triple) (bk : List (BKey × BVal)),
    (bk.map (fun r => r.1)).Nodup →
    ((snapEmissives s trips bk).map (fun r => r.1)).Nodup := by
  intro trips
  induction trips with
  | nil => intro bk h; exact h
  | cons t rest ih =>
    intro bk h
    rw [show snapEmissives s (t :: rest) bk = snapEmissives s rest
      (match s.getMaterial t.2.1 with
       | none => bk
       | some (_, nt) =>
         match nt.getNode t.2.2 with
         | none => bk
         | some node =>
           match typeStrengthSocket node with
           | none => bk
           | some sock => upsert bk (.pair t.2.1 t.2.2) (.sockVal sock.value))
      from rfl]
    apply ih
    cases s.getMaterial t.2.1 with
    | none => exact h
    | some p =>
      obtain ⟨un, nt⟩ := p
      dsimp only
      cases nt.getNode t.2.2 with
      | none => exact h
      | some node =>
        dsimp only
        cases typeStrengthSocket node with
        | none => exact h
        | some sock => exact keys_nodup_upsert _ _ _ h

theorem snapEnv_keys_nodup (w : Option World) (bk : List (BKey × BVal))
    (h : (bk.map (fun r => r.1)).Nodup) :
    ((snapEnv w bk).map (fun r => r.1)).Nodup := by
  cases w with
  | none => exact h
  | some w =>
    unfold snapEnv
    dsimp only
    by_cases hu : w.use_nodes = true
    · rw [if_pos hu]
      cases hfo : w.node_tree.firstOfType NType.OUTPUT_WORLD with
      | none => exact h
      | some output =>
        dsimp only [List.foldl_cons, List.foldl_nil]
        have hstep : ∀ (name : String) (bk' : List (BKey × BVal)),
            (bk'.map (fun r => r.1)).Nodup →
            (List.map (fun (r : BKey × BVal) => r.1)
              (match output.getInput name with
              | none => bk'
              | some sock => match sock.links with
                | [] => bk'
                | l :: _ => upsert bk' (.str ("env_link_" ++ name)) (.linkRef l))).Nodup := by
          intro name bk' h'
          cases output.getInput name with
          | none => exact h'
          | some sock =>
            dsimp only
            cases sock.links with
            | nil => exact h'
            | cons l rest => exact keys_nodup_upsert _ _ _ h'
        exact hstep "Volume" _ (hstep "Surface" _ h)
    · rw [if_neg hu]; exact h

theorem activate_iso_backup (gs : GState) (mode : Mode) (ident : Option PyIdent) :
    (activate gs mode ident).iso.backup =
      snapEnv gs.scene.world (snapEmissives gs.scene
        (find_emissive_objects gs.scene gs.cache none).1
        (snapLights gs.scene.objects [])) := rfl

theorem deactivate_scene (gs : GState) :
    (deactivate gs).scene = gs.iso.backup.foldl deactStep gs.scene := rfl

theorem c1_materials (gs : GState) (mode : Mode) (ident : Option PyIdent)
    (t : Triple) (nt : NodeTree) (v : SockVal)
    (ht : t ∈ (find_emissive_objects gs.scene gs.cache none).1)
    (hun : gs.scene.getMaterial t.2.1 = some (true, nt))
    (hv : getTypeStrengthValue gs.scene t.2.1 t.2.2 = some v) :
    getTypeStrengthValue (deactivate (activate gs mode ident)).scene
      t.2.1 t.2.2 = some v := by
  have hsk0 : ∃ τ, matSkel gs.scene t.2.1 t.2.2 = some (true, some (τ, true)) := by
    unfold getTypeStrengthValue at hv
    rw [hun] at hv
    dsimp only at hv
    cases hgn : nt.getNode t.2.2 with
    | none => rw [hgn] at hv; exact absurd hv (by simp)
    | some nodec =>
      rw [hgn] at hv
      dsimp only at hv
      cases hts : typeStrengthSocket nodec with
      | none => rw [hts] at hv; exact absurd hv (by simp)
      | some sock =>
        refine ⟨nodec.ntype, ?_⟩
        unfold matSkel
        rw [hun]
        dsimp only [Option.map_some']
        rw [hgn]
        dsimp only [Option.map_some']
        rw [hts]
        rfl
  have hskA : ∃ τ, matSkel (activate gs mode ident).scene t.2.1 t.2.2 =
      some (true, some (τ, true)) := by
    obtain ⟨τ, hτ⟩ := hsk0
    exact ⟨τ, by rw [matSkel_activate]; exact hτ⟩
  rw [deactivate_scene, activate_iso_backup]
  refine deactFold_gtsv_write t.2.1 t.2.2 v _ _ ?_ ?_ hskA
  · exact snapEnv_keys_nodup _ _ (snapEmissives_keys_nodup _ _ _
      (snapLights_keys_nodup _ [] (by simp)))
  · rw [snapEnv_alookup_ne _ _ _ (fun h => BKey.noConfusion h)
      (fun h => BKey.noConfusion h)]
    exact snapEmissives_alookup_found gs.scene t.2.1 t.2.2 v hv _ _
      (Or.inl ⟨t, ht, rfl, rfl⟩)

theorem force_lights_eq (keep : Finset String) :
    ∀ (objs : List Obj) (bk : List (String × (Bool × Bool × Bool))),
    force_lights keep objs bk =
      (objs.map (forceLightMap keep), objs.foldl (forceLightBk keep) bk) := by
  intro objs
  induction objs with
  | nil => intro bk; rfl
  | cons o t ih =>
    intro bk
    simp only [force_lights, forceLightMap, forceLightBk, List.map_cons,
      List.foldl_cons]
    by_cases hl : o.otype = OType.LIGHT
    · rw [if_pos hl, if_pos hl]
      by_cases hk : o.name ∈ keep
      · rw [if_pos hk, if_neg (fun hh => hh.2 hk), ih]
      · rw [if_neg hk, if_pos ⟨hl, hk⟩, ih]
    · rw [if_neg hl, if_neg hl, if_neg (fun hh => hl hh.1), ih]

theorem matBranchStep_objects (ident : Option PyIdent) (bk : List (BKey × BVal))
    (sc : Scene) (t : Triple) : (matBranchStep ident bk sc t).objects = sc.objects := by
  unfold matBranchStep
  by_cases hid : ident = some (PyIdent.matKey t.2.1 t.2.2)
  · rw [if_pos hid]
    cases alookup bk (BKey.pair t.2.1 t.2.2) with
    | none => rfl
    | some v =>
      cases v with
      | lightTup a b => rfl
      | linkRef l => rfl
      | sockVal val => exact Scene.updateMaterialTree_objects _ _ _
  · rw [if_neg hid]

theorem matBranchFold_objects (ident : Option PyIdent) (bk : List (BKey × BVal)) :
    ∀ (trips : List Triple) (sc : Scene),
    (trips.foldl (matBranchStep ident bk) sc).objects = sc.objects := by
  intro trips
  induction trips with
  | nil => intro sc; rfl
  | cons t r ih =>
    intro sc
    rw [List.foldl_cons, ih, matBranchStep_objects]

theorem envBranch_objects (sc : Scene) (bk : List (BKey × BVal)) :
    (envBranch sc bk).objects = sc.objects := by
  unfold envBranch
  cases sc.world with
  | none => rfl
  | some w =>
    dsimp only
    by_cases hu : w.use_nodes = true
    · rw [if_pos hu]
      cases w.node_tree.firstOfType NType.OUTPUT_WORLD with
      | none => rfl
      | some o => rfl
    · rw [if_neg hu]

theorem forceLightMap_skel (keep : Finset String) (o : Obj) :
    ((forceLightMap keep o).name, (forceLightMap keep o).otype,
      (forceLightMap keep o).material_slots) =
    (o.name, o.otype, o.material_slots) := by
  unfold forceLightMap
  by_cases h : o.otype = OType.LIGHT ∧ o.name ∉ keep
  · rw [if_pos h]; rfl
  · rw [if_neg h]

theorem lightBranchF_skel (keep : Finset String) (bk : List (BKey × BVal))
    (o : Obj) :
    (((fun o : Obj => if o.otype = OType.LIGHT ∧ o.name ∈ keep then
        match alookup bk (.str o.name) with
        | some (.lightTup hv hr) =>
          { o with hide_viewport := hv, hide_render := hr }
        | _ => o
      else o) o).name,
     ((fun o : Obj => if o.otype = OType.LIGHT ∧ o.name ∈ keep then
        match alookup bk (.str o.name) with
        | some (.lightTup hv hr) =>
          { o with hide_viewport := hv, hide_render := hr }
        | _ => o
      else o) o).otype,
     ((fun o : Obj => if o.otype = OType.LIGHT ∧ o.name ∈ keep then
        match alookup bk (.str o.name) with
        | some (.lightTup hv hr) =>
          { o with hide_viewport := hv, hide_render := hr }
        | _ => o
      else o) o).material_slots) = (o.name, o.otype, o.material_slots) := by
  dsimp only
  by_cases h : o.otype = OType.LIGHT ∧ o.name ∈ keep
  · rw [if_pos h]
    cases alookup bk (BKey.str o.name) with
    | none => rfl
    | some v =>
      cases v with
      | lightTup a b => rfl
      | sockVal x => rfl
      | linkRef l => rfl
  · rw [if_neg h]

theorem lightBranch_map (objs : List Obj) (keep : Finset String)
    (bk : List (BKey × BVal)) :
    lightBranch objs keep bk = objs.map (fun o : Obj =>
      if o.otype = OType.LIGHT ∧ o.name ∈ keep then
        match alookup bk (.str o.name) with
        | some (.lightTup hv hr) =>
          { o with hide_viewport := hv, hide_render := hr }
        | _ => o
      else o) := rfl

theorem lightBranchF_name (keep : Finset String) (bk : List (BKey × BVal))
    (o : Obj) :
    ((fun o : Obj => if o.otype = OType.LIGHT ∧ o.name ∈ keep then
        match alookup bk (.str o.name) with
        | some (.lightTup hv hr) =>
          { o with hide_viewport := hv, hide_render := hr }
        | _ => o
      else o) o).name = o.name := by
  have := lightBranchF_skel keep bk o
  exact congrArg (fun p => p.1) this

theorem forceLightMap_name (keep : Finset String) (o : Obj) :
    (forceLightMap keep o).name = o.name :=
  congrArg (fun p => p.1) (forceLightMap_skel keep o)

theorem findObj_map_skel (F : Obj → Obj) (hFname : ∀ o, (F o).name = o.name)
    (hFskel : ∀ o, ((F o).name, (F o).otype, (F o).material_slots) =
      (o.name, o.otype, o.material_slots)) (l : List Obj) (y : String) :
    ((l.map F).find? (fun o => o.name == y)).map
        (fun o => (o.name, o.otype, o.material_slots)) =
      (l.find? (fun o => o.name == y)).map
        (fun o => (o.name, o.otype, o.material_slots)) := by
  rw [find_map_name F hFname]
  cases l.find? (fun o => o.name == y) with
  | none => rfl
  | some o =>
    dsimp only [Option.map_some']
    exact congrArg some (hFskel o)

theorem getObj_congr_objects (sc₁ sc₂ : Scene) (h : sc₁.objects = sc₂.objects)
    (name : String) : sc₁.getObj name = sc₂.getObj name := by
  unfold Scene.getObj
  rw [h]

theorem activate_getObj_skel (gs : GState) (mode : Mode)
    (ident : Option PyIdent) (name : String) :
    ((activate gs mode ident).scene.getObj name).map
        (fun o => (o.name, o.otype, o.material_slots)) =
      (gs.scene.getObj name).map
        (fun o => (o.name, o.otype, o.material_slots)) := by
  have hforce : (((force_all_off gs.scene gs.onoff (some mode) ident).1.getObj
      name).map (fun o => (o.name, o.otype, o.material_slots))) =
      (gs.scene.getObj name).map
        (fun o => (o.name, o.otype, o.material_slots)) := by
    have h2 : (force_all_off gs.scene gs.onoff (some mode) ident).1.objects =
        gs.scene.objects.map (forceLightMap (keepLightsOf (some mode) ident)) := by
      rw [force_all_off_parts]
      show (force_lights _ _ _).1 = _
      rw [force_lights_eq]
    unfold Scene.getObj
    rw [h2]
    exact findObj_map_skel _ (forceLightMap_name _) (forceLightMap_skel _)
      gs.scene.objects name
  cases mode with
  | LIGHT_GROUP =>
    refine Eq.trans ?_ hforce
    have hobj : (activate gs Mode.LIGHT_GROUP ident).scene.objects =
        ((force_all_off gs.scene gs.onoff (some Mode.LIGHT_GROUP)
          ident).1.objects).map
          (fun o : Obj =>
            if o.otype = OType.LIGHT ∧ o.name ∈ keepBranchOf ident then
              match alookup (snapEnv gs.scene.world (snapEmissives gs.scene
                (find_emissive_objects gs.scene gs.cache none).1
                (snapLights gs.scene.objects []))) (.str o.name) with
              | some (.lightTup hv hr) =>
                { o with hide_viewport := hv, hide_render := hr }
              | _ => o
            else o) := rfl
    unfold Scene.getObj
    rw [hobj, findObj_map_skel _ (lightBranchF_name _ _)
      (lightBranchF_skel _ _)]
  | LIGHT_ROW =>
    refine Eq.trans ?_ hforce
    have hobj : (activate gs Mode.LIGHT_ROW ident).scene.objects =
        ((force_all_off gs.scene gs.onoff (some Mode.LIGHT_ROW)
          ident).1.objects).map
          (fun o : Obj =>
            if o.otype = OType.LIGHT ∧ o.name ∈ keepBranchOf ident then
              match alookup (snapEnv gs.scene.world (snapEmissives gs.scene
                (find_emissive_objects gs.scene gs.cache none).1
                (snapLights gs.scene.objects []))) (.str o.name) with
              | some (.lightTup hv hr) =>
                { o with hide_viewport := hv, hide_render := hr }
              | _ => o
            else o) := rfl
    unfold Scene.getObj
    rw [hobj, findObj_map_skel _ (lightBranchF_name _ _)
      (lightBranchF_skel _ _)]
  | MATERIAL =>
    refine Eq.trans ?_ hforce
    refine congrArg _ ?_
    refine getObj_congr_objects _ _ ?_ name
    exact matBranchFold_objects ident _ _ _
  | ENVIRONMENT =>
    refine Eq.trans ?_ hforce
    refine congrArg _ ?_
    refine getObj_congr_objects _ _ ?_ name
    exact envBranch_objects _ _
  | MATERIAL_GROUP => exact hforce
  | ENVIRONMENT_SURFACE => exact hforce
  | ENVIRONMENT_VOLUME => exact hforce

theorem deactStep_objects_pair (sc : Scene) (m n : String) (v : BVal) :
    (deactStep sc (BKey.pair m n, v)).objects = sc.objects := by
  cases v with
  | lightTup a b => rfl
  | linkRef l => rfl
  | sockVal val =>
    unfold deactStep
    dsimp only
    cases sc.getMaterial m with
    | none => rfl
    | some p =>
      obtain ⟨un, nt⟩ := p
      dsimp only
      cases un
      · rw [if_neg (by simp)]
      · rw [if_pos rfl, Scene.updateMaterialTree_objects]

theorem deactStep_getObj_ne (sc : Scene) (e : BKey × BVal) (name : String)
    (h : e.1 ≠ BKey.str name) :
    (deactStep sc e).getObj name = sc.getObj name := by
  obtain ⟨k, v⟩ := e
  cases k with
  | pair m n =>
    exact getObj_congr_objects _ _ (deactStep_objects_pair sc m n v) name
  | str k =>
    have hk : k ≠ name := fun hh => h (by rw [hh])
    cases v with
    | linkRef l =>
      refine getObj_congr_objects _ _ ?_ name
      exact deactStep_objects_of_not_light sc (BKey.str k, BVal.linkRef l)
        (fun a b hh => by exact absurd hh (by simp))
    | sockVal val =>
      refine getObj_congr_objects _ _ ?_ name
      exact deactStep_objects_of_not_light sc (BKey.str k, BVal.sockVal val)
        (fun a b hh => by exact absurd hh (by simp))
    | lightTup a b =>
      unfold deactStep
      dsimp only
      by_cases hp : strStartsWith k "env_link_" = true
      · rw [if_pos hp]
      · rw [if_neg hp]
        rw [Scene.getObj_updateFirstObj sc k name _ (fun o => by
          by_cases hl : o.otype = OType.LIGHT
          · rw [if_pos hl]; rfl
          · rw [if_neg hl])]
        rw [if_neg hk]

theorem deactStep_getObj_write (sc : Scene) (k : String) (a b : Bool)
    (o₁ : Obj) (hp : strStartsWith k "env_link_" = false)
    (hobj : sc.getObj k = some o₁) (hl : o₁.otype = OType.LIGHT) :
    (deactStep sc (BKey.str k, BVal.lightTup a b)).getObj k =
      some ⟨o₁.name, o₁.otype, a && b, a && b, !(a && b), o₁.material_slots⟩ := by
  unfold deactStep
  dsimp only
  rw [if_neg (by rw [hp]; simp)]
  rw [Scene.getObj_updateFirstObj sc k k _ (fun o => by
    by_cases hlo : o.otype = OType.LIGHT
    · rw [if_pos hlo]; rfl
    · rw [if_neg hlo])]
  rw [if_pos rfl, hobj]
  dsimp only [Option.map_some']
  rw [if_pos hl]
  unfold Obj.setLightEnabled
  dsimp only
  rw [Bool.not_not]

theorem deactFold_getObj_write (k : String) (a b : Bool) :
    ∀ (records : List (BKey × BVal)) (sc : Scene) (o₁ : Obj),
    (records.map (fun r => r.1)).Nodup →
    alookup records (BKey.str k) = some (BVal.lightTup a b) →
    strStartsWith k "env_link_" = false →
    sc.getObj k = some o₁ → o₁.otype = OType.LIGHT →
    (records.foldl deactStep sc).getObj k =
      some ⟨o₁.name, o₁.otype, a && b, a && b, !(a && b), o₁.material_slots⟩ := by
  intro records
  induction records with
  | nil => intro sc o₁ _ h _ _ _; exact absurd h (by simp [alookup])
  | cons e t ih =>
    intro sc o₁ hnd hlk hp hobj hl
    rw [List.map_cons, List.nodup_cons] at hnd
    obtain ⟨h1, h2⟩ := hnd
    obtain ⟨ke, ve⟩ := e
    rw [alookup_cons] at hlk
    by_cases hke : ke = BKey.str k
    · rw [if_pos hke] at hlk
      have hval := Option.some.inj hlk
      rw [List.foldl_cons]
      have hrest : ∀ r ∈ t, r.1 ≠ BKey.str k := by
        intro r hr hh
        exact h1 (by show ke ∈ _; rw [hke, ← hh]; exact List.mem_map_of_mem _ hr)
      have hne_fold : ∀ (rs : List (BKey × BVal)) (sc' : Scene),
          (∀ r ∈ rs, r.1 ≠ BKey.str k) →
          (rs.foldl deactStep sc').getObj k = sc'.getObj k := by
        intro rs
        induction rs with
        | nil => intro sc' _; rfl
        | cons r rs' ihr =>
          intro sc' hr
          rw [List.foldl_cons, ihr _ (fun x hx => hr x (List.mem_cons_of_mem r hx)),
            deactStep_getObj_ne sc' r k (hr r (List.mem_cons_self r rs'))]
      rw [hne_fold t _ hrest, hke, hval]
      exact deactStep_getObj_write sc k a b o₁ hp hobj hl
    · rw [if_neg hke] at hlk
      rw [List.foldl_cons]
      refine ih _ o₁ h2 hlk hp ?_ hl
      rw [deactStep_getObj_ne sc (ke, ve) k hke]
      exact hobj

theorem getObj_of_mem_nodup :
    ∀ (l : List Obj), (l.map (fun o => o.name)).Nodup → ∀ {x : Obj}, x ∈ l →
    l.find? (fun o => o.name == x.name) = some x := by
  intro l
  induction l with
  | nil => intro _ x hx; exact absurd hx (List.not_mem_nil x)
  | cons h t ih =>
    intro hnd x hx
    rw [List.map_cons, List.nodup_cons] at hnd
    obtain ⟨h1, h2⟩ := hnd
    rcases List.mem_cons.mp hx with rfl | hxt
    · exact List.find?_cons_of_pos _ (by simp)
    · have hne : h.name ≠ x.name := by
        intro hh
        exact h1 (hh ▸ List.mem_map_of_mem _ hxt)
      rw [List.find?_cons_of_neg _ (by simp [hne])]
      exact ih h2 hxt

theorem c1_lights (gs : GState) (mode : Mode) (ident : Option PyIdent)
    (hwf : gs.scene.WF) (o : Obj) (ho : o ∈ gs.scene.objects)
    (hl : o.otype = OType.LIGHT) :
    (deactivate (activate gs mode ident)).scene.getObj o.name =
      some ⟨o.name, o.otype, o.hide_viewport && o.hide_render,
        o.hide_viewport && o.hide_render,
        !(o.hide_viewport && o.hide_render), o.material_slots⟩ := by
  obtain ⟨hondup, -, hpre, -, -⟩ := hwf
  have hp : strStartsWith o.name "env_link_" = false := hpre o ho
  -- the backup holds the light's original visibility pair
  have halk : alookup (activate gs mode ident).iso.backup (BKey.str o.name) =
      some (BVal.lightTup o.hide_viewport o.hide_render) := by
    rw [activate_iso_backup]
    rw [snapEnv_alookup_ne _ _ _
      (fun hh => by
        have h2 : o.name = "env_link_" ++ "Surface" := by
          injection hh
        have h3 := congrArg (fun s => strStartsWith s "env_link_") h2
        dsimp only at h3
        rw [hp] at h3
        exact absurd h3.symm (by decide))
      (fun hh => by
        have h2 : o.name = "env_link_" ++ "Volume" := by
          injection hh
        have h3 := congrArg (fun s => strStartsWith s "env_link_") h2
        dsimp only at h3
        rw [hp] at h3
        exact absurd h3.symm (by decide))]
    rw [snapEmissives_alookup_str]
    exact snapLights_alookup gs.scene.objects [] o hondup ho hl
  -- the object's identity survives activation
  have hskel := activate_getObj_skel gs mode ident o.name
  have hobj0 : gs.scene.getObj o.name = some o :=
    getObj_of_mem_nodup gs.scene.objects hondup ho
  rw [hobj0] at hskel
  cases hobj1 : (activate gs mode ident).scene.getObj o.name with
  | none => rw [hobj1] at hskel; exact absurd hskel (by simp)
  | some o₁ =>
    rw [hobj1] at hskel
    dsimp only [Option.map_some'] at hskel
    have hsk := Option.some.inj hskel
    have hn1 : o₁.name = o.name := congrArg (fun p => p.1) hsk
    have ht1 : o₁.otype = o.otype := congrArg (fun p => p.2.1) hsk
    have hs1 : o₁.material_slots = o.material_slots :=
      congrArg (fun p => p.2.2) hsk
    rw [deactivate_scene]
    have hfinal := deactFold_getObj_write o.name o.hide_viewport o.hide_render
      (activate gs mode ident).iso.backup (activate gs mode ident).scene o₁
      (by rw [activate_iso_backup]
          exact snapEnv_keys_nodup _ _ (snapEmissives_keys_nodup _ _ _
            (snapLights_keys_nodup _ [] (by simp))))
      halk hp hobj1 (by rw [ht1]; exact hl)
    rw [hfinal, hn1, ht1, hs1]

theorem firstOfType_updateFirstWhere_ne (nt : NodeTree) (T T' : NType)
    (f : Node → Node) (hftype : ∀ n, (f n).ntype = n.ntype) (hTT : T' ≠ T) :
    (nt.updateFirstWhere (fun n => n.ntype == T') f).firstOfType T =
      nt.firstOfType T := by
  unfold NodeTree.updateFirstWhere NodeTree.firstOfType
  simp only
  induction nt.nodes with
  | nil => simp [NodeTree.updateFirstWhere.go]
  | cons s t ih =>
    by_cases hp : s.ntype = T'
    · have h1 : (s.ntype == T') = true := by rw [hp]; exact beq_self_eq_true T'
      have h2 : ((f s).ntype == T) = false := by
        rw [hftype s, hp]; exact beq_eq_false_iff_ne.mpr hTT
      have h3 : (s.ntype == T) = false := by
        rw [hp]; exact beq_eq_false_iff_ne.mpr hTT
      simp [NodeTree.updateFirstWhere.go, List.find?, h1, h2, h3]
    · have h1 : (s.ntype == T') = false := beq_eq_false_iff_ne.mpr hp
      by_cases hT : s.ntype = T
      · have h2 : (s.ntype == T) = true := by rw [hT]; exact beq_self_eq_true T
        simp [NodeTree.updateFirstWhere.go, List.find?, h1, h2]
      · have h2 : (s.ntype == T) = false := beq_eq_false_iff_ne.mpr hT
        simpa [NodeTree.updateFirstWhere.go, List.find?, h1, h2] using ih

theorem treeWorldInput_update (nt : NodeTree) (name name' : String)
    (f : Socket → Socket) (hf : ∀ s, (f s).name = s.name) :
    treeWorldInput (nt.updateFirstWhere (fun n => n.ntype == NType.OUTPUT_WORLD)
      (fun n => n.updateInput name f)) name' =
      if name = name' then (treeWorldInput nt name').map f
      else treeWorldInput nt name' := by
  unfold treeWorldInput
  rw [firstOfType_updateFirstWhere nt NType.OUTPUT_WORLD _
    (fun n => Node.updateInput_ntype n _ _)]
  cases hfo : nt.firstOfType NType.OUTPUT_WORLD with
  | none =>
    by_cases h : name = name'
    · rw [if_pos h]; rfl
    · rw [if_neg h]; rfl
  | some output =>
    dsimp only [Option.map_some']
    rw [Node.getInput_updateInput output name name' f hf]
    by_cases h : name = name'
    · rw [if_pos h, if_pos h]
      rw [← h]
    · rw [if_neg h, if_neg h]

theorem srcOK_updateFirstWhere (nt : NodeTree) (p : Node → Bool)
    (x : String) (f : Socket → Socket) (y o : String)
    (h : ∃ q, nt.getNode y = some q ∧ q.hasOutput o = true) :
    ∃ q, (nt.updateFirstWhere p (fun n => n.updateInput x f)).getNode y =
      some q ∧ q.hasOutput o = true := by
  obtain ⟨q, hq, ho⟩ := h
  rcases getNode_updateFirstWhere_or nt p (fun n => n.updateInput x f) y
    (fun n => Node.updateInput_name n _ _) with h1 | h1
  · exact ⟨q, by rw [h1]; exact hq, ho⟩
  · refine ⟨q.updateInput x f, by rw [h1, hq]; rfl, ?_⟩
    rw [hasOutput_update]
    exact ho

theorem relinkEnv_of_linked (nt : NodeTree) (name : String) (l : LinkRef)
    (output : Node) (sock : Socket)
    (h1 : nt.firstOfType NType.OUTPUT_WORLD = some output)
    (h2 : output.getInput name = some sock)
    (h3 : sock.is_linked = true) :
    relinkEnv nt name l = nt := by
  unfold relinkEnv
  rw [h1]
  cases hfn : nt.getNode l.1 with
  | none => rfl
  | some fromNode =>
    dsimp only
    by_cases hout : fromNode.hasOutput l.2
    · rw [if_pos hout, h2]
      dsimp only
      rw [if_pos h3]
    · rw [if_neg hout]

theorem relinkEnv_unlinked (nt : NodeTree) (name : String) (l : LinkRef)
    (output : Node) (sock : Socket)
    (h1 : nt.firstOfType NType.OUTPUT_WORLD = some output)
    (h2 : output.getInput name = some sock)
    (h3 : sock.links = [])
    (h4 : ∃ q, nt.getNode l.1 = some q ∧ q.hasOutput l.2 = true) :
    relinkEnv nt name l =
      nt.updateFirstWhere (fun n => n.ntype == NType.OUTPUT_WORLD)
        (fun n => n.updateInput name
          (fun s => { s with links := s.links ++ [l] })) := by
  obtain ⟨q, hq, ho⟩ := h4
  unfold relinkEnv
  rw [h1, hq]
  dsimp only
  rw [if_pos ho, h2]
  dsimp only
  rw [if_neg (by unfold Socket.is_linked; rw [h3]; simp)]

theorem relinkEnv_noinput (nt : NodeTree) (name : String) (l : LinkRef)
    (output : Node)
    (h1 : nt.firstOfType NType.OUTPUT_WORLD = some output)
    (h2 : output.getInput name = none) :
    relinkEnv nt name l = nt := by
  unfold relinkEnv
  rw [h1]
  cases hfn : nt.getNode l.1 with
  | none => rfl
  | some fromNode =>
    dsimp only
    by_cases hout : fromNode.hasOutput l.2
    · rw [if_pos hout, h2]
    · rw [if_neg hout]

theorem envOffStep_eval (nt : NodeTree) (bk : List (String × LinkRef))
    (name : String) :
    envOffStep (nt, bk) name =
      match treeWorldInput nt name with
      | none => (nt, bk)
      | some sock =>
        match sock.links with
        | [] => (nt, bk)
        | l :: _ =>
          (nt.updateFirstWhere (fun n => n.ntype == NType.OUTPUT_WORLD)
            (fun n => n.updateInput name
              (fun s => { s with links := s.links.tail })),
           upsert bk name l) := by
  unfold envOffStep treeWorldInput
  dsimp only
  cases hfo : nt.firstOfType NType.OUTPUT_WORLD with
  | none => rfl
  | some output => dsimp only

theorem step_twi_self (nt : NodeTree) (bk : List (String × LinkRef))
    (name : String) :
    treeWorldInput (envOffStep (nt, bk) name).1 name =
      (treeWorldInput nt name).map
        (fun s => { s with links := s.links.tail }) := by
  rw [envOffStep_eval]
  cases ht : treeWorldInput nt name with
  | none => dsimp only; exact ht
  | some sock =>
    cases hlk : sock.links with
    | nil =>
      dsimp only
      rw [hlk]
      dsimp only
      rw [ht]
      show some sock = some { sock with links := sock.links.tail }
      conv_rhs => rw [hlk]
      conv_rhs => rw [show List.tail ([] : List LinkRef) = sock.links from
        hlk.symm]
    | cons l rest =>
      dsimp only
      rw [hlk]
      dsimp only
      rw [treeWorldInput_update nt name name
        (fun s => { s with links := s.links.tail }) (fun s => rfl),
        if_pos rfl, ht]

theorem step_twi_other (nt : NodeTree) (bk : List (String × LinkRef))
    (name name' : String) (h : name ≠ name') :
    treeWorldInput (envOffStep (nt, bk) name).1 name' =
      treeWorldInput nt name' := by
  rw [envOffStep_eval]
  cases ht : treeWorldInput nt name with
  | none => rfl
  | some sock =>
    cases hlk : sock.links with
    | nil => dsimp only; rw [hlk]
    | cons l rest =>
      dsimp only
      rw [hlk]
      dsimp only
      rw [treeWorldInput_update nt name name'
        (fun s => { s with links := s.links.tail }) (fun s => rfl), if_neg h]

theorem step_fot (nt : NodeTree) (bk : List (String × LinkRef))
    (name : String) (output : Node)
    (hfo : nt.firstOfType NType.OUTPUT_WORLD = some output) :
    ∃ o', (envOffStep (nt, bk) name).1.firstOfType NType.OUTPUT_WORLD =
      some o' := by
  rw [envOffStep_eval]
  cases ht : treeWorldInput nt name with
  | none => exact ⟨output, hfo⟩
  | some sock =>
    cases hlk : sock.links with
    | nil => dsimp only; rw [hlk]; exact ⟨output, hfo⟩
    | cons l rest =>
      dsimp only
      rw [hlk]
      dsimp only
      rw [firstOfType_updateFirstWhere nt NType.OUTPUT_WORLD _
        (fun n => Node.updateInput_ntype n _ _), hfo]
      exact ⟨_, rfl⟩

theorem step_srcOK (nt : NodeTree) (bk : List (String × LinkRef))
    (name : String) (y o : String)
    (h : ∃ q, nt.getNode y = some q ∧ q.hasOutput o = true) :
    ∃ q, (envOffStep (nt, bk) name).1.getNode y = some q ∧
      q.hasOutput o = true := by
  rw [envOffStep_eval]
  cases ht : treeWorldInput nt name with
  | none => exact h
  | some sock =>
    cases hlk : sock.links with
    | nil => dsimp only; rw [hlk]; exact h
    | cons l rest =>
      dsimp only
      rw [hlk]
      dsimp only
      exact srcOK_updateFirstWhere nt _ name _ y o h

theorem step_bk (nt : NodeTree) (bk : List (String × LinkRef))
    (name : String) :
    (envOffStep (nt, bk) name).2 =
      match treeWorldInput nt name with
      | none => bk
      | some sock =>
        match sock.links with
        | [] => bk
        | l :: _ => upsert bk name l := by
  rw [envOffStep_eval]
  cases ht : treeWorldInput nt name with
  | none => rfl
  | some sock =>
    cases hlk : sock.links <;> (dsimp only; rw [hlk])
theorem worldSocketLinks_eq_twi (sc : Scene) (name : String) :
    worldSocketLinks sc name =
      match sc.world with
      | none => none
      | some w => (treeWorldInput w.node_tree name).map (fun s => s.links) := by
  unfold worldSocketLinks treeWorldInput
  cases sc.world with
  | none => rfl
  | some w =>
    dsimp only
    cases w.node_tree.firstOfType NType.OUTPUT_WORLD with
    | none => rfl
    | some output => rfl

theorem twi_inv (nt : NodeTree) (name : String) (sock : Socket)
    (h : treeWorldInput nt name = some sock) :
    ∃ output, nt.firstOfType NType.OUTPUT_WORLD = some output ∧
      output.getInput name = some sock := by
  unfold treeWorldInput at h
  cases hfo : nt.firstOfType NType.OUTPUT_WORLD with
  | none => rw [hfo] at h; exact absurd h (by simp)
  | some output => rw [hfo] at h; exact ⟨output, rfl, h⟩

theorem matBranchStep_world (ident : Option PyIdent) (bk : List (BKey × BVal))
    (sc : Scene) (t : Triple) :
    (matBranchStep ident bk sc t).world = sc.world := by
  unfold matBranchStep
  by_cases hid : ident = some (PyIdent.matKey t.2.1 t.2.2)
  · rw [if_pos hid]
    cases alookup bk (BKey.pair t.2.1 t.2.2) with
    | none => rfl
    | some v => cases v <;> rfl
  · rw [if_neg hid]

theorem matBranchFold_world (ident : Option PyIdent) (bk : List (BKey × BVal)) :
    ∀ (trips : List Triple) (sc : Scene),
    (trips.foldl (matBranchStep ident bk) sc).world = sc.world := by
  intro trips
  induction trips with
  | nil => intro sc; rfl
  | cons t r ih => intro sc; rw [List.foldl_cons, ih, matBranchStep_world]

theorem activate_world_nonenv (gs : GState) (mode : Mode)
    (ident : Option PyIdent) (hm : mode ≠ Mode.ENVIRONMENT) :
    (activate gs mode ident).scene.world =
      (force_world gs.scene.world gs.onoff.env_backup).1 := by
  have hfw : (force_all_off gs.scene gs.onoff (some mode) ident).1.world =
      (force_world gs.scene.world gs.onoff.env_backup).1 := by
    rw [force_all_off_parts]
  cases mode with
  | LIGHT_GROUP => exact hfw
  | LIGHT_ROW => exact hfw
  | MATERIAL => exact Eq.trans (matBranchFold_world ident _ _ _) hfw
  | ENVIRONMENT => exact absurd rfl hm
  | MATERIAL_GROUP => exact hfw
  | ENVIRONMENT_SURFACE => exact hfw
  | ENVIRONMENT_VOLUME => exact hfw

theorem activate_world_env (gs : GState) (ident : Option PyIdent) :
    (activate gs Mode.ENVIRONMENT ident).scene =
      envBranch
        (force_all_off gs.scene gs.onoff (some Mode.ENVIRONMENT) ident).1
        (snapEnv gs.scene.world (snapEmissives gs.scene
          (find_emissive_objects gs.scene gs.cache none).1
          (snapLights gs.scene.objects []))) := rfl

theorem force_world_none (bk : List (String × LinkRef)) :
    force_world none bk = (none, bk) := rfl

theorem force_world_nouse (w : World) (bk : List (String × LinkRef))
    (hu : w.use_nodes = false) : force_world (some w) bk = (some w, bk) := by
  unfold force_world
  dsimp only
  rw [if_neg (by rw [hu]; exact Bool.false_ne_true)]

theorem force_world_noout (w : World) (bk : List (String × LinkRef))
    (hu : w.use_nodes = true)
    (hfo : w.node_tree.firstOfType NType.OUTPUT_WORLD = none) :
    force_world (some w) bk = (some w, bk) := by
  unfold force_world
  dsimp only
  rw [if_pos hu, hfo]

theorem force_world_eval (w : World) (bk : List (String × LinkRef))
    (output : Node) (hu : w.use_nodes = true)
    (hfo : w.node_tree.firstOfType NType.OUTPUT_WORLD = some output) :
    force_world (some w) bk =
      (some { w with node_tree :=
          (envOffStep (envOffStep (w.node_tree, bk) "Surface") "Volume").1 },
        (envOffStep (envOffStep (w.node_tree, bk) "Surface") "Volume").2) := by
  unfold force_world
  dsimp only
  rw [if_pos hu, hfo]
  dsimp only [List.foldl_cons, List.foldl_nil]

theorem snapEnv_nouse (w : World) (bk : List (BKey × BVal))
    (hu : w.use_nodes = false) : snapEnv (some w) bk = bk := by
  unfold snapEnv
  dsimp only
  rw [if_neg (by rw [hu]; exact Bool.false_ne_true)]

theorem snapEnv_noout (w : World) (bk : List (BKey × BVal))
    (hu : w.use_nodes = true)
    (hfo : w.node_tree.firstOfType NType.OUTPUT_WORLD = none) :
    snapEnv (some w) bk = bk := by
  unfold snapEnv
  dsimp only
  rw [if_pos hu, hfo]

theorem envBranch_id_none (sc : Scene) (bk : List (BKey × BVal))
    (h : sc.world = none) : envBranch sc bk = sc := by
  unfold envBranch
  rw [h]

theorem envBranch_id_nouse (sc : Scene) (bk : List (BKey × BVal)) (w : World)
    (h : sc.world = some w) (hu : w.use_nodes = false) :
    envBranch sc bk = sc := by
  unfold envBranch
  rw [h]
  dsimp only
  rw [if_neg (by rw [hu]; exact Bool.false_ne_true)]

theorem envBranch_id_noout (sc : Scene) (bk : List (BKey × BVal)) (w : World)
    (h : sc.world = some w) (hu : w.use_nodes = true)
    (hfo : w.node_tree.firstOfType NType.OUTPUT_WORLD = none) :
    envBranch sc bk = sc := by
  unfold envBranch
  rw [h]
  dsimp only
  rw [if_pos hu, hfo]

theorem envBranch_eval (sc : Scene) (bk : List (BKey × BVal)) (w : World)
    (o : Node) (hw : sc.world = some w) (hu : w.use_nodes = true)
    (hfo : w.node_tree.firstOfType NType.OUTPUT_WORLD = some o) :
    envBranch sc bk =
      { sc with world := some { w with node_tree := envRelinkStep bk (envRelinkStep bk w.node_tree "Surface") "Volume" } } := by
  unfold envBranch
  rw [hw]
  dsimp only
  rw [if_pos hu, hfo]
  dsimp only [List.foldl_cons, List.foldl_nil]
  rfl

theorem strStartsWith_append (p s : String) :
    strStartsWith (p ++ s) p = true := by
  unfold strStartsWith
  rw [String.data_append]
  exact List.isPrefixOf_iff_prefix.mpr (List.prefix_append _ _)

theorem alookup_single_ne {α β : Type} [DecidableEq α] (k k' : α) (v : β)
    (h : k ≠ k') : alookup [(k, v)] k' = none := by
  unfold alookup
  rw [List.find?_cons_of_neg]
  · rfl
  · simpa using h

theorem b2_fresh_env (sc : Scene) (trips : List Triple)
    (hpre : ∀ o ∈ sc.objects, strStartsWith o.name "env_link_" = false)
    (nm : String) :
    alookup (snapEmissives sc trips (snapLights sc.objects []))
      (BKey.str ("env_link_" ++ nm)) = none := by
  rw [snapEmissives_alookup_str]
  rw [snapLights_alookup_ne]
  · rfl
  · intro o ho heq
    have h2 : o.name = "env_link_" ++ nm := by injection heq
    have h3 := hpre o ho
    rw [h2, strStartsWith_append] at h3
    exact absurd h3 (by decide)

theorem b2_no_link (sc : Scene) (trips : List Triple)
    (r : BKey × BVal)
    (hr : r ∈ snapEmissives sc trips (snapLights sc.objects [])) :
    ∀ l, r.2 ≠ BVal.linkRef l := by
  intro l
  rcases snapEmissives_mem trips sc _ r hr with h1 | ⟨m, n, v, h1⟩
  · rcases snapLights_mem sc.objects [] r h1 with h2 | ⟨o, _, h2⟩
    · exact absurd h2 (List.not_mem_nil r)
    · rw [h2]; simp
  · rw [h1]; simp

theorem deactFold_world_nolink :
    ∀ (L : List (BKey × BVal)) (sc : Scene),
    (∀ r ∈ L, ∀ l, r.2 ≠ BVal.linkRef l) →
    (L.foldl deactStep sc).world = sc.world := by
  intro L
  induction L with
  | nil => intro sc _; rfl
  | cons e t ih =>
    intro sc h
    rw [List.foldl_cons, ih _ (fun r hr => h r (List.mem_cons_of_mem e hr)),
      deactStep_world_of_not_link sc e (h e (List.mem_cons_self e t))]

theorem snapEnv_alookup_name (w : World) (output : Node)
    (bk : List (BKey × BVal)) (hu : w.use_nodes = true)
    (hfo : w.node_tree.firstOfType NType.OUTPUT_WORLD = some output)
    (name : String) (hn : name = "Surface" ∨ name = "Volume")
    (hfr : ∀ nm, alookup bk (BKey.str ("env_link_" ++ nm)) = none) :
    alookup (snapEnv (some w) bk) (BKey.str ("env_link_" ++ name)) =
      Option.map BVal.linkRef (headLink output name) := by
  rw [snapEnv_eval w output bk hu hfo]
  have hcoreS : alookup
      (match output.getInput "Surface" with
        | none => bk
        | some sock => match sock.links with
          | [] => bk
          | l :: _ =>
            upsert bk (BKey.str ("env_link_" ++ "Surface")) (BVal.linkRef l))
      (BKey.str ("env_link_" ++ "Surface")) =
      Option.map BVal.linkRef (headLink output "Surface") := by
    unfold headLink
    cases hgS : output.getInput "Surface" with
    | none => exact hfr "Surface"
    | some sock =>
      dsimp only
      cases hlk : sock.links with
      | nil => exact hfr "Surface"
      | cons l rest => exact alookup_upsert_self bk _ _
  have hpassV : ∀ nm, alookup
      (match output.getInput "Surface" with
        | none => bk
        | some sock => match sock.links with
          | [] => bk
          | l :: _ =>
            upsert bk (BKey.str ("env_link_" ++ "Surface")) (BVal.linkRef l))
      (BKey.str ("env_link_" ++ nm)) =
      alookup bk (BKey.str ("env_link_" ++ nm)) ∨ nm = "Surface" := by
    intro nm
    by_cases hS : nm = "Surface"
    · right; exact hS
    · left
      cases hgS : output.getInput "Surface" with
      | none => rfl
      | some sock =>
        dsimp only
        cases hlk : sock.links with
        | nil => rfl
        | cons l rest =>
          refine alookup_upsert_ne bk _ _ _ ?_
          intro hh
          apply hS
          have hh2 : "env_link_" ++ nm = "env_link_" ++ "Surface" := by
            injection hh
          have hh3 := congrArg String.data hh2
          rw [String.data_append, String.data_append] at hh3
          exact String.ext (List.append_cancel_left hh3)
  rcases hn with rfl | rfl
  · cases hgV : output.getInput "Volume" with
    | none => exact hcoreS
    | some sockV =>
      dsimp only
      cases hlkV : sockV.links with
      | nil => exact hcoreS
      | cons lV restV =>
        rw [alookup_upsert_ne _ _ _ _ (by decide)]
        exact hcoreS
  · cases hgV : output.getInput "Volume" with
    | none =>
      unfold headLink
      rw [hgV]
      rcases hpassV "Volume" with h1 | h1
      · rw [h1]; exact hfr "Volume"
      · exact absurd h1 (by decide)
    | some sockV =>
      dsimp only
      cases hlkV : sockV.links with
      | nil =>
        unfold headLink
        rw [hgV]
        dsimp only
        rw [hlkV]
        rcases hpassV "Volume" with h1 | h1
        · rw [h1]; exact hfr "Volume"
        · exact absurd h1 (by decide)
      | cons lV restV =>
        unfold headLink
        rw [hgV]
        dsimp only
        rw [hlkV]
        exact alookup_upsert_self _ _ _

theorem snapEnv_decomp (w : World) (output : Node) (bk : List (BKey × BVal))
    (hu : w.use_nodes = true)
    (hfo : w.node_tree.firstOfType NType.OUTPUT_WORLD = some output)
    (hfr : ∀ nm, alookup bk (BKey.str ("env_link_" ++ nm)) = none) :
    snapEnv (some w) bk =
      bk ++ recListOf "Surface" (headLink output "Surface")
         ++ recListOf "Volume" (headLink output "Volume") := by
  rw [snapEnv_eval w output bk hu hfo]
  have hB1 : (match output.getInput "Surface" with
      | none => bk
      | some sock => match sock.links with
        | [] => bk
        | l :: _ =>
          upsert bk (BKey.str ("env_link_" ++ "Surface")) (BVal.linkRef l)) =
      bk ++ recListOf "Surface" (headLink output "Surface") := by
    unfold headLink
    cases hgS : output.getInput "Surface" with
    | none => exact (List.append_nil bk).symm
    | some sock =>
      dsimp only
      cases hlk : sock.links with
      | nil => exact (List.append_nil bk).symm
      | cons l rest => exact upsert_append bk _ _ (hfr "Surface")
  cases hgV : output.getInput "Volume" with
  | none =>
    rw [hB1, show recListOf "Volume" (headLink output "Volume") = []
      from by unfold headLink; rw [hgV]; rfl, List.append_nil]
  | some sockV =>
    dsimp only
    cases hlkV : sockV.links with
    | nil =>
      rw [hB1, show recListOf "Volume" (headLink output "Volume") = []
        from by unfold headLink; rw [hgV]; dsimp only; rw [hlkV]; rfl,
        List.append_nil]
    | cons lV restV =>
      dsimp only
      rw [hB1]
      rw [upsert_append _ _ _ (by
        rw [alookup_append_left_none bk _ _ (hfr "Volume")]
        cases hd : headLink output "Surface" with
        | none => rfl
        | some lS => exact alookup_single_ne _ _ _ (by decide))]
      rw [show recListOf "Volume" (headLink output "Volume") =
        [(BKey.str ("env_link_" ++ "Volume"), BVal.linkRef lV)]
        from by unfold headLink; rw [hgV]; dsimp only; rw [hlkV]; rfl]

theorem deactStep_env (sc : Scene) (w : World) (k : String) (name : String)
    (l : LinkRef) (hw : sc.world = some w) (hu : w.use_nodes = true)
    (hk : strStartsWith k "env_link_" = true)
    (hdel : strDeleteAll k "env_link_" = name) :
    deactStep sc (BKey.str k, BVal.linkRef l) =
      { sc with world := some { w with node_tree := relinkEnv w.node_tree name l } } := by
  unfold deactStep
  dsimp only
  rw [if_pos hk, hw]
  dsimp only
  rw [if_pos hu, hdel]

theorem deactFold_envRec (sc : Scene) (w : World) (name : String)
    (rec : Option LinkRef) (hw : sc.world = some w) (hu : w.use_nodes = true)
    (hk : strStartsWith ("env_link_" ++ name) "env_link_" = true)
    (hdel : strDeleteAll ("env_link_" ++ name) "env_link_" = name) :
    (recListOf name rec).foldl deactStep sc =
      { sc with world := some { w with node_tree := relinkOpt w.node_tree name rec } } := by
  cases rec with
  | none =>
    show sc = { sc with world := some { w with node_tree := w.node_tree } }
    rw [← hw]
  | some l =>
    show deactStep sc (BKey.str ("env_link_" ++ name), BVal.linkRef l) = _
    exact deactStep_env sc w _ name l hw hu hk hdel

theorem relinkEnv_twi_other (nt : NodeTree) (name name' : String)
    (l : LinkRef) (h : name ≠ name') :
    treeWorldInput (relinkEnv nt name l) name' = treeWorldInput nt name' := by
  unfold relinkEnv
  cases hfo : nt.firstOfType NType.OUTPUT_WORLD with
  | none => rfl
  | some output =>
    dsimp only
    cases hfn : nt.getNode l.1 with
    | none => rfl
    | some fromNode =>
      dsimp only
      by_cases hout : fromNode.hasOutput l.2
      · rw [if_pos hout]
        cases hgi : output.getInput name with
        | none => rfl
        | some sock =>
          dsimp only
          by_cases hl : sock.is_linked
          · rw [if_pos hl]
          · rw [if_neg hl]
            rw [treeWorldInput_update nt name name'
              (fun s => { s with links := s.links ++ [l] }) (fun s => rfl),
              if_neg h]
      · rw [if_neg hout]

theorem relinkEnv_twi_restore (nt : NodeTree) (name : String) (l : LinkRef)
    (sock : Socket) (htwi : treeWorldInput nt name = some sock)
    (hlk : sock.links = [])
    (hsrc : ∃ q, nt.getNode l.1 = some q ∧ q.hasOutput l.2 = true) :
    treeWorldInput (relinkEnv nt name l) name =
      some ⟨sock.name, sock.value, [l]⟩ := by
  obtain ⟨output, hfo, hgi⟩ := twi_inv nt name sock htwi
  rw [relinkEnv_unlinked nt name l output sock hfo hgi hlk hsrc]
  rw [treeWorldInput_update nt name name
    (fun s => { s with links := s.links ++ [l] }) (fun s => rfl),
    if_pos rfl, htwi]
  dsimp only [Option.map_some']
  rw [hlk]
  rfl

theorem relinkEnv_srcOK (nt : NodeTree) (name : String) (l : LinkRef)
    (y o : String)
    (h : ∃ q, nt.getNode y = some q ∧ q.hasOutput o = true) :
    ∃ q, (relinkEnv nt name l).getNode y = some q ∧
      q.hasOutput o = true := by
  unfold relinkEnv
  cases hfo : nt.firstOfType NType.OUTPUT_WORLD with
  | none => exact h
  | some output =>
    dsimp only
    cases hfn : nt.getNode l.1 with
    | none => exact h
    | some fromNode =>
      dsimp only
      by_cases hout : fromNode.hasOutput l.2
      · rw [if_pos hout]
        cases hgi : output.getInput name with
        | none => exact h
        | some sock =>
          dsimp only
          by_cases hl : sock.is_linked
          · rw [if_pos hl]; exact h
          · rw [if_neg hl]
            exact srcOK_updateFirstWhere nt _ name _ y o h
      · rw [if_neg hout]; exact h

theorem relinkOpt_other (nt : NodeTree) (name name' : String)
    (rec : Option LinkRef) (h : name ≠ name') :
    treeWorldInput (relinkOpt nt name rec) name' = treeWorldInput nt name' := by
  cases rec with
  | none => rfl
  | some l => exact relinkEnv_twi_other nt name name' l h

theorem relinkOpt_srcOK (nt : NodeTree) (name : String) (rec : Option LinkRef)
    (y o : String)
    (h : ∃ q, nt.getNode y = some q ∧ q.hasOutput o = true) :
    ∃ q, (relinkOpt nt name rec).getNode y = some q ∧
      q.hasOutput o = true := by
  cases rec with
  | none => exact h
  | some l => exact relinkEnv_srcOK nt name l y o h

theorem envRelinkStep_eq_opt (bk : List (BKey × BVal)) (nt : NodeTree)
    (name : String) (rec : Option LinkRef)
    (h : alookup bk (BKey.str ("env_link_" ++ name)) =
      Option.map BVal.linkRef rec) :
    envRelinkStep bk nt name = relinkOpt nt name rec := by
  unfold envRelinkStep relinkOpt
  cases rec with
  | none => rw [h]; rfl
  | some l => rw [h]; rfl

theorem stepP_twi_self (st : NodeTree × List (String × LinkRef))
    (name : String) :
    treeWorldInput (envOffStep st name).1 name =
      (treeWorldInput st.1 name).map
        (fun s => { s with links := s.links.tail }) :=
  step_twi_self st.1 st.2 name

theorem stepP_twi_other (st : NodeTree × List (String × LinkRef))
    (name name' : String) (h : name ≠ name') :
    treeWorldInput (envOffStep st name).1 name' =
      treeWorldInput st.1 name' :=
  step_twi_other st.1 st.2 name name' h

theorem stepP_fot (st : NodeTree × List (String × LinkRef))
    (name : String) (output : Node)
    (hfo : st.1.firstOfType NType.OUTPUT_WORLD = some output) :
    ∃ o', (envOffStep st name).1.firstOfType NType.OUTPUT_WORLD =
      some o' :=
  step_fot st.1 st.2 name output hfo

theorem stepP_srcOK (st : NodeTree × List (String × LinkRef))
    (name : String) (y o : String)
    (h : ∃ q, st.1.getNode y = some q ∧ q.hasOutput o = true) :
    ∃ q, (envOffStep st name).1.getNode y = some q ∧
      q.hasOutput o = true :=
  step_srcOK st.1 st.2 name y o h

theorem wf_world_socket (w : World) (output : Node) (sock : Socket)
    (name : String) (htw : treeWF w.node_tree)
    (hfo : w.node_tree.firstOfType NType.OUTPUT_WORLD = some output)
    (hgi : output.getInput name = some sock) :
    sock.links.length ≤ 1 ∧
      ∀ l ∈ sock.links, ∃ q, w.node_tree.getNode l.1 = some q ∧
        q.hasOutput l.2 = true := by
  obtain ⟨-, hnodes⟩ := htw
  have hmem : output ∈ w.node_tree.nodes := List.mem_of_find?_eq_some hfo
  have hsock : sock ∈ output.inputs := List.mem_of_find?_eq_some hgi
  exact (hnodes output hmem).1 sock hsock

theorem relinkOpt_ready_self (nt₀ : NodeTree) (output : Node) (name : String)
    (NT : NodeTree) (h : envReady nt₀ output name NT) :
    treeWorldInput (relinkOpt NT name (headLink output name)) name =
      treeWorldInput nt₀ name := by
  unfold envReady at h
  cases hhl : headLink output name with
  | none => rw [hhl] at h; exact h
  | some l =>
    rw [hhl] at h
    obtain ⟨sock, h0, hlk, hcur, hsrc⟩ := h
    show treeWorldInput (relinkEnv NT name l) name = _
    rcases hcur with hcur | hcur
    · obtain ⟨o', hfo', hgi'⟩ := twi_inv NT name sock hcur
      have hl : sock.is_linked = true := by
        unfold Socket.is_linked
        rw [hlk]
        rfl
      rw [relinkEnv_of_linked NT name l o' sock hfo' hgi' hl, hcur, h0]
    · have hres := relinkEnv_twi_restore NT name l ⟨sock.name, sock.value, []⟩
        hcur rfl hsrc
      rw [hres, h0]
      show some ⟨sock.name, sock.value, [l]⟩ = some sock
      rw [← hlk]

theorem relinkOpt_ready_self2 (nt₀ : NodeTree) (output : Node) (name : String)
    (NT : NodeTree) (h : envReady nt₀ output name NT) :
    envReady nt₀ output name (relinkOpt NT name (headLink output name)) := by
  have hres := relinkOpt_ready_self nt₀ output name NT h
  unfold envReady at h ⊢
  cases hhl : headLink output name with
  | none =>
    dsimp only
    rw [hhl] at hres
    exact hres
  | some l =>
    dsimp only
    rw [hhl] at h hres
    obtain ⟨sock, h0, hlk, hcur, hsrc⟩ := h
    refine ⟨sock, h0, hlk, Or.inl (by rw [hres, h0]), ?_⟩
    exact relinkOpt_srcOK NT name (some l) l.1 l.2 hsrc

theorem relinkOpt_ready_other (nt₀ : NodeTree) (output : Node) (name : String)
    (NT : NodeTree) (name' : String) (rec : Option LinkRef)
    (hne : name' ≠ name) (h : envReady nt₀ output name NT) :
    envReady nt₀ output name (relinkOpt NT name' rec) := by
  unfold envReady at h ⊢
  cases hhl : headLink output name with
  | none =>
    dsimp only
    rw [hhl] at h
    rw [relinkOpt_other NT name' name rec hne]
    exact h
  | some l =>
    dsimp only
    rw [hhl] at h
    obtain ⟨sock, h0, hlk, hcur, hsrc⟩ := h
    refine ⟨sock, h0, hlk, ?_, relinkOpt_srcOK NT name' rec l.1 l.2 hsrc⟩
    rw [relinkOpt_other NT name' name rec hne]
    exact hcur

theorem envReady_after_force (w : World) (output : Node)
    (eb : List (String × LinkRef)) (htw : treeWF w.node_tree)
    (hfo : w.node_tree.firstOfType NType.OUTPUT_WORLD = some output)
    (name : String) (hn : name = "Surface" ∨ name = "Volume") :
    envReady w.node_tree output name
      (envOffStep (envOffStep (w.node_tree, eb) "Surface") "Volume").1 := by
  have htwi0 : treeWorldInput w.node_tree name = output.getInput name := by
    unfold treeWorldInput
    rw [hfo]
  have hF1 : treeWorldInput
      (envOffStep (envOffStep (w.node_tree, eb) "Surface") "Volume").1 name =
      (treeWorldInput w.node_tree name).map
        (fun s => { s with links := s.links.tail }) := by
    rcases hn with rfl | rfl
    · rw [stepP_twi_other _ "Volume" "Surface" (by decide)]
      exact step_twi_self w.node_tree eb "Surface"
    · rw [stepP_twi_self _ "Volume"]
      rw [step_twi_other w.node_tree eb "Surface" "Volume" (by decide)]
  unfold envReady
  cases hhl : headLink output name with
  | none =>
    dsimp only
    rw [hF1, htwi0]
    unfold headLink at hhl
    cases hgi : output.getInput name with
    | none => rfl
    | some sock =>
      rw [hgi] at hhl
      dsimp only at hhl
      obtain ⟨snm, sv, slk⟩ := sock
      have hhl2 : slk.head? = none := hhl
      cases slk with
      | nil => rfl
      | cons a t =>
        rw [List.head?_cons] at hhl2
        exact absurd hhl2 (Option.some_ne_none a)
  | some l =>
    dsimp only
    unfold headLink at hhl
    cases hgi : output.getInput name with
    | none => rw [hgi] at hhl; exact Option.noConfusion hhl
    | some sock =>
      rw [hgi] at hhl
      dsimp only at hhl
      have hWF := wf_world_socket w output sock name htw hfo hgi
      obtain ⟨snm, sv, slk⟩ := sock
      have hhl2 : slk.head? = some l := hhl
      cases slk with
      | nil =>
        rw [List.head?_nil] at hhl2
        exact Option.noConfusion hhl2
      | cons a t =>
        have ha : a = l := by
          rw [List.head?_cons] at hhl2
          exact Option.some.inj hhl2
        subst ha
        have ht : t = [] := List.eq_nil_of_length_eq_zero
          (Nat.le_zero.mp (Nat.succ_le_succ_iff.mp hWF.1))
        subst ht
        refine ⟨⟨snm, sv, [a]⟩, by rw [htwi0, hgi], rfl, Or.inr ?_, ?_⟩
        · rw [hF1, htwi0, hgi]
          rfl
        · have hsrc0 := hWF.2 a (List.mem_cons_self a [])
          exact stepP_srcOK _ "Volume" a.1 a.2
            (stepP_srcOK _ "Surface" a.1 a.2 hsrc0)

theorem roundtrip_world_trivial (gs : GState) (mode : Mode)
    (ident : Option PyIdent)
    (htriv : gs.scene.world = none ∨ ∃ w, gs.scene.world = some w ∧
      (w.use_nodes = false ∨
        w.node_tree.firstOfType NType.OUTPUT_WORLD = none)) :
    (deactivate (activate gs mode ident)).scene.world = gs.scene.world := by
  have hb3 : (activate gs mode ident).iso.backup =
      snapEmissives gs.scene (find_emissive_objects gs.scene gs.cache none).1
        (snapLights gs.scene.objects []) := by
    rw [activate_iso_backup]
    rcases htriv with h | ⟨w, hw, hw2⟩
    · rw [h]; rfl
    · rcases hw2 with hu | hfo
      · rw [hw, snapEnv_nouse _ _ hu]
      · by_cases hu : w.use_nodes = true
        · rw [hw, snapEnv_noout _ _ hu hfo]
        · rw [hw, snapEnv_nouse _ _ (by revert hu; cases w.use_nodes <;> simp)]
  have hforce : (force_world gs.scene.world gs.onoff.env_backup).1 =
      gs.scene.world := by
    rcases htriv with h | ⟨w, hw, hw2⟩
    · rw [h]; rfl
    · rcases hw2 with hu | hfo
      · rw [hw, force_world_nouse _ _ hu]
      · by_cases hu : w.use_nodes = true
        · rw [hw, force_world_noout _ _ hu hfo]
        · rw [hw, force_world_nouse _ _ (by revert hu; cases w.use_nodes <;> simp)]
  have hworldA : (activate gs mode ident).scene.world = gs.scene.world := by
    by_cases hm : mode = Mode.ENVIRONMENT
    · subst hm
      have hs1w : (force_all_off gs.scene gs.onoff (some Mode.ENVIRONMENT)
          ident).1.world = gs.scene.world := by
        rw [force_all_off_parts]
        exact hforce
      rw [activate_world_env]
      rcases htriv with h | ⟨w, hw, hw2⟩
      · rw [envBranch_id_none _ _ (by rw [hs1w, h])]
        exact hs1w
      · rcases hw2 with hu | hfo
        · rw [envBranch_id_nouse _ _ w (by rw [hs1w, hw]) hu]
          exact hs1w
        · by_cases hu : w.use_nodes = true
          · rw [envBranch_id_noout _ _ w (by rw [hs1w, hw]) hu hfo]
            exact hs1w
          · rw [envBranch_id_nouse _ _ w (by rw [hs1w, hw])
              (by revert hu; cases w.use_nodes <;> simp)]
            exact hs1w
    · rw [activate_world_nonenv gs mode ident hm]
      exact hforce
  rw [deactivate_scene, hb3]
  rw [deactFold_world_nolink _ _ (fun r hr => b2_no_link gs.scene _ r hr)]
  exact hworldA

theorem step_bg (nt : NodeTree) (bk : List (String × LinkRef))
    (name : String) :
    (envOffStep (nt, bk) name).1.firstOfType NType.BACKGROUND =
      nt.firstOfType NType.BACKGROUND := by
  rw [envOffStep_eval]
  cases ht : treeWorldInput nt name with
  | none => rfl
  | some sock =>
    cases hlk : sock.links with
    | nil => dsimp only; rw [hlk]
    | cons l rest =>
      dsimp only
      rw [hlk]
      dsimp only
      exact firstOfType_updateFirstWhere_ne nt NType.BACKGROUND
        NType.OUTPUT_WORLD _ (fun n => Node.updateInput_ntype n _ _)
        (by decide)

theorem stepP_bg (st : NodeTree × List (String × LinkRef)) (name : String) :
    (envOffStep st name).1.firstOfType NType.BACKGROUND =
      st.1.firstOfType NType.BACKGROUND :=
  step_bg st.1 st.2 name

theorem relinkEnv_bg (nt : NodeTree) (name : String) (l : LinkRef) :
    (relinkEnv nt name l).firstOfType NType.BACKGROUND =
      nt.firstOfType NType.BACKGROUND := by
  unfold relinkEnv
  cases hfo : nt.firstOfType NType.OUTPUT_WORLD with
  | none => rfl
  | some output =>
    dsimp only
    cases hfn : nt.getNode l.1 with
    | none => rfl
    | some fromNode =>
      dsimp only
      by_cases hout : fromNode.hasOutput l.2
      · rw [if_pos hout]
        cases hgi : output.getInput name with
        | none => rfl
        | some sock =>
          dsimp only
          by_cases hl : sock.is_linked
          · rw [if_pos hl]
          · rw [if_neg hl]
            exact firstOfType_updateFirstWhere_ne nt NType.BACKGROUND
              NType.OUTPUT_WORLD _ (fun n => Node.updateInput_ntype n _ _)
              (by decide)
      · rw [if_neg hout]

theorem relinkOpt_bg (nt : NodeTree) (name : String) (rec : Option LinkRef) :
    (relinkOpt nt name rec).firstOfType NType.BACKGROUND =
      nt.firstOfType NType.BACKGROUND := by
  cases rec with
  | none => rfl
  | some l => exact relinkEnv_bg nt name l

theorem activate_world_shape (gs : GState) (mode : Mode)
    (ident : Option PyIdent) (hwf : gs.scene.WF) (w : World) (output : Node)
    (hw : gs.scene.world = some w) (hu : w.use_nodes = true)
    (hfo : w.node_tree.firstOfType NType.OUTPUT_WORLD = some output) :
    ∃ NTA, (activate gs mode ident).scene.world =
        some { w with node_tree := NTA } ∧
      envReady w.node_tree output "Surface" NTA ∧
      envReady w.node_tree output "Volume" NTA ∧
      NTA.firstOfType NType.BACKGROUND =
        w.node_tree.firstOfType NType.BACKGROUND := by
  obtain ⟨-, -, hpre, -, hwtree⟩ := hwf
  have htw : treeWF w.node_tree := hwtree w hw
  have hfr : ∀ nm, alookup
      (snapEmissives gs.scene (find_emissive_objects gs.scene gs.cache none).1
        (snapLights gs.scene.objects []))
      (BKey.str ("env_link_" ++ nm)) = none :=
    b2_fresh_env gs.scene _ hpre
  have hreadyS : envReady w.node_tree output "Surface"
      (envOffStep (envOffStep (w.node_tree, gs.onoff.env_backup) "Surface")
        "Volume").1 :=
    envReady_after_force w output gs.onoff.env_backup htw hfo "Surface"
      (Or.inl rfl)
  have hreadyV : envReady w.node_tree output "Volume"
      (envOffStep (envOffStep (w.node_tree, gs.onoff.env_backup) "Surface")
        "Volume").1 :=
    envReady_after_force w output gs.onoff.env_backup htw hfo "Volume"
      (Or.inr rfl)
  have hfot2 : ∃ o', (envOffStep (envOffStep (w.node_tree,
      gs.onoff.env_backup) "Surface") "Volume").1.firstOfType
      NType.OUTPUT_WORLD = some o' := by
    obtain ⟨o1, h1⟩ :=
      stepP_fot (w.node_tree, gs.onoff.env_backup) "Surface" output hfo
    exact stepP_fot _ "Volume" o1 h1
  have hbg2 : (envOffStep (envOffStep (w.node_tree, gs.onoff.env_backup)
      "Surface") "Volume").1.firstOfType NType.BACKGROUND =
      w.node_tree.firstOfType NType.BACKGROUND := by
    rw [stepP_bg _ "Volume", step_bg w.node_tree gs.onoff.env_backup
      "Surface"]
  by_cases hm : mode = Mode.ENVIRONMENT
  · subst hm
    obtain ⟨o2, ho2⟩ := hfot2
    have hs1w : (force_all_off gs.scene gs.onoff (some Mode.ENVIRONMENT)
        ident).1.world = some { w with node_tree :=
        (envOffStep (envOffStep (w.node_tree, gs.onoff.env_backup)
          "Surface") "Volume").1 } := by
      rw [force_all_off_parts]
      show (force_world gs.scene.world gs.onoff.env_backup).1 = _
      rw [hw, force_world_eval w _ output hu hfo]
    have halo : ∀ name, name = "Surface" ∨ name = "Volume" →
        alookup (snapEnv gs.scene.world (snapEmissives gs.scene
          (find_emissive_objects gs.scene gs.cache none).1
          (snapLights gs.scene.objects [])))
          (BKey.str ("env_link_" ++ name)) =
          Option.map BVal.linkRef (headLink output name) := by
      intro name hn
      rw [hw]
      exact snapEnv_alookup_name w output _ hu hfo name hn hfr
    rw [activate_world_env]
    rw [envBranch_eval _ _ { w with node_tree :=
      (envOffStep (envOffStep (w.node_tree, gs.onoff.env_backup)
        "Surface") "Volume").1 } o2 hs1w hu ho2]
    rw [envRelinkStep_eq_opt _ _ "Surface" (headLink output "Surface")
      (halo "Surface" (Or.inl rfl))]
    rw [envRelinkStep_eq_opt _ _ "Volume" (headLink output "Volume")
      (halo "Volume" (Or.inr rfl))]
    refine ⟨relinkOpt (relinkOpt
      (envOffStep (envOffStep (w.node_tree, gs.onoff.env_backup)
        "Surface") "Volume").1
      "Surface" (headLink output "Surface")) "Volume"
      (headLink output "Volume"), rfl, ?_, ?_, ?_⟩
    · exact relinkOpt_ready_other w.node_tree output "Surface" _ "Volume"
        (headLink output "Volume") (by decide)
        (relinkOpt_ready_self2 w.node_tree output "Surface" _ hreadyS)
    · exact relinkOpt_ready_self2 w.node_tree output "Volume" _
        (relinkOpt_ready_other w.node_tree output "Volume" _ "Surface"
          (headLink output "Surface") (by decide) hreadyV)
    · rw [relinkOpt_bg, relinkOpt_bg]
      exact hbg2
  · refine ⟨(envOffStep (envOffStep (w.node_tree, gs.onoff.env_backup)
      "Surface") "Volume").1, ?_, hreadyS, hreadyV, hbg2⟩
    rw [activate_world_nonenv gs mode ident hm, hw,
      force_world_eval w _ output hu hfo]

theorem roundtrip_world_main (gs : GState) (mode : Mode)
    (ident : Option PyIdent) (hwf : gs.scene.WF) (w : World) (output : Node)
    (hw : gs.scene.world = some w) (hu : w.use_nodes = true)
    (hfo : w.node_tree.firstOfType NType.OUTPUT_WORLD = some output) :
    ∃ NT, (deactivate (activate gs mode ident)).scene.world =
        some { w with node_tree := NT } ∧
      treeWorldInput NT "Surface" = treeWorldInput w.node_tree "Surface" ∧
      treeWorldInput NT "Volume" = treeWorldInput w.node_tree "Volume" ∧
      NT.firstOfType NType.BACKGROUND =
        w.node_tree.firstOfType NType.BACKGROUND := by
  obtain ⟨NTA, hAw, hAS, hAV, hAbg⟩ :=
    activate_world_shape gs mode ident hwf w output hw hu hfo
  obtain ⟨-, -, hpre, -, -⟩ := hwf
  have hfr : ∀ nm, alookup
      (snapEmissives gs.scene (find_emissive_objects gs.scene gs.cache none).1
        (snapLights gs.scene.objects []))
      (BKey.str ("env_link_" ++ nm)) = none :=
    b2_fresh_env gs.scene _ hpre
  have hb3 : (activate gs mode ident).iso.backup =
      (snapEmissives gs.scene (find_emissive_objects gs.scene gs.cache none).1
        (snapLights gs.scene.objects []))
      ++ recListOf "Surface" (headLink output "Surface")
      ++ recListOf "Volume" (headLink output "Volume") := by
    rw [activate_iso_backup, hw]
    exact snapEnv_decomp w output _ hu hfo hfr
  have hscBw : (List.foldl deactStep (activate gs mode ident).scene
      (snapEmissives gs.scene (find_emissive_objects gs.scene gs.cache none).1
        (snapLights gs.scene.objects []))).world =
      some { w with node_tree := NTA } := by
    rw [deactFold_world_nolink _ _ (fun r hr => b2_no_link gs.scene _ r hr),
      hAw]
  rw [deactivate_scene, hb3]
  rw [List.foldl_append, List.foldl_append]
  rw [deactFold_envRec _ { w with node_tree := NTA } "Surface"
    (headLink output "Surface") hscBw hu (by decide) (by decide)]
  rw [deactFold_envRec _ { w with node_tree := relinkOpt NTA "Surface" (headLink output "Surface") } "Volume"
    (headLink output "Volume") rfl hu (by decide) (by decide)]
  refine ⟨relinkOpt (relinkOpt NTA "Surface" (headLink output "Surface"))
    "Volume" (headLink output "Volume"), rfl, ?_, ?_, ?_⟩
  · rw [relinkOpt_other _ "Volume" "Surface" (headLink output "Volume")
      (by decide)]
    exact relinkOpt_ready_self w.node_tree output "Surface" NTA hAS
  · exact relinkOpt_ready_self w.node_tree output "Volume" _
      (relinkOpt_ready_other w.node_tree output "Volume" NTA "Surface"
        (headLink output "Surface") (by decide) hAV)
  · rw [relinkOpt_bg, relinkOpt_bg]
    exact hAbg

theorem c1_world (gs : GState) (mode : Mode) (ident : Option PyIdent)
    (hwf : gs.scene.WF) (n : String)
    (hn : n = "Surface" ∨ n = "Volume") :
    worldSocketLinks (deactivate (activate gs mode ident)).scene n =
      worldSocketLinks gs.scene n := by
  rw [worldSocketLinks_eq_twi, worldSocketLinks_eq_twi]
  cases hw : gs.scene.world with
  | none =>
    rw [roundtrip_world_trivial gs mode ident (Or.inl hw), hw]
  | some w =>
    by_cases hu : w.use_nodes = true
    · cases hfo : w.node_tree.firstOfType NType.OUTPUT_WORLD with
      | none =>
        rw [roundtrip_world_trivial gs mode ident
          (Or.inr ⟨w, hw, Or.inr hfo⟩), hw]
      | some output =>
        obtain ⟨NT, hNT, hS, hV, -⟩ :=
          roundtrip_world_main gs mode ident hwf w output hw hu hfo
        rw [hNT]
        dsimp only
        rcases hn with rfl | rfl
        · rw [hS]
        · rw [hV]
    · rw [roundtrip_world_trivial gs mode ident
        (Or.inr ⟨w, hw, Or.inl (by revert hu; cases w.use_nodes <;> simp)⟩),
        hw]

theorem activate_env_restored (gs : GState) (ident : Option PyIdent)
    (hwf : gs.scene.WF) (w : World) (output : Node)
    (hw : gs.scene.world = some w) (hu : w.use_nodes = true)
    (hfo : w.node_tree.firstOfType NType.OUTPUT_WORLD = some output) :
    ∃ NTA, (activate gs Mode.ENVIRONMENT ident).scene.world =
        some { w with node_tree := NTA } ∧
      treeWorldInput NTA "Surface" = treeWorldInput w.node_tree "Surface" ∧
      treeWorldInput NTA "Volume" = treeWorldInput w.node_tree "Volume" ∧
      NTA.firstOfType NType.BACKGROUND =
        w.node_tree.firstOfType NType.BACKGROUND := by
  obtain ⟨-, -, hpre, -, hwtree⟩ := hwf
  have htw : treeWF w.node_tree := hwtree w hw
  have hfr : ∀ nm, alookup
      (snapEmissives gs.scene (find_emissive_objects gs.scene gs.cache none).1
        (snapLights gs.scene.objects []))
      (BKey.str ("env_link_" ++ nm)) = none :=
    b2_fresh_env gs.scene _ hpre
  have hreadyS : envReady w.node_tree output "Surface"
      (envOffStep (envOffStep (w.node_tree, gs.onoff.env_backup) "Surface")
        "Volume").1 :=
    envReady_after_force w output gs.onoff.env_backup htw hfo "Surface"
      (Or.inl rfl)
  have hreadyV : envReady w.node_tree output "Volume"
      (envOffStep (envOffStep (w.node_tree, gs.onoff.env_backup) "Surface")
        "Volume").1 :=
    envReady_after_force w output gs.onoff.env_backup htw hfo "Volume"
      (Or.inr rfl)
  have hfot2 : ∃ o', (envOffStep (envOffStep (w.node_tree,
      gs.onoff.env_backup) "Surface") "Volume").1.firstOfType
      NType.OUTPUT_WORLD = some o' := by
    obtain ⟨o1, h1⟩ :=
      stepP_fot (w.node_tree, gs.onoff.env_backup) "Surface" output hfo
    exact stepP_fot _ "Volume" o1 h1
  have hbg2 : (envOffStep (envOffStep (w.node_tree, gs.onoff.env_backup)
      "Surface") "Volume").1.firstOfType NType.BACKGROUND =
      w.node_tree.firstOfType NType.BACKGROUND := by
    rw [stepP_bg _ "Volume", step_bg w.node_tree gs.onoff.env_backup
      "Surface"]
  obtain ⟨o2, ho2⟩ := hfot2
  have hs1w : (force_all_off gs.scene gs.onoff (some Mode.ENVIRONMENT)
      ident).1.world = some { w with node_tree :=
      (envOffStep (envOffStep (w.node_tree, gs.onoff.env_backup)
        "Surface") "Volume").1 } := by
    rw [force_all_off_parts]
    show (force_world gs.scene.world gs.onoff.env_backup).1 = _
    rw [hw, force_world_eval w _ output hu hfo]
  have halo : ∀ name, name = "Surface" ∨ name = "Volume" →
      alookup (snapEnv gs.scene.world (snapEmissives gs.scene
        (find_emissive_objects gs.scene gs.cache none).1
        (snapLights gs.scene.objects [])))
        (BKey.str ("env_link_" ++ name)) =
        Option.map BVal.linkRef (headLink output name) := by
    intro name hn
    rw [hw]
    exact snapEnv_alookup_name w output _ hu hfo name hn hfr
  rw [activate_world_env]
  rw [envBranch_eval _ _ { w with node_tree :=
    (envOffStep (envOffStep (w.node_tree, gs.onoff.env_backup)
      "Surface") "Volume").1 } o2 hs1w hu ho2]
  rw [envRelinkStep_eq_opt _ _ "Surface" (headLink output "Surface")
    (halo "Surface" (Or.inl rfl))]
  rw [envRelinkStep_eq_opt _ _ "Volume" (headLink output "Volume")
    (halo "Volume" (Or.inr rfl))]
  refine ⟨relinkOpt (relinkOpt
    (envOffStep (envOffStep (w.node_tree, gs.onoff.env_backup)
      "Surface") "Volume").1
    "Surface" (headLink output "Surface")) "Volume"
    (headLink output "Volume"), rfl, ?_, ?_, ?_⟩
  · rw [relinkOpt_other _ "Volume" "Surface" (headLink output "Volume")
      (by decide)]
    exact relinkOpt_ready_self w.node_tree output "Surface" _ hreadyS
  · exact relinkOpt_ready_self w.node_tree output "Volume" _
      (relinkOpt_ready_other w.node_tree output "Volume" _ "Surface"
        (headLink output "Surface") (by decide) hreadyV)
  · rw [relinkOpt_bg, relinkOpt_bg]
    exact hbg2

theorem bgsv_shape (sc : Scene) (w : World) (NT : NodeTree)
    (hw : sc.world = some { w with node_tree := NT })
    (hbg : NT.firstOfType NType.BACKGROUND =
      w.node_tree.firstOfType NType.BACKGROUND) :
    bgStrengthValue sc =
      match w.node_tree.firstOfType NType.BACKGROUND with
      | none => none
      | some bg => (bg.getInput "Strength").map (fun s => s.value) := by
  unfold bgStrengthValue
  rw [hw]
  dsimp only
  rw [hbg]

/-- C3 (amended): for every well-formed scene whose world has a Background
node and whose world output's Surface input is linked by exactly the edge
`l`, activating plain Environment mode leaves the Background strength
unchanged and the Surface link present (the environment branch re-creates
the link that `force_all_off` just removed, in the same activate call),
records `env_link_Surface ↦ EdgeRef l` in the backup, and the following
`deactivate()` still observes the original link and Background strength. -/
theorem C3_amended (gs : GState) (ident : Option PyIdent) (hwf : gs.scene.WF)
    (w : World) (output : Node) (sock : Socket) (l : LinkRef)
    (hw : gs.scene.world = some w) (hu : w.use_nodes = true)
    (hfo : w.node_tree.firstOfType NType.OUTPUT_WORLD = some output)
    (hgi : output.getInput "Surface" = some sock) (hlk : sock.links = [l]) :
    worldSocketLinks (activate gs Mode.ENVIRONMENT ident).scene "Surface" =
      some [l] ∧
    bgStrengthValue (activate gs Mode.ENVIRONMENT ident).scene =
      bgStrengthValue gs.scene ∧
    alookup (activate gs Mode.ENVIRONMENT ident).iso.backup
      (BKey.str ("env_link_" ++ "Surface")) = some (BVal.linkRef l) ∧
    worldSocketLinks (deactivate (activate gs Mode.ENVIRONMENT ident)).scene
      "Surface" = some [l] ∧
    bgStrengthValue (deactivate (activate gs Mode.ENVIRONMENT ident)).scene =
      bgStrengthValue gs.scene := by
  have htwi0 : treeWorldInput w.node_tree "Surface" = some sock := by
    unfold treeWorldInput
    rw [hfo]
    exact hgi
  have hhead : headLink output "Surface" = some l := by
    unfold headLink
    rw [hgi]
    dsimp only
    rw [hlk]
    rfl
  obtain ⟨NTA, hAw, hAS, hAV, hAbg⟩ :=
    activate_env_restored gs ident hwf w output hw hu hfo
  obtain ⟨NT, hNT, hS, hV2, hbgD⟩ :=
    roundtrip_world_main gs Mode.ENVIRONMENT ident hwf w output hw hu hfo
  have hbg0 : bgStrengthValue gs.scene =
      match w.node_tree.firstOfType NType.BACKGROUND with
      | none => none
      | some bg => (bg.getInput "Strength").map (fun s => s.value) := by
    unfold bgStrengthValue
    rw [hw]
  refine ⟨?_, ?_, ?_, ?_, ?_⟩
  · rw [worldSocketLinks_eq_twi, hAw]
    dsimp only
    rw [hAS, htwi0]
    dsimp only [Option.map_some']
    rw [hlk]
  · rw [bgsv_shape _ w NTA hAw hAbg, hbg0]
  · obtain ⟨-, -, hpre, -, -⟩ := hwf
    rw [activate_iso_backup, hw]
    rw [snapEnv_alookup_name w output _ hu hfo "Surface" (Or.inl rfl)
      (b2_fresh_env gs.scene _ hpre)]
    rw [hhead]
    rfl
  · rw [worldSocketLinks_eq_twi, hNT]
    dsimp only
    rw [hS, htwi0]
    dsimp only [Option.map_some']
    rw [hlk]
  · rw [bgsv_shape _ w NT hNT hbgD, hbg0]

/-- C1 (amended): for every well-formed starting scene and every target,
`deactivate()` immediately after `activate(target)` restores the strength
socket value of every emissive node found by the discovery whose material
has `use_nodes` set, and the world output's Surface/Volume link lists; a
light, however, is left with `hide_viewport = hide_render =
(hv₀ && hr₀)` and `light_enabled = !(hv₀ && hr₀)` — its original flags only
when they satisfied `hv₀ = hr₀ = !enabled₀`, not in general. -/
theorem C1_amended (gs : GState) (mode : Mode) (ident : Option PyIdent)
    (hwf : gs.scene.WF) :
    (∀ t ∈ (find_emissive_objects gs.scene gs.cache none).1,
      ∀ (nt : NodeTree) (v : SockVal),
      gs.scene.getMaterial t.2.1 = some (true, nt) →
      getTypeStrengthValue gs.scene t.2.1 t.2.2 = some v →
      getTypeStrengthValue (deactivate (activate gs mode ident)).scene
        t.2.1 t.2.2 = some v) ∧
    (∀ n, n = "Surface" ∨ n = "Volume" →
      worldSocketLinks (deactivate (activate gs mode ident)).scene n =
        worldSocketLinks gs.scene n) ∧
    (∀ o ∈ gs.scene.objects, o.otype = OType.LIGHT →
      (deactivate (activate gs mode ident)).scene.getObj o.name =
        some ⟨o.name, o.otype, o.hide_viewport && o.hide_render,
          o.hide_viewport && o.hide_render,
          !(o.hide_viewport && o.hide_render), o.material_slots⟩) := by
  refine ⟨?_, ?_, ?_⟩
  · intro t ht nt v hun hv
    exact c1_materials gs mode ident t nt v ht hun hv
  · intro n hn
    exact c1_world gs mode ident hwf n hn
  · intro o ho hl
    exact c1_lights gs mode ident hwf o ho hl

/-- C1 counterexample: the round trip is not the identity the claim states.
A light starting `hide_viewport = true, hide_render = false` comes back
with `hide_viewport = false`, and the strength socket of an emissive node
not used by any mesh object is zeroed by `force_all_off` but never
snapshotted, so it comes back `0` instead of `5`. -/
theorem C1_counterexample :
    ((freshGState sceneC1cex).scene.getObj "L").map (fun o => o.hide_viewport)
      = some true ∧
    ((deactivate (activate (freshGState sceneC1cex) Mode.LIGHT_GROUP
        none)).scene.getObj "L").map (fun o => o.hide_viewport)
      = some false ∧
    getTypeStrengthValue (freshGState sceneC1cex).scene "M" "E" =
      some (SockVal.scalar 5) ∧
    getTypeStrengthValue (deactivate (activate (freshGState sceneC1cex)
        Mode.LIGHT_GROUP none)).scene "M" "E" = some (SockVal.scalar 0) :=
  ⟨rfl, rfl, rfl, rfl⟩

/-- C1 witness: the amended round-trip theorem evaluated on a concrete
well-formed scene. -/
theorem C1_witness :
    sceneWit.WF ∧
    getTypeStrengthValue (deactivate (activate (freshGState sceneWit)
      Mode.LIGHT_GROUP none)).scene "M" "E" = some (SockVal.scalar 5) ∧
    worldSocketLinks (deactivate (activate (freshGState sceneWit)
      Mode.LIGHT_GROUP none)).scene "Surface" =
      worldSocketLinks sceneWit "Surface" ∧
    (deactivate (activate (freshGState sceneWit) Mode.LIGHT_GROUP
      none)).scene.getObj "L1" = some ⟨"L1", OType.LIGHT, false, false,
      true, []⟩ :=
  ⟨by decide,
   (C1_amended (freshGState sceneWit) Mode.LIGHT_GROUP none (by decide)).1
     ("O", ("M", "E")) (by decide)
     ((sceneWit.getMaterial "M").getD (true, ⟨[]⟩)).2 (SockVal.scalar 5)
     rfl rfl,
   (C1_amended (freshGState sceneWit) Mode.LIGHT_GROUP none (by decide)).2.1
     "Surface" (Or.inl rfl),
   (C1_amended (freshGState sceneWit) Mode.LIGHT_GROUP none (by decide)).2.2
     ⟨"L1", OType.LIGHT, false, false, true, []⟩ (by decide) rfl⟩

/-- C3 counterexample: after `activate(Environment, none)` on the scenario
scene the Background strength is still `1` (never zeroed) and the Surface
link is still present (re-created within the same call), contradicting the
claimed post-activate state of strength `0` with the link removed. -/
theorem C3_counterexample :
    bgStrengthValue (activate (freshGState sceneEnv) Mode.ENVIRONMENT
      none).scene = some (SockVal.scalar 1) ∧
    worldSocketLinks (activate (freshGState sceneEnv) Mode.ENVIRONMENT
      none).scene "Surface" = some [("N", "Shader")] :=
  ⟨rfl, rfl⟩

/-- C3 witness: the amended environment-isolation theorem evaluated on the
scenario scene. -/
theorem C3_witness :
    worldSocketLinks (activate (freshGState sceneEnv) Mode.ENVIRONMENT
      none).scene "Surface" = some [("N", "Shader")] ∧
    bgStrengthValue (activate (freshGState sceneEnv) Mode.ENVIRONMENT
      none).scene = bgStrengthValue (freshGState sceneEnv).scene ∧
    alookup (activate (freshGState sceneEnv) Mode.ENVIRONMENT
      none).iso.backup (BKey.str ("env_link_" ++ "Surface")) =
      some (BVal.linkRef ("N", "Shader")) ∧
    worldSocketLinks (deactivate (activate (freshGState sceneEnv)
      Mode.ENVIRONMENT none)).scene "Surface" = some [("N", "Shader")] ∧
    bgStrengthValue (deactivate (activate (freshGState sceneEnv)
      Mode.ENVIRONMENT none)).scene =
      bgStrengthValue (freshGState sceneEnv).scene :=
  C3_amended (freshGState sceneEnv) none (by decide)
    (sceneEnv.world.getD ⟨true, ⟨[]⟩⟩)
    (((sceneEnv.world.getD ⟨true, ⟨[]⟩⟩).node_tree.firstOfType
      NType.OUTPUT_WORLD).getD ⟨"", NType.OTHER, [], [], false⟩)
    ⟨"Surface", SockVal.scalar 0, [("N", "Shader")]⟩
    ("N", "Shader") rfl rfl rfl rfl rfl

/-- C7 (amended): the currently-contributing predicate requires BOTH the
strength and the color socket to exist, holds when either of the two is
linked, and otherwise requires the strength value positive AND some RGB
channel of the color positive; a Principled node without its emission
sockets is never classified emissive (there is no color-only fallback). -/
theorem C7_amended (node : Node) :
    is_emissive_node_active node = is_emissive_claimC7fix node := by
  unfold is_emissive_node_active is_emissive_claimC7fix
  cases hnt : node.ntype <;> dsimp only
  case EMISSION =>
    cases hs : node.getInput "Strength" with
    | none => rfl
    | some s =>
      cases hc : node.getInput "Color" with
      | none => rfl
      | some c =>
        dsimp only
        cases hls : s.is_linked <;> cases hlc : c.is_linked <;>
          simp [hls, hlc]
  case BSDF_PRINCIPLED =>
    cases hs : node.getInput "Emission Strength" with
    | none => rfl
    | some s =>
      cases hc : node.getInput "Emission Color" with
      | none => rfl
      | some c =>
        dsimp only
        cases hls : s.is_linked <;> cases hlc : c.is_linked <;>
          simp [hls, hlc]

/-- C7 counterexample: an Emission node with unlinked Strength `5` but pure
black color is emissive by the claim's wording yet inactive for the code,
which also tests the color channels. -/
theorem C7_counterexample :
    is_emissive_claimC7 cexEmNode = true ∧
    is_emissive_node_active cexEmNode = false := ⟨rfl, rfl⟩
